import Mathlib

/-!
# Go concurrency examples: WaitGroup barrier and the three race-condition programs

A shallow embedding of the four example programs

* `6-Waitgroups/UsingWaitgroups.go`
* `9-Race_Conditions/1/1-raceConditionProblem.go`
* `9-Race_Conditions/2/2-raceConditionMutex.go`
* `9-Race_Conditions/3/3-raceConditionAtomic.go`

Every program is a small-step transition system: a state records the shared
variables (`wg`, `mutex`, `widgetInventory`), the program point of `main` and of
the two goroutines, and what was written to stdout.  A scheduler picks which
thread takes the next step; a schedule is a list of such picks.
-/

namespace GoUpConcur

/-! ## Go primitives used by the programs -/

/-- Go `int32` arithmetic: the mathematical result is wrapped into
`[-2^31, 2^31)` (two's complement). -/
def wrapInt32 (x : Int) : Int :=
  (x + 2147483648) % 4294967296 - 2147483648

/-- Result of letting one thread take a step: the thread cannot move
(`blocked`: not started, waiting, or already returned), the program dies
(`panic`), or the program moves to the state `s`. -/
inductive Outcome (σ : Type) where
  | blocked : Outcome σ
  | panic : Outcome σ
  | next (s : σ) : Outcome σ
  deriving DecidableEq, Repr

/-- Go `sync.WaitGroup`: the number of outstanding tasks. -/
structure WaitGroup where
  counter : Int
  deriving DecidableEq, Repr

/-- Go `wg.Add(delta)`: adds `delta` to the counter; `none` is the runtime panic
"sync: negative WaitGroup counter". -/
def WaitGroup.Add (wg : WaitGroup) (delta : Int) : Option WaitGroup :=
  if wg.counter + delta < 0 then none else some ⟨wg.counter + delta⟩

/-- Go `wg.Done()`, which is `wg.Add(-1)`. -/
def WaitGroup.Done (wg : WaitGroup) : Option WaitGroup :=
  wg.Add (-1)

/-- Go `wg.Wait()` may return exactly when the counter is zero. -/
def WaitGroup.Wait (wg : WaitGroup) : Bool :=
  wg.counter == 0

/-- Go `sync.Mutex`: locked or not (a Go mutex records no owner). -/
structure Mutex where
  locked : Bool
  deriving DecidableEq, Repr

/-- Go `mutex.Lock()`: `none` when the caller has to wait. -/
def Mutex.Lock (m : Mutex) : Option Mutex :=
  if m.locked then none else some ⟨true⟩

/-- Go `mutex.Unlock()`: `none` is the fatal error "unlock of unlocked mutex". -/
def Mutex.Unlock (m : Mutex) : Option Mutex :=
  if m.locked then some ⟨false⟩ else none

/-- Go `atomic.AddInt32(addr, delta)`: one indivisible add on an `int32`. -/
def atomicAddInt32 (v delta : Int) : Int :=
  wrapInt32 (v + delta)

/-- Run a schedule (the list of threads the scheduler picks, in order) with the
step function `step`; `none` when a scheduled thread cannot move or the program
panics. -/
def runWith {σ τ : Type} (step : τ → σ → Outcome σ) : List τ → σ → Option σ
  | [], s => some s
  | t :: ts, s =>
    match step t s with
    | .next s' => runWith step ts s'
    | _ => none

/-- The schedule `block` repeated `k` times. -/
def times {τ : Type} : Nat → List τ → List τ
  | 0, _ => []
  | k + 1, block => block ++ times k block

/-! ## Vocabulary shared by the three race-condition programs -/

/-- The three threads of a race-condition program. -/
inductive Thread where
  | main
  | makeSales
  | newPurchases
  deriving DecidableEq, Repr

/-- Lines the race-condition programs print. -/
inductive Line where
  | starting (v : Int)
  | ending (v : Int)
  deriving DecidableEq, Repr

/-- History of the synchronisation-relevant actions performed so far (an
auxiliary variable: no step reads it). -/
inductive Event (τ : Type) where
  | add (n : Int)
  | done (t : τ)
  | write (t : τ)
  deriving DecidableEq, Repr

/-- Total registered with `wg.Add` in a history. -/
def registered {τ : Type} : List (Event τ) → Int
  | [] => 0
  | .add n :: es => n + registered es
  | _ :: es => registered es

/-- Number of `wg.Done` calls in a history. -/
def doneCalls {τ : Type} : List (Event τ) → Int
  | [] => 0
  | .done _ :: es => 1 + doneCalls es
  | _ :: es => doneCalls es

/-- The threads that updated the counter, in the order of their updates. -/
def writers {τ : Type} : List (Event τ) → List τ
  | [] => []
  | .write t :: es => t :: writers es
  | _ :: es => writers es

/-- Program points of `main` (identical in the three race-condition programs):
the statement `main` executes next. -/
inductive MainPc where
  | printStart
  | wgAdd
  | goMakeSales
  | goNewPurchases
  | wgWait
  | printEnd
  | exited
  deriving DecidableEq, Repr

/-- What `main` has registered with `wg.Add` once it stands at this point. -/
def addedBy : MainPc → Int
  | .printStart => 0
  | .wgAdd => 0
  | .goMakeSales => 2
  | .goNewPurchases => 2
  | .wgWait => 2
  | .printEnd => 2
  | .exited => 2

/-- Whether `main` has executed `go makeSales()`. -/
def launchedSales : MainPc → Bool
  | .printStart => false
  | .wgAdd => false
  | .goMakeSales => false
  | .goNewPurchases => true
  | .wgWait => true
  | .printEnd => true
  | .exited => true

/-- Whether `main` has executed `go newPurchases()`. -/
def launchedPurchases : MainPc → Bool
  | .printStart => false
  | .wgAdd => false
  | .goMakeSales => false
  | .goNewPurchases => false
  | .wgWait => true
  | .printEnd => true
  | .exited => true

/-- Whether `wg.Wait()` has returned in `main`. -/
def pastWait : MainPc → Bool
  | .printStart => false
  | .wgAdd => false
  | .goMakeSales => false
  | .goNewPurchases => false
  | .wgWait => false
  | .printEnd => true
  | .exited => true

/-- What `main` has printed once it stands at this point, given the two values
it read. -/
def printedBy (a b : Int) : MainPc → List Line
  | .printStart => []
  | .wgAdd => [.starting a]
  | .goMakeSales => [.starting a]
  | .goNewPurchases => [.starting a]
  | .wgWait => [.starting a]
  | .printEnd => [.starting a]
  | .exited => [.starting a, .ending b]

/-- Steps `main` still has to take from this program point. -/
def mainFuel : MainPc → Nat
  | .printStart => 6
  | .wgAdd => 5
  | .goMakeSales => 4
  | .goNewPurchases => 3
  | .wgWait => 2
  | .printEnd => 1
  | .exited => 0

/-- An interleaving of the serialized steps of the two tasks in the mutex and
atomic programs: 300000 steps of each, none of `main`. -/
def IsInterleaving (l : List Thread) : Prop :=
  l.count .makeSales = 300000 ∧ l.count .newPurchases = 300000 ∧ l.count .main = 0

/-! ## `2-raceConditionMutex.go` -/

namespace RaceMutex

/-- Program points of `makeSales` / `newPurchases`; `i` is the number of
completed loop iterations. `loop i` stands at the `for` header (next: `Lock`,
or `wg.Done` once the range is exhausted), `mutate i` holds the lock before the
update, `unlock i` holds it after the update. -/
inductive WorkerPc where
  | notStarted
  | loop (i : Nat)
  | mutate (i : Nat)
  | unlock (i : Nat)
  | returned
  deriving DecidableEq, Repr

/-- Program state. -/
structure State where
  wg : WaitGroup
  mutex : Mutex
  widgetInventory : Int
  mainPc : MainPc
  salesPc : WorkerPc
  purchasesPc : WorkerPc
  stdout : List Line
  trace : List (Event Thread)
  deriving DecidableEq, Repr

/-- Package-level initial values. -/
def init : State where
  wg := ⟨0⟩
  mutex := ⟨false⟩
  widgetInventory := 1000
  mainPc := .printStart
  salesPc := .notStarted
  purchasesPc := .notStarted
  stdout := []
  trace := []

/-- One step of `main`. -/
def main (s : State) : Outcome State :=
  match s.mainPc with
  | .printStart =>
    .next { s with stdout := s.stdout ++ [.starting s.widgetInventory], mainPc := .wgAdd }
  | .wgAdd =>
    match s.wg.Add 2 with
    | none => .panic
    | some w => .next { s with wg := w, trace := s.trace ++ [.add 2], mainPc := .goMakeSales }
  | .goMakeSales => .next { s with salesPc := .loop 0, mainPc := .goNewPurchases }
  | .goNewPurchases => .next { s with purchasesPc := .loop 0, mainPc := .wgWait }
  | .wgWait => if s.wg.Wait then .next { s with mainPc := .printEnd } else .blocked
  | .printEnd =>
    .next { s with stdout := s.stdout ++ [.ending s.widgetInventory], mainPc := .exited }
  | .exited => .blocked

/-- One step of `makeSales`. -/
def makeSales (s : State) : Outcome State :=
  match s.salesPc with
  | .notStarted => .blocked
  | .loop i =>
    if i < 300000 then
      match s.mutex.Lock with
      | none => .blocked
      | some m => .next { s with mutex := m, salesPc := .mutate i }
    else
      match s.wg.Done with
      | none => .panic
      | some w =>
        .next { s with wg := w, trace := s.trace ++ [.done .makeSales], salesPc := .returned }
  | .mutate i =>
    .next { s with widgetInventory := wrapInt32 (s.widgetInventory - 100),
                   trace := s.trace ++ [.write .makeSales], salesPc := .unlock i }
  | .unlock i =>
    match s.mutex.Unlock with
    | none => .panic
    | some m => .next { s with mutex := m, salesPc := .loop (i + 1) }
  | .returned => .blocked

/-- One step of `newPurchases`. -/
def newPurchases (s : State) : Outcome State :=
  match s.purchasesPc with
  | .notStarted => .blocked
  | .loop i =>
    if i < 300000 then
      match s.mutex.Lock with
      | none => .blocked
      | some m => .next { s with mutex := m, purchasesPc := .mutate i }
    else
      match s.wg.Done with
      | none => .panic
      | some w =>
        .next { s with wg := w, trace := s.trace ++ [.done .newPurchases],
                       purchasesPc := .returned }
  | .mutate i =>
    .next { s with widgetInventory := wrapInt32 (s.widgetInventory + 100),
                   trace := s.trace ++ [.write .newPurchases], purchasesPc := .unlock i }
  | .unlock i =>
    match s.mutex.Unlock with
    | none => .panic
    | some m => .next { s with mutex := m, purchasesPc := .loop (i + 1) }
  | .returned => .blocked

/-- The scheduler lets thread `t` take its next step. Once `main` has returned
the process is gone and nothing runs. -/
def step (t : Thread) (s : State) : Outcome State :=
  if s.mainPc = .exited then .blocked
  else
    match t with
    | .main => main s
    | .makeSales => makeSales s
    | .newPurchases => newPurchases s

/-- Run a schedule from the state `s`. -/
def run (sched : List Thread) (s : State) : Option State :=
  runWith step sched s

/-- Whether the thread at this program point is between `Lock` and `Unlock`. -/
def WorkerPc.holdsLock : WorkerPc → Bool
  | .notStarted => false
  | .loop _ => false
  | .mutate _ => true
  | .unlock _ => true
  | .returned => false

/-- Number of counter updates the worker at this program point has performed. -/
def WorkerPc.applied : WorkerPc → Nat
  | .notStarted => 0
  | .loop i => i
  | .mutate i => i
  | .unlock i => i + 1
  | .returned => 300000

/-- Number of `wg.Done` calls the worker at this program point has made. -/
def WorkerPc.doneCount : WorkerPc → Int
  | .notStarted => 0
  | .loop _ => 0
  | .mutate _ => 0
  | .unlock _ => 0
  | .returned => 1

/-- Whether the goroutine has been launched. -/
def WorkerPc.started : WorkerPc → Bool
  | .notStarted => false
  | .loop _ => true
  | .mutate _ => true
  | .unlock _ => true
  | .returned => true

/-- Loop indices stay within the range of the `for`. -/
def WorkerPc.inRange : WorkerPc → Prop
  | .notStarted => True
  | .loop i => i ≤ 300000
  | .mutate i => i < 300000
  | .unlock i => i < 300000
  | .returned => True

/-- The counter update of one serialized step of thread `t` (the body of its
critical section). -/
def serialStep (w : Int) : Thread → Int
  | .main => w
  | .makeSales => wrapInt32 (w - 100)
  | .newPurchases => wrapInt32 (w + 100)

/-- The counter after the serialized steps `l`, applied in order to `w`. -/
def serial (l : List Thread) (w : Int) : Int :=
  l.foldl serialStep w

/-- Steps the worker at this program point still has to take. -/
def WorkerPc.fuel : WorkerPc → Nat
  | .notStarted => 900001
  | .loop i => 3 * (300000 - i) + 1
  | .mutate i => 3 * (300000 - i)
  | .unlock i => 3 * (300000 - i) - 1
  | .returned => 0

/-- Steps the program still has to take. -/
def fuel (s : State) : Nat :=
  mainFuel s.mainPc + s.salesPc.fuel + s.purchasesPc.fuel

/-- Invariant of the mutex program. -/
structure Inv (s : State) : Prop where
  salesRange : s.salesPc.inRange
  purchasesRange : s.purchasesPc.inRange
  lockHeld : s.mutex.locked = (s.salesPc.holdsLock || s.purchasesPc.holdsLock)
  exclusive : ¬ (s.salesPc.holdsLock = true ∧ s.purchasesPc.holdsLock = true)
  counter : s.wg.counter = registered s.trace - doneCalls s.trace
  adds : registered s.trace = addedBy s.mainPc
  dones : doneCalls s.trace = s.salesPc.doneCount + s.purchasesPc.doneCount
  salesDone : (s.trace.count (.done .makeSales) : Int) = s.salesPc.doneCount
  purchasesDone : (s.trace.count (.done .newPurchases) : Int) = s.purchasesPc.doneCount
  mainDone : s.trace.count (.done .main) = 0
  salesStarted : launchedSales s.mainPc = s.salesPc.started
  purchasesStarted : launchedPurchases s.mainPc = s.purchasesPc.started
  waited : pastWait s.mainPc = true → s.salesPc = .returned ∧ s.purchasesPc = .returned
  salesWrites : (writers s.trace).count .makeSales = s.salesPc.applied
  purchasesWrites : (writers s.trace).count .newPurchases = s.purchasesPc.applied
  mainWrites : (writers s.trace).count .main = 0
  value : s.widgetInventory = 1000 + 100 * s.purchasesPc.applied - 100 * s.salesPc.applied
  serialized : s.widgetInventory = serial (writers s.trace) 1000
  printed : s.stdout = printedBy 1000 1000 s.mainPc

/-- The four steps of `main` up to `wg.Wait()`: print, `wg.Add(2)` and the two
`go` statements. -/
def launch : List Thread :=
  [.main, .main, .main, .main]

/-- The state in which `main` stands at `wg.Wait()` and both goroutines are about
to start their loop. -/
def launched : State where
  wg := ⟨2⟩
  mutex := ⟨false⟩
  widgetInventory := 1000
  mainPc := .wgWait
  salesPc := .loop 0
  purchasesPc := .loop 0
  stdout := [.starting 1000]
  trace := [.add 2]

/-- All of `makeSales`: 300000 times `Lock`, update, `Unlock`. -/
def allSales : List Thread :=
  times 300000 [.makeSales, .makeSales, .makeSales]

/-- All of `newPurchases`: 300000 times `Lock`, update, `Unlock`. -/
def allPurchases : List Thread :=
  times 300000 [.newPurchases, .newPurchases, .newPurchases]

/-- The schedule that runs `main` up to `wg.Wait`, then all of `makeSales` and
its `wg.Done`, then all of `newPurchases` and its `wg.Done`, then `wg.Wait` and
the final print of `main`. -/
def sequential : List Thread :=
  launch ++ (allSales ++ (.makeSales :: (allPurchases ++ [.newPurchases, .main, .main])))

/-- The schedule that runs `main` up to `wg.Wait`, then every loop iteration of
`makeSales` (but not yet its `wg.Done`), then lets `newPurchases` take the lock. -/
def salesDoneWhileLocked : List Thread :=
  launch ++ (allSales ++ [.newPurchases])

end RaceMutex

/-! ## `3-raceConditionAtomic.go` -/

namespace RaceAtomic

/-- Program points of `makeSales` / `newPurchases`; `loop i` stands at the `for`
header with `i` iterations completed (next: the atomic add, or `wg.Done` once
the range is exhausted). -/
inductive WorkerPc where
  | notStarted
  | loop (i : Nat)
  | returned
  deriving DecidableEq, Repr

/-- Program state. -/
structure State where
  wg : WaitGroup
  widgetInventory : Int
  mainPc : MainPc
  salesPc : WorkerPc
  purchasesPc : WorkerPc
  stdout : List Line
  trace : List (Event Thread)
  deriving DecidableEq, Repr

/-- Package-level initial values. -/
def init : State where
  wg := ⟨0⟩
  widgetInventory := 1000
  mainPc := .printStart
  salesPc := .notStarted
  purchasesPc := .notStarted
  stdout := []
  trace := []

/-- One step of `main`. -/
def main (s : State) : Outcome State :=
  match s.mainPc with
  | .printStart =>
    .next { s with stdout := s.stdout ++ [.starting s.widgetInventory], mainPc := .wgAdd }
  | .wgAdd =>
    match s.wg.Add 2 with
    | none => .panic
    | some w => .next { s with wg := w, trace := s.trace ++ [.add 2], mainPc := .goMakeSales }
  | .goMakeSales => .next { s with salesPc := .loop 0, mainPc := .goNewPurchases }
  | .goNewPurchases => .next { s with purchasesPc := .loop 0, mainPc := .wgWait }
  | .wgWait => if s.wg.Wait then .next { s with mainPc := .printEnd } else .blocked
  | .printEnd =>
    .next { s with stdout := s.stdout ++ [.ending s.widgetInventory], mainPc := .exited }
  | .exited => .blocked

/-- One step of `makeSales`. -/
def makeSales (s : State) : Outcome State :=
  match s.salesPc with
  | .notStarted => .blocked
  | .loop i =>
    if i < 300000 then
      .next { s with widgetInventory := atomicAddInt32 s.widgetInventory (-100),
                     trace := s.trace ++ [.write .makeSales], salesPc := .loop (i + 1) }
    else
      match s.wg.Done with
      | none => .panic
      | some w =>
        .next { s with wg := w, trace := s.trace ++ [.done .makeSales], salesPc := .returned }
  | .returned => .blocked

/-- One step of `newPurchases`. -/
def newPurchases (s : State) : Outcome State :=
  match s.purchasesPc with
  | .notStarted => .blocked
  | .loop i =>
    if i < 300000 then
      .next { s with widgetInventory := atomicAddInt32 s.widgetInventory 100,
                     trace := s.trace ++ [.write .newPurchases], purchasesPc := .loop (i + 1) }
    else
      match s.wg.Done with
      | none => .panic
      | some w =>
        .next { s with wg := w, trace := s.trace ++ [.done .newPurchases],
                       purchasesPc := .returned }
  | .returned => .blocked

/-- The scheduler lets thread `t` take its next step. Once `main` has returned
the process is gone and nothing runs. -/
def step (t : Thread) (s : State) : Outcome State :=
  if s.mainPc = .exited then .blocked
  else
    match t with
    | .main => main s
    | .makeSales => makeSales s
    | .newPurchases => newPurchases s

/-- Run a schedule from the state `s`. -/
def run (sched : List Thread) (s : State) : Option State :=
  runWith step sched s

/-- Number of counter updates the worker at this program point has performed. -/
def WorkerPc.applied : WorkerPc → Nat
  | .notStarted => 0
  | .loop i => i
  | .returned => 300000

/-- Number of `wg.Done` calls the worker at this program point has made. -/
def WorkerPc.doneCount : WorkerPc → Int
  | .notStarted => 0
  | .loop _ => 0
  | .returned => 1

/-- Whether the goroutine has been launched. -/
def WorkerPc.started : WorkerPc → Bool
  | .notStarted => false
  | .loop _ => true
  | .returned => true

/-- Loop indices stay within the range of the `for`. -/
def WorkerPc.inRange : WorkerPc → Prop
  | .notStarted => True
  | .loop i => i ≤ 300000
  | .returned => True

/-- The counter update of one atomic step of thread `t`. -/
def serialStep (w : Int) : Thread → Int
  | .main => w
  | .makeSales => atomicAddInt32 w (-100)
  | .newPurchases => atomicAddInt32 w 100

/-- The counter after the atomic steps `l`, applied in order to `w`. -/
def serial (l : List Thread) (w : Int) : Int :=
  l.foldl serialStep w

/-- Steps the worker at this program point still has to take. -/
def WorkerPc.fuel : WorkerPc → Nat
  | .notStarted => 300001
  | .loop i => (300000 - i) + 1
  | .returned => 0

/-- Steps the program still has to take. -/
def fuel (s : State) : Nat :=
  mainFuel s.mainPc + s.salesPc.fuel + s.purchasesPc.fuel

/-- Invariant of the atomic program. -/
structure Inv (s : State) : Prop where
  salesRange : s.salesPc.inRange
  purchasesRange : s.purchasesPc.inRange
  counter : s.wg.counter = registered s.trace - doneCalls s.trace
  adds : registered s.trace = addedBy s.mainPc
  dones : doneCalls s.trace = s.salesPc.doneCount + s.purchasesPc.doneCount
  salesDone : (s.trace.count (.done .makeSales) : Int) = s.salesPc.doneCount
  purchasesDone : (s.trace.count (.done .newPurchases) : Int) = s.purchasesPc.doneCount
  mainDone : s.trace.count (.done .main) = 0
  salesStarted : launchedSales s.mainPc = s.salesPc.started
  purchasesStarted : launchedPurchases s.mainPc = s.purchasesPc.started
  waited : pastWait s.mainPc = true → s.salesPc = .returned ∧ s.purchasesPc = .returned
  salesWrites : (writers s.trace).count .makeSales = s.salesPc.applied
  purchasesWrites : (writers s.trace).count .newPurchases = s.purchasesPc.applied
  mainWrites : (writers s.trace).count .main = 0
  value : s.widgetInventory = 1000 + 100 * s.purchasesPc.applied - 100 * s.salesPc.applied
  serialized : s.widgetInventory = serial (writers s.trace) 1000
  printed : s.stdout = printedBy 1000 1000 s.mainPc

/-- The four steps of `main` up to `wg.Wait()`: print, `wg.Add(2)` and the two
`go` statements. -/
def launch : List Thread :=
  [.main, .main, .main, .main]

/-- The state in which `main` stands at `wg.Wait()` and both goroutines are about
to start their loop. -/
def launched : State where
  wg := ⟨2⟩
  widgetInventory := 1000
  mainPc := .wgWait
  salesPc := .loop 0
  purchasesPc := .loop 0
  stdout := [.starting 1000]
  trace := [.add 2]

/-- All of `makeSales`: 300000 atomic adds. -/
def allSales : List Thread :=
  times 300000 [.makeSales]

/-- All of `newPurchases`: 300000 atomic adds. -/
def allPurchases : List Thread :=
  times 300000 [.newPurchases]

/-- The schedule that runs `main` up to `wg.Wait`, then all of `makeSales` and
its `wg.Done`, then all of `newPurchases` and its `wg.Done`, then `wg.Wait` and
the final print of `main`. -/
def sequential : List Thread :=
  launch ++ (allSales ++ (.makeSales :: (allPurchases ++ [.newPurchases, .main, .main])))

end RaceAtomic

/-! ## `1-raceConditionProblem.go` -/

namespace RaceProblem

/-- Program points of `makeSales` / `newPurchases`. The unsynchronized
`widgetInventory -= 100` is a read followed by a write: `loop i` stands at the
`for` header with `i` iterations completed (next: the read, or `wg.Done` once the
range is exhausted), `store i v` has read the value `v` and writes next. -/
inductive WorkerPc where
  | notStarted
  | loop (i : Nat)
  | store (i : Nat) (v : Int)
  | returned
  deriving DecidableEq, Repr

/-- Program state. -/
structure State where
  wg : WaitGroup
  widgetInventory : Int
  mainPc : MainPc
  salesPc : WorkerPc
  purchasesPc : WorkerPc
  stdout : List Line
  trace : List (Event Thread)
  deriving DecidableEq, Repr

/-- Package-level initial values. -/
def init : State where
  wg := ⟨0⟩
  widgetInventory := 1000
  mainPc := .printStart
  salesPc := .notStarted
  purchasesPc := .notStarted
  stdout := []
  trace := []

/-- One step of `main`. -/
def main (s : State) : Outcome State :=
  match s.mainPc with
  | .printStart =>
    .next { s with stdout := s.stdout ++ [.starting s.widgetInventory], mainPc := .wgAdd }
  | .wgAdd =>
    match s.wg.Add 2 with
    | none => .panic
    | some w => .next { s with wg := w, trace := s.trace ++ [.add 2], mainPc := .goMakeSales }
  | .goMakeSales => .next { s with salesPc := .loop 0, mainPc := .goNewPurchases }
  | .goNewPurchases => .next { s with purchasesPc := .loop 0, mainPc := .wgWait }
  | .wgWait => if s.wg.Wait then .next { s with mainPc := .printEnd } else .blocked
  | .printEnd =>
    .next { s with stdout := s.stdout ++ [.ending s.widgetInventory], mainPc := .exited }
  | .exited => .blocked

/-- One step of `makeSales`. -/
def makeSales (s : State) : Outcome State :=
  match s.salesPc with
  | .notStarted => .blocked
  | .loop i =>
    if i < 3000 then
      .next { s with salesPc := .store i s.widgetInventory }
    else
      match s.wg.Done with
      | none => .panic
      | some w =>
        .next { s with wg := w, trace := s.trace ++ [.done .makeSales], salesPc := .returned }
  | .store i v =>
    .next { s with widgetInventory := wrapInt32 (v - 100),
                   trace := s.trace ++ [.write .makeSales], salesPc := .loop (i + 1) }
  | .returned => .blocked

/-- One step of `newPurchases`. -/
def newPurchases (s : State) : Outcome State :=
  match s.purchasesPc with
  | .notStarted => .blocked
  | .loop i =>
    if i < 3000 then
      .next { s with purchasesPc := .store i s.widgetInventory }
    else
      match s.wg.Done with
      | none => .panic
      | some w =>
        .next { s with wg := w, trace := s.trace ++ [.done .newPurchases],
                       purchasesPc := .returned }
  | .store i v =>
    .next { s with widgetInventory := wrapInt32 (v + 100),
                   trace := s.trace ++ [.write .newPurchases], purchasesPc := .loop (i + 1) }
  | .returned => .blocked

/-- The scheduler lets thread `t` take its next step. Once `main` has returned
the process is gone and nothing runs. -/
def step (t : Thread) (s : State) : Outcome State :=
  if s.mainPc = .exited then .blocked
  else
    match t with
    | .main => main s
    | .makeSales => makeSales s
    | .newPurchases => newPurchases s

/-- Run a schedule from the state `s`. -/
def run (sched : List Thread) (s : State) : Option State :=
  runWith step sched s

/-- Number of counter updates the worker at this program point has performed. -/
def WorkerPc.applied : WorkerPc → Nat
  | .notStarted => 0
  | .loop i => i
  | .store i _ => i
  | .returned => 3000

/-- Number of `wg.Done` calls the worker at this program point has made. -/
def WorkerPc.doneCount : WorkerPc → Int
  | .notStarted => 0
  | .loop _ => 0
  | .store _ _ => 0
  | .returned => 1

/-- Whether the goroutine has been launched. -/
def WorkerPc.started : WorkerPc → Bool
  | .notStarted => false
  | .loop _ => true
  | .store _ _ => true
  | .returned => true

/-- Loop indices stay within the range of the `for`. -/
def WorkerPc.inRange : WorkerPc → Prop
  | .notStarted => True
  | .loop i => i ≤ 3000
  | .store i _ => i < 3000
  | .returned => True

/-- Steps the worker at this program point still has to take. -/
def WorkerPc.fuel : WorkerPc → Nat
  | .notStarted => 6001
  | .loop i => 2 * (3000 - i) + 1
  | .store i _ => 2 * (3000 - i)
  | .returned => 0

/-- Steps the program still has to take. -/
def fuel (s : State) : Nat :=
  mainFuel s.mainPc + s.salesPc.fuel + s.purchasesPc.fuel

/-- Invariant of the unsynchronized program. -/
structure Inv (s : State) : Prop where
  salesRange : s.salesPc.inRange
  purchasesRange : s.purchasesPc.inRange
  counter : s.wg.counter = registered s.trace - doneCalls s.trace
  adds : registered s.trace = addedBy s.mainPc
  dones : doneCalls s.trace = s.salesPc.doneCount + s.purchasesPc.doneCount
  salesDone : (s.trace.count (.done .makeSales) : Int) = s.salesPc.doneCount
  purchasesDone : (s.trace.count (.done .newPurchases) : Int) = s.purchasesPc.doneCount
  mainDone : s.trace.count (.done .main) = 0
  salesStarted : launchedSales s.mainPc = s.salesPc.started
  purchasesStarted : launchedPurchases s.mainPc = s.purchasesPc.started
  waited : pastWait s.mainPc = true → s.salesPc = .returned ∧ s.purchasesPc = .returned
  salesWrites : (writers s.trace).count .makeSales = s.salesPc.applied
  purchasesWrites : (writers s.trace).count .newPurchases = s.purchasesPc.applied
  mainWrites : (writers s.trace).count .main = 0
  untouched : launchedSales s.mainPc = false → s.widgetInventory = 1000
  printed : ∃ v, s.stdout = printedBy 1000 v s.mainPc

/-- The four steps of `main` up to `wg.Wait()`: print, `wg.Add(2)` and the two
`go` statements. -/
def launch : List Thread :=
  [.main, .main, .main, .main]

/-- The state in which `main` stands at `wg.Wait()` and both goroutines are about
to start their loop. -/
def launched : State where
  wg := ⟨2⟩
  widgetInventory := 1000
  mainPc := .wgWait
  salesPc := .loop 0
  purchasesPc := .loop 0
  stdout := [.starting 1000]
  trace := [.add 2]

/-- The schedule that runs `main` up to `wg.Wait`, then all of `makeSales` (3000
times read, write) and its `wg.Done`, then all of `newPurchases` and its
`wg.Done`, then `wg.Wait` and the final print of `main`. -/
def sequential : List Thread :=
  launch ++ (times 3000 [.makeSales, .makeSales] ++ (.makeSales ::
    (times 3000 [.newPurchases, .newPurchases] ++ [.newPurchases, .main, .main])))

/-- A schedule with a lost update: in their first iteration both tasks read the
counter before either writes it back; afterwards `makeSales` runs its remaining
2999 iterations and `wg.Done`, then `newPurchases` does, then `main` finishes. -/
def lostUpdate : List Thread :=
  launch ++ ([.makeSales, .newPurchases, .makeSales, .newPurchases] ++
    (times 2999 [.makeSales, .makeSales] ++ (.makeSales ::
    (times 2999 [.newPurchases, .newPurchases] ++ [.newPurchases, .main, .main]))))

end RaceProblem

/-! ## `UsingWaitgroups.go` -/

namespace Waitgroups

/-- The three threads of the program. -/
inductive Thread where
  | main
  | doSomething
  | doSomethingElse
  deriving DecidableEq, Repr

/-- Lines written to stdout: "I've done something", "I've done something else",
"I guess I'm done" and "Processes took ..." (the elapsed time is not modelled). -/
inductive Line where
  | iveDoneSomething
  | iveDoneSomethingElse
  | iGuessImDone
  | processesTook
  deriving DecidableEq, Repr

/-- Program points of `main`: the statement executed next. -/
inductive MainPc where
  | timeNow
  | newWaitGroup
  | wgAdd1
  | goDoSomething
  | wgAdd2
  | goDoSomethingElse
  | wgWait
  | printDone
  | printElapsed
  | exited
  deriving DecidableEq, Repr

/-- Program points of `doSomething` / `doSomethingElse`: `deferDone` registers
the deferred `wg.Done()`, `deferred` is the function returning, when the deferred
call runs. -/
inductive WorkerPc where
  | notStarted
  | deferDone
  | sleep
  | println
  | deferred
  | returned
  deriving DecidableEq, Repr

/-- Program state. -/
structure State where
  wg : WaitGroup
  mainPc : MainPc
  somethingPc : WorkerPc
  somethingElsePc : WorkerPc
  stdout : List Line
  trace : List (Event Thread)
  deriving DecidableEq, Repr

/-- Initial state. -/
def init : State where
  wg := ⟨0⟩
  mainPc := .timeNow
  somethingPc := .notStarted
  somethingElsePc := .notStarted
  stdout := []
  trace := []

/-- One step of `main`. -/
def main (s : State) : Outcome State :=
  match s.mainPc with
  | .timeNow => .next { s with mainPc := .newWaitGroup }
  | .newWaitGroup => .next { s with wg := ⟨0⟩, mainPc := .wgAdd1 }
  | .wgAdd1 =>
    match s.wg.Add 1 with
    | none => .panic
    | some w => .next { s with wg := w, trace := s.trace ++ [.add 1], mainPc := .goDoSomething }
  | .goDoSomething => .next { s with somethingPc := .deferDone, mainPc := .wgAdd2 }
  | .wgAdd2 =>
    match s.wg.Add 1 with
    | none => .panic
    | some w =>
      .next { s with wg := w, trace := s.trace ++ [.add 1], mainPc := .goDoSomethingElse }
  | .goDoSomethingElse => .next { s with somethingElsePc := .deferDone, mainPc := .wgWait }
  | .wgWait => if s.wg.Wait then .next { s with mainPc := .printDone } else .blocked
  | .printDone => .next { s with stdout := s.stdout ++ [.iGuessImDone], mainPc := .printElapsed }
  | .printElapsed => .next { s with stdout := s.stdout ++ [.processesTook], mainPc := .exited }
  | .exited => .blocked

/-- One step of `doSomething`. -/
def doSomething (s : State) : Outcome State :=
  match s.somethingPc with
  | .notStarted => .blocked
  | .deferDone => .next { s with somethingPc := .sleep }
  | .sleep => .next { s with somethingPc := .println }
  | .println => .next { s with stdout := s.stdout ++ [.iveDoneSomething], somethingPc := .deferred }
  | .deferred =>
    match s.wg.Done with
    | none => .panic
    | some w =>
      .next { s with wg := w, trace := s.trace ++ [.done .doSomething], somethingPc := .returned }
  | .returned => .blocked

/-- One step of `doSomethingElse`. -/
def doSomethingElse (s : State) : Outcome State :=
  match s.somethingElsePc with
  | .notStarted => .blocked
  | .deferDone => .next { s with somethingElsePc := .sleep }
  | .sleep => .next { s with somethingElsePc := .println }
  | .println =>
    .next { s with stdout := s.stdout ++ [.iveDoneSomethingElse], somethingElsePc := .deferred }
  | .deferred =>
    match s.wg.Done with
    | none => .panic
    | some w =>
      .next { s with wg := w, trace := s.trace ++ [.done .doSomethingElse],
                     somethingElsePc := .returned }
  | .returned => .blocked

/-- The scheduler lets thread `t` take its next step. Once `main` has returned
the process is gone and nothing runs. -/
def step (t : Thread) (s : State) : Outcome State :=
  if s.mainPc = .exited then .blocked
  else
    match t with
    | .main => main s
    | .doSomething => doSomething s
    | .doSomethingElse => doSomethingElse s

/-- Run a schedule from the state `s`. -/
def run (sched : List Thread) (s : State) : Option State :=
  runWith step sched s

/-- What `main` has registered with `wg.Add` once it stands at this point. -/
def addedBy : MainPc → Int
  | .timeNow => 0
  | .newWaitGroup => 0
  | .wgAdd1 => 0
  | .goDoSomething => 1
  | .wgAdd2 => 1
  | .goDoSomethingElse => 2
  | .wgWait => 2
  | .printDone => 2
  | .printElapsed => 2
  | .exited => 2

/-- Whether `main` has executed `go doSomething(&wg)`. -/
def launchedSomething : MainPc → Bool
  | .timeNow => false
  | .newWaitGroup => false
  | .wgAdd1 => false
  | .goDoSomething => false
  | .wgAdd2 => true
  | .goDoSomethingElse => true
  | .wgWait => true
  | .printDone => true
  | .printElapsed => true
  | .exited => true

/-- Whether `main` has executed `go doSomethingElse(&wg)`. -/
def launchedSomethingElse : MainPc → Bool
  | .timeNow => false
  | .newWaitGroup => false
  | .wgAdd1 => false
  | .goDoSomething => false
  | .wgAdd2 => false
  | .goDoSomethingElse => false
  | .wgWait => true
  | .printDone => true
  | .printElapsed => true
  | .exited => true

/-- Whether `wg.Wait()` has returned in `main`. -/
def pastWait : MainPc → Bool
  | .timeNow => false
  | .newWaitGroup => false
  | .wgAdd1 => false
  | .goDoSomething => false
  | .wgAdd2 => false
  | .goDoSomethingElse => false
  | .wgWait => false
  | .printDone => true
  | .printElapsed => true
  | .exited => true

/-- The lines `main` itself has printed once it stands at this point. -/
def mainOutput : MainPc → List Line
  | .timeNow => []
  | .newWaitGroup => []
  | .wgAdd1 => []
  | .goDoSomething => []
  | .wgAdd2 => []
  | .goDoSomethingElse => []
  | .wgWait => []
  | .printDone => []
  | .printElapsed => [.iGuessImDone]
  | .exited => [.iGuessImDone, .processesTook]

/-- Number of `wg.Done` calls the worker at this program point has made. -/
def WorkerPc.doneCount : WorkerPc → Int
  | .notStarted => 0
  | .deferDone => 0
  | .sleep => 0
  | .println => 0
  | .deferred => 0
  | .returned => 1

/-- Whether the goroutine has been launched. -/
def WorkerPc.started : WorkerPc → Bool
  | .notStarted => false
  | .deferDone => true
  | .sleep => true
  | .println => true
  | .deferred => true
  | .returned => true

/-- Whether the worker has executed its `Println`. -/
def WorkerPc.printed : WorkerPc → Bool
  | .notStarted => false
  | .deferDone => false
  | .sleep => false
  | .println => false
  | .deferred => true
  | .returned => true

/-- The possible task output, given which of the two tasks have printed. -/
def taskOutputs : Bool → Bool → List (List Line)
  | false, false => [[]]
  | true, false => [[.iveDoneSomething]]
  | false, true => [[.iveDoneSomethingElse]]
  | true, true =>
    [[.iveDoneSomething, .iveDoneSomethingElse], [.iveDoneSomethingElse, .iveDoneSomething]]

/-- Steps `main` still has to take from this program point. -/
def mainFuel : MainPc → Nat
  | .timeNow => 9
  | .newWaitGroup => 8
  | .wgAdd1 => 7
  | .goDoSomething => 6
  | .wgAdd2 => 5
  | .goDoSomethingElse => 4
  | .wgWait => 3
  | .printDone => 2
  | .printElapsed => 1
  | .exited => 0

/-- Steps the worker at this program point still has to take. -/
def WorkerPc.fuel : WorkerPc → Nat
  | .notStarted => 4
  | .deferDone => 4
  | .sleep => 3
  | .println => 2
  | .deferred => 1
  | .returned => 0

/-- Steps the program still has to take. -/
def fuel (s : State) : Nat :=
  mainFuel s.mainPc + s.somethingPc.fuel + s.somethingElsePc.fuel

/-- Every content stdout can have: the two task messages in either order, then
the two lines of `main`. -/
def possibleOutputs : List (List Line) :=
  [[],
   [.iveDoneSomething],
   [.iveDoneSomethingElse],
   [.iveDoneSomething, .iveDoneSomethingElse],
   [.iveDoneSomethingElse, .iveDoneSomething],
   [.iveDoneSomething, .iveDoneSomethingElse, .iGuessImDone],
   [.iveDoneSomethingElse, .iveDoneSomething, .iGuessImDone],
   [.iveDoneSomething, .iveDoneSomethingElse, .iGuessImDone, .processesTook],
   [.iveDoneSomethingElse, .iveDoneSomething, .iGuessImDone, .processesTook]]

/-- Invariant of the WaitGroup program. -/
structure Inv (s : State) : Prop where
  counter : s.wg.counter = registered s.trace - doneCalls s.trace
  adds : registered s.trace = addedBy s.mainPc
  dones : doneCalls s.trace = s.somethingPc.doneCount + s.somethingElsePc.doneCount
  somethingDone : (s.trace.count (.done .doSomething) : Int) = s.somethingPc.doneCount
  somethingElseDone :
    (s.trace.count (.done .doSomethingElse) : Int) = s.somethingElsePc.doneCount
  mainDone : s.trace.count (.done .main) = 0
  somethingStarted : launchedSomething s.mainPc = s.somethingPc.started
  somethingElseStarted : launchedSomethingElse s.mainPc = s.somethingElsePc.started
  waited : pastWait s.mainPc = true → s.somethingPc = .returned ∧ s.somethingElsePc = .returned
  output : ∃ o ∈ taskOutputs s.somethingPc.printed s.somethingElsePc.printed,
    s.stdout = o ++ mainOutput s.mainPc

/-- A complete schedule in which `doSomething` prints first. -/
def somethingFirst : List Thread :=
  [.main, .main, .main, .main, .main, .main,
   .doSomething, .doSomething, .doSomething, .doSomething,
   .doSomethingElse, .doSomethingElse, .doSomethingElse, .doSomethingElse,
   .main, .main, .main]

/-- A complete schedule in which `doSomethingElse` prints first. -/
def somethingElseFirst : List Thread :=
  [.main, .main, .main, .main, .main, .main,
   .doSomethingElse, .doSomethingElse, .doSomethingElse, .doSomethingElse,
   .doSomething, .doSomething, .doSomething, .doSomething,
   .main, .main, .main]

end Waitgroups

/-! ## Barrier accounting, stated once for all four programs -/

/-- The accounting of a `sync.WaitGroup` used as a completion barrier for the
two tasks `t1` and `t2`: `wg` is the WaitGroup, `trace` the history, `atWait`
says that `main` stands at `wg.Wait()`, `afterWait` that `wg.Wait()` has
returned. -/
def BarrierAccounting {τ : Type} [DecidableEq τ] (wg : WaitGroup) (trace : List (Event τ))
    (atWait afterWait : Bool) (t1 t2 : τ) : Prop :=
  0 ≤ wg.counter ∧
  wg.counter = registered trace - doneCalls trace ∧
  doneCalls trace ≤ registered trace ∧
  registered trace ≤ 2 ∧
  (atWait = true ∨ afterWait = true → registered trace = 2) ∧
  doneCalls trace = trace.count (.done t1) + trace.count (.done t2) ∧
  trace.count (.done t1) ≤ 1 ∧ trace.count (.done t2) ≤ 1 ∧
  (atWait = true →
    (wg.counter = 0 ↔ trace.count (.done t1) = 1 ∧ trace.count (.done t2) = 1)) ∧
  (afterWait = true → wg.counter = 0 ∧ doneCalls trace = 2 ∧ registered trace = 2)

/-- What keeps `wg.Wait()` from misbehaving in the state `s` of a program with
step function `step`: no thread's step panics; when `main` (thread `mainT`)
stands at `wg.Wait()`, its step is enabled exactly when both tasks `t1` and `t2`
have called `wg.Done()`; and as long as `main` has not returned some thread can
take a step. -/
def WaitLiveness {σ τ : Type} [DecidableEq τ] (step : τ → σ → Outcome σ) (s : σ)
    (trace : List (Event τ)) (atWait exited : Bool) (mainT t1 t2 : τ) : Prop :=
  (∀ t, step t s ≠ .panic) ∧
  (atWait = true →
    ((∃ s', step mainT s = .next s') ↔
      trace.count (.done t1) = 1 ∧ trace.count (.done t2) = 1)) ∧
  (exited = false → ∃ t s', step t s = .next s')

/-! # Theorems -/

/-! ## Primitives -/

theorem WaitGroup.Add_eq_some (wg w : WaitGroup) (d : Int) :
    wg.Add d = some w ↔ 0 ≤ wg.counter + d ∧ w = ⟨wg.counter + d⟩ := by
  unfold WaitGroup.Add
  split
  · simp; omega
  · simp only [Option.some.injEq]
    constructor
    · intro h; exact ⟨by omega, h.symm⟩
    · intro h; exact h.2.symm

theorem WaitGroup.Done_eq_some (wg w : WaitGroup) :
    wg.Done = some w ↔ 0 ≤ wg.counter + -1 ∧ w = ⟨wg.counter + -1⟩ :=
  WaitGroup.Add_eq_some wg w (-1)

theorem Mutex.Lock_eq_some (m m' : Mutex) :
    m.Lock = some m' ↔ m.locked = false ∧ m' = ⟨true⟩ := by
  unfold Mutex.Lock
  split
  · simp_all
  · simp_all; exact eq_comm

theorem Mutex.Unlock_eq_some (m m' : Mutex) :
    m.Unlock = some m' ↔ m.locked = true ∧ m' = ⟨false⟩ := by
  unfold Mutex.Unlock
  split
  · simp_all; exact eq_comm
  · simp_all

/-! ## Schedules -/

theorem runWith_append {σ τ : Type} (step : τ → σ → Outcome σ) (a b : List τ) (s : σ) :
    runWith step (a ++ b) s = (runWith step a s).bind (runWith step b) := by
  induction a generalizing s with
  | nil => rfl
  | cons t ts ih =>
    simp only [List.cons_append, runWith]
    cases step t s with
    | blocked => rfl
    | panic => rfl
    | next s1 => exact ih s1

/-- An invariant preserved by every step holds after every schedule. -/
theorem runWith_invariant {σ τ : Type} (step : τ → σ → Outcome σ) (I : σ → Prop)
    (hstep : ∀ t s s', I s → step t s = .next s' → I s')
    (sched : List τ) (s s' : σ) (h : I s) (hr : runWith step sched s = some s') : I s' := by
  induction sched generalizing s with
  | nil =>
    simp only [runWith, Option.some.injEq] at hr
    exact hr ▸ h
  | cons t ts ih =>
    simp only [runWith] at hr
    split at hr
    · rename_i s1 hs1
      exact ih s1 (hstep t s s1 h hs1) hr
    · cases hr

/-- When every step uses up one unit of a measure, a schedule that runs has as
many steps as it used units. -/
theorem runWith_measure {σ τ : Type} (step : τ → σ → Outcome σ) (I : σ → Prop) (μ : σ → Nat)
    (hstep : ∀ t s s', I s → step t s = .next s' → I s')
    (hμ : ∀ t s s', I s → step t s = .next s' → μ s' + 1 = μ s)
    (sched : List τ) (s s' : σ) (h : I s) (hr : runWith step sched s = some s') :
    sched.length + μ s' = μ s := by
  induction sched generalizing s with
  | nil =>
    simp only [runWith, Option.some.injEq] at hr
    subst hr
    simp
  | cons t ts ih =>
    simp only [runWith] at hr
    split at hr
    · rename_i s1 hs1
      have h1 := ih s1 (hstep t s s1 h hs1) hr
      have h2 := hμ t s s1 h hs1
      simp only [List.length_cons]
      omega
    · cases hr

/-- When every step uses up one unit of a measure and some thread can step in
every state that is not final, every state can be run to a final state. -/
theorem runWith_completes {σ τ : Type} (step : τ → σ → Outcome σ) (I : σ → Prop) (μ : σ → Nat)
    (fin : σ → Prop)
    (hstep : ∀ t s s', I s → step t s = .next s' → I s')
    (hμ : ∀ t s s', I s → step t s = .next s' → μ s' + 1 = μ s)
    (hprog : ∀ s, I s → ¬ fin s → ∃ t s', step t s = .next s')
    (n : Nat) (s : σ) (hn : μ s = n) (h : I s) :
    ∃ sched s', runWith step sched s = some s' ∧ fin s' := by
  induction n using Nat.strong_induction_on generalizing s with
  | _ n ih =>
    by_cases hf : fin s
    · exact ⟨[], s, rfl, hf⟩
    · obtain ⟨t, s1, h1⟩ := hprog s h hf
      have hlt := hμ t s s1 h h1
      obtain ⟨sched, s', hr, hfin⟩ := ih (μ s1) (by omega) s1 rfl (hstep t s s1 h h1)
      refine ⟨t :: sched, s', ?_, hfin⟩
      rw [runWith, h1]
      exact hr

theorem Outcome.exists_next {σ : Type} (o : Outcome σ) (h1 : o ≠ .blocked) (h2 : o ≠ .panic) :
    ∃ s', o = .next s' := by
  cases o with
  | blocked => exact absurd rfl h1
  | panic => exact absurd rfl h2
  | next s' => exact ⟨s', rfl⟩

/-- Running a block `k` times carries a loop invariant `P` from index `i` to
index `i + k`, when one run of the block carries it from `j` to `j + 1`. -/
theorem runWith_times {σ τ : Type} (step : τ → σ → Outcome σ) (block : List τ)
    (P : Nat → σ → Prop) (n : Nat)
    (hblock : ∀ j s, j < n → P j s → ∃ s', runWith step block s = some s' ∧ P (j + 1) s')
    (k i : Nat) (s : σ) (hP : P i s) (hk : i + k ≤ n) :
    ∃ s', runWith step (times k block) s = some s' ∧ P (i + k) s' := by
  induction k generalizing i s with
  | zero => exact ⟨s, rfl, hP⟩
  | succ k ih =>
    obtain ⟨s1, h1, hP1⟩ := hblock i s (by omega) hP
    obtain ⟨s2, h2, hP2⟩ := ih (i + 1) s1 hP1 (by omega)
    refine ⟨s2, ?_, ?_⟩
    · rw [times, runWith_append, h1]
      exact h2
    · have e : i + (k + 1) = i + 1 + k := by omega
      rw [e]
      exact hP2

/-! ## Histories -/

@[simp] theorem registered_append {τ : Type} (l l' : List (Event τ)) :
    registered (l ++ l') = registered l + registered l' := by
  induction l with
  | nil => simp [registered]
  | cons e es ih => cases e <;> simp [registered, ih]; omega

@[simp] theorem doneCalls_append {τ : Type} (l l' : List (Event τ)) :
    doneCalls (l ++ l') = doneCalls l + doneCalls l' := by
  induction l with
  | nil => simp [doneCalls]
  | cons e es ih => cases e <;> simp [doneCalls, ih]; omega

@[simp] theorem writers_append {τ : Type} (l l' : List (Event τ)) :
    writers (l ++ l') = writers l ++ writers l' := by
  induction l with
  | nil => simp [writers]
  | cons e es ih => cases e <;> simp [writers, ih]

/-! ## `main` of the race-condition programs -/

theorem race_added_of_launched (m : MainPc)
    (h : launchedSales m = true ∨ launchedPurchases m = true) : addedBy m = 2 := by
  cases m <;> simp [launchedSales, launchedPurchases, addedBy] at h ⊢

theorem race_added_range (m : MainPc) : 0 ≤ addedBy m ∧ addedBy m ≤ 2 := by
  cases m <;> simp [addedBy]

theorem race_added_of_wait (m : MainPc) (h : (m == .wgWait) = true ∨ pastWait m = true) :
    addedBy m = 2 := by
  cases m <;> simp [pastWait, addedBy] at h ⊢

/-! ## The mutex program -/

namespace RaceMutex

/-- Evaluation of the program-point functions on constructors. -/
theorem mutex_pc_simps :
    (WorkerPc.notStarted.inRange = True) ∧ (∀ i, (WorkerPc.loop i).inRange = (i ≤ 300000)) ∧
    (∀ i, (WorkerPc.mutate i).inRange = (i < 300000)) ∧
    (∀ i, (WorkerPc.unlock i).inRange = (i < 300000)) ∧ (WorkerPc.returned.inRange = True) ∧
    (WorkerPc.notStarted.holdsLock = false) ∧ (∀ i, (WorkerPc.loop i).holdsLock = false) ∧
    (∀ i, (WorkerPc.mutate i).holdsLock = true) ∧ (∀ i, (WorkerPc.unlock i).holdsLock = true) ∧
    (WorkerPc.returned.holdsLock = false) ∧
    (WorkerPc.notStarted.applied = 0) ∧ (∀ i, (WorkerPc.loop i).applied = i) ∧
    (∀ i, (WorkerPc.mutate i).applied = i) ∧ (∀ i, (WorkerPc.unlock i).applied = i + 1) ∧
    (WorkerPc.returned.applied = 300000) ∧
    (WorkerPc.notStarted.doneCount = 0) ∧ (∀ i, (WorkerPc.loop i).doneCount = 0) ∧
    (∀ i, (WorkerPc.mutate i).doneCount = 0) ∧ (∀ i, (WorkerPc.unlock i).doneCount = 0) ∧
    (WorkerPc.returned.doneCount = 1) ∧
    (WorkerPc.notStarted.started = false) ∧ (∀ i, (WorkerPc.loop i).started = true) ∧
    (∀ i, (WorkerPc.mutate i).started = true) ∧ (∀ i, (WorkerPc.unlock i).started = true) ∧
    (WorkerPc.returned.started = true) := by
  refine ⟨?_, ?_, ?_, ?_, ?_, ?_, ?_, ?_, ?_, ?_, ?_, ?_, ?_, ?_, ?_, ?_, ?_, ?_, ?_, ?_, ?_, ?_,
    ?_, ?_, ?_⟩ <;> intros <;> rfl

theorem mutex_applied_le (pc : WorkerPc) (h : pc.inRange) : pc.applied ≤ 300000 := by
  cases pc <;> simp only [mutex_pc_simps] at * <;> omega

theorem mutex_doneCount_range (pc : WorkerPc) : 0 ≤ pc.doneCount ∧ pc.doneCount ≤ 1 := by
  cases pc <;> simp [mutex_pc_simps]

theorem mutex_doneCount_eq_one (pc : WorkerPc) (h : pc.doneCount = 1) : pc = .returned := by
  cases pc <;> simp [mutex_pc_simps] at h ⊢

theorem mutex_not_started (pc : WorkerPc) (h : pc.started = false) : pc = .notStarted := by
  cases pc <;> simp [mutex_pc_simps] at h ⊢

theorem mutex_inv_init : Inv init := by
  constructor <;> simp [init, mutex_pc_simps, registered, doneCalls,
    addedBy, launchedSales, launchedPurchases, pastWait, writers, serial, printedBy]

theorem mutex_makeSales_next (s s' : State) (h : makeSales s = .next s') :
    (∃ i, s.salesPc = .loop i ∧ i < 300000 ∧ s.mutex.locked = false ∧
      s' = { s with mutex := ⟨true⟩, salesPc := .mutate i }) ∨
    (∃ i, s.salesPc = .loop i ∧ 300000 ≤ i ∧ 1 ≤ s.wg.counter ∧
      s' = { s with wg := ⟨s.wg.counter + -1⟩, trace := s.trace ++ [.done .makeSales],
                    salesPc := .returned }) ∨
    (∃ i, s.salesPc = .mutate i ∧
      s' = { s with widgetInventory := wrapInt32 (s.widgetInventory - 100),
                    trace := s.trace ++ [.write .makeSales], salesPc := .unlock i }) ∨
    (∃ i, s.salesPc = .unlock i ∧ s.mutex.locked = true ∧
      s' = { s with mutex := ⟨false⟩, salesPc := .loop (i + 1) }) := by
  unfold makeSales at h
  split at h
  · cases h
  · rename_i i hpc
    split at h
    · split at h
      · cases h
      · rename_i m hm
        rw [Mutex.Lock_eq_some] at hm
        obtain ⟨hl, rfl⟩ := hm
        cases h
        exact Or.inl ⟨i, hpc, by assumption, hl, rfl⟩
    · split at h
      · cases h
      · rename_i w hw
        rw [WaitGroup.Done_eq_some] at hw
        obtain ⟨hl, rfl⟩ := hw
        cases h
        exact Or.inr (Or.inl ⟨i, hpc, by omega, by omega, rfl⟩)
  · rename_i i hpc
    cases h
    exact Or.inr (Or.inr (Or.inl ⟨i, hpc, rfl⟩))
  · rename_i i hpc
    split at h
    · cases h
    · rename_i m hm
      rw [Mutex.Unlock_eq_some] at hm
      obtain ⟨hl, rfl⟩ := hm
      cases h
      exact Or.inr (Or.inr (Or.inr ⟨i, hpc, hl, rfl⟩))
  · cases h

theorem mutex_newPurchases_next (s s' : State) (h : newPurchases s = .next s') :
    (∃ i, s.purchasesPc = .loop i ∧ i < 300000 ∧ s.mutex.locked = false ∧
      s' = { s with mutex := ⟨true⟩, purchasesPc := .mutate i }) ∨
    (∃ i, s.purchasesPc = .loop i ∧ 300000 ≤ i ∧ 1 ≤ s.wg.counter ∧
      s' = { s with wg := ⟨s.wg.counter + -1⟩, trace := s.trace ++ [.done .newPurchases],
                    purchasesPc := .returned }) ∨
    (∃ i, s.purchasesPc = .mutate i ∧
      s' = { s with widgetInventory := wrapInt32 (s.widgetInventory + 100),
                    trace := s.trace ++ [.write .newPurchases], purchasesPc := .unlock i }) ∨
    (∃ i, s.purchasesPc = .unlock i ∧ s.mutex.locked = true ∧
      s' = { s with mutex := ⟨false⟩, purchasesPc := .loop (i + 1) }) := by
  unfold newPurchases at h
  split at h
  · cases h
  · rename_i i hpc
    split at h
    · split at h
      · cases h
      · rename_i m hm
        rw [Mutex.Lock_eq_some] at hm
        obtain ⟨hl, rfl⟩ := hm
        cases h
        exact Or.inl ⟨i, hpc, by assumption, hl, rfl⟩
    · split at h
      · cases h
      · rename_i w hw
        rw [WaitGroup.Done_eq_some] at hw
        obtain ⟨hl, rfl⟩ := hw
        cases h
        exact Or.inr (Or.inl ⟨i, hpc, by omega, by omega, rfl⟩)
  · rename_i i hpc
    cases h
    exact Or.inr (Or.inr (Or.inl ⟨i, hpc, rfl⟩))
  · rename_i i hpc
    split at h
    · cases h
    · rename_i m hm
      rw [Mutex.Unlock_eq_some] at hm
      obtain ⟨hl, rfl⟩ := hm
      cases h
      exact Or.inr (Or.inr (Or.inr ⟨i, hpc, hl, rfl⟩))
  · cases h

theorem mutex_main_next (s s' : State) (h : main s = .next s') :
    (s.mainPc = .printStart ∧
      s' = { s with stdout := s.stdout ++ [.starting s.widgetInventory], mainPc := .wgAdd }) ∨
    (s.mainPc = .wgAdd ∧ 0 ≤ s.wg.counter + 2 ∧
      s' = { s with wg := ⟨s.wg.counter + 2⟩, trace := s.trace ++ [.add 2],
                    mainPc := .goMakeSales }) ∨
    (s.mainPc = .goMakeSales ∧ s' = { s with salesPc := .loop 0, mainPc := .goNewPurchases }) ∨
    (s.mainPc = .goNewPurchases ∧ s' = { s with purchasesPc := .loop 0, mainPc := .wgWait }) ∨
    (s.mainPc = .wgWait ∧ s.wg.counter = 0 ∧ s' = { s with mainPc := .printEnd }) ∨
    (s.mainPc = .printEnd ∧
      s' = { s with stdout := s.stdout ++ [.ending s.widgetInventory], mainPc := .exited }) := by
  unfold main at h
  split at h
  · rename_i hpc
    cases h
    exact Or.inl ⟨hpc, rfl⟩
  · rename_i hpc
    split at h
    · cases h
    · rename_i w hw
      rw [WaitGroup.Add_eq_some] at hw
      obtain ⟨hl, rfl⟩ := hw
      cases h
      exact Or.inr (Or.inl ⟨hpc, hl, rfl⟩)
  · rename_i hpc
    cases h
    exact Or.inr (Or.inr (Or.inl ⟨hpc, rfl⟩))
  · rename_i hpc
    cases h
    exact Or.inr (Or.inr (Or.inr (Or.inl ⟨hpc, rfl⟩)))
  · rename_i hpc
    split at h
    · rename_i hw
      cases h
      simp only [WaitGroup.Wait, beq_iff_eq] at hw
      exact Or.inr (Or.inr (Or.inr (Or.inr (Or.inl ⟨hpc, hw, rfl⟩))))
    · cases h
  · rename_i hpc
    cases h
    exact Or.inr (Or.inr (Or.inr (Or.inr (Or.inr ⟨hpc, rfl⟩))))
  · cases h

theorem mutex_inv_makeSales (s s' : State) (h : Inv s) (hs : makeSales s = .next s') : Inv s' := by
  have hsr := mutex_applied_le _ h.salesRange
  have hpr := mutex_applied_le _ h.purchasesRange
  obtain ⟨hSR, hPR, hLH, hEX, hC, hA, hD, hSD, hPD, hMD, hSS, hPS, hW, hSW, hPW, hMW, hV, hSer, hPr⟩ := h
  rcases mutex_makeSales_next s s' hs with ⟨i, hpc, hi, hl, rfl⟩ | ⟨i, hpc, hi, hl, rfl⟩ |
    ⟨i, hpc, rfl⟩ | ⟨i, hpc, hl, rfl⟩
  all_goals clear hs
  all_goals rw [hpc] at hSR hLH hEX hD hSD hSS hW hSW hV hsr
  all_goals
    refine ⟨?_, ?_, ?_, ?_, ?_, ?_, ?_, ?_, ?_, ?_, ?_, ?_, ?_, ?_, ?_, ?_, ?_, ?_, ?_⟩ <;>
      simp only [] <;> first | assumption | skip
  all_goals
    simp [mutex_pc_simps, registered, doneCalls, writers,
      serial, serialStep, List.count_cons, List.count_append] at *
  all_goals first | omega | (simp_all; done) | (unfold wrapInt32; omega)

theorem mutex_inv_newPurchases (s s' : State) (h : Inv s) (hs : newPurchases s = .next s') :
    Inv s' := by
  have hsr := mutex_applied_le _ h.salesRange
  have hpr := mutex_applied_le _ h.purchasesRange
  obtain ⟨hSR, hPR, hLH, hEX, hC, hA, hD, hSD, hPD, hMD, hSS, hPS, hW, hSW, hPW, hMW, hV, hSer, hPr⟩ := h
  rcases mutex_newPurchases_next s s' hs with ⟨i, hpc, hi, hl, rfl⟩ | ⟨i, hpc, hi, hl, rfl⟩ |
    ⟨i, hpc, rfl⟩ | ⟨i, hpc, hl, rfl⟩
  all_goals clear hs
  all_goals rw [hpc] at hPR hLH hEX hD hPD hPS hW hPW hV hpr
  all_goals
    refine ⟨?_, ?_, ?_, ?_, ?_, ?_, ?_, ?_, ?_, ?_, ?_, ?_, ?_, ?_, ?_, ?_, ?_, ?_, ?_⟩ <;>
      simp only [] <;> first | assumption | skip
  all_goals
    simp [mutex_pc_simps, registered, doneCalls, writers,
      serial, serialStep, List.count_cons, List.count_append] at *
  all_goals first | omega | (simp_all; done) | (unfold wrapInt32; omega)

theorem mutex_inv_main (s s' : State) (h : Inv s) (hs : main s = .next s') : Inv s' := by
  have hs1 := mutex_doneCount_range s.salesPc
  have hp1 := mutex_doneCount_range s.purchasesPc
  have hs2 := mutex_doneCount_eq_one s.salesPc
  have hp2 := mutex_doneCount_eq_one s.purchasesPc
  have hs3 := mutex_not_started s.salesPc
  have hp3 := mutex_not_started s.purchasesPc
  obtain ⟨hSR, hPR, hLH, hEX, hC, hA, hD, hSD, hPD, hMD, hSS, hPS, hW, hSW, hPW, hMW, hV, hSer, hPr⟩ := h
  rcases mutex_main_next s s' hs with ⟨hpc, rfl⟩ | ⟨hpc, hl, rfl⟩ | ⟨hpc, rfl⟩ | ⟨hpc, rfl⟩ |
    ⟨hpc, hl, rfl⟩ | ⟨hpc, rfl⟩
  all_goals clear hs
  all_goals rw [hpc] at hA hSS hPS hW hPr
  all_goals
    simp only [addedBy, launchedSales, launchedPurchases, pastWait, printedBy] at hA hSS hPS hW hPr
  · have e1 := hs3 hSS.symm
    have e2 := hp3 hPS.symm
    have hVb := hV
    rw [e1, e2] at hVb
    simp only [mutex_pc_simps] at hVb
    refine ⟨?_, ?_, ?_, ?_, ?_, ?_, ?_, ?_, ?_, ?_, ?_, ?_, ?_, ?_, ?_, ?_, ?_, ?_, ?_⟩ <;>
      simp only [] <;> first | assumption | simp [printedBy, hPr, hVb]
  · refine ⟨?_, ?_, ?_, ?_, ?_, ?_, ?_, ?_, ?_, ?_, ?_, ?_, ?_, ?_, ?_, ?_, ?_, ?_, ?_⟩ <;>
      simp only [] <;> first | assumption | skip
    all_goals
      simp [registered, doneCalls, writers, addedBy, launchedSales, launchedPurchases, pastWait,
        printedBy, List.count_append] at *
    all_goals omega
  · have e1 := hs3 hSS.symm
    rw [e1] at hSR hLH hEX hD hSD hSW hV
    refine ⟨?_, ?_, ?_, ?_, ?_, ?_, ?_, ?_, ?_, ?_, ?_, ?_, ?_, ?_, ?_, ?_, ?_, ?_, ?_⟩ <;>
      simp only [] <;> first | assumption | skip
    all_goals
      simp [mutex_pc_simps, addedBy, launchedSales, launchedPurchases, pastWait,
        printedBy] at *
  · have e2 := hp3 hPS.symm
    rw [e2] at hPR hLH hEX hD hPD hPW hV
    refine ⟨?_, ?_, ?_, ?_, ?_, ?_, ?_, ?_, ?_, ?_, ?_, ?_, ?_, ?_, ?_, ?_, ?_, ?_, ?_⟩ <;>
      simp only [] <;> first | assumption | skip
    all_goals
      simp [mutex_pc_simps, addedBy, launchedSales, launchedPurchases, pastWait,
        printedBy] at *
  · have e1 := hs2 (by omega)
    have e2 := hp2 (by omega)
    refine ⟨?_, ?_, ?_, ?_, ?_, ?_, ?_, ?_, ?_, ?_, ?_, ?_, ?_, ?_, ?_, ?_, ?_, ?_, ?_⟩ <;>
      simp only [] <;> first | assumption | skip
    all_goals
      simp [addedBy, launchedSales, launchedPurchases, pastWait, printedBy] at *
    all_goals first | omega | assumption | exact ⟨e1, e2⟩
  · have e := hW trivial
    have hVb := hV
    rw [e.1, e.2] at hVb
    simp only [mutex_pc_simps] at hVb
    refine ⟨?_, ?_, ?_, ?_, ?_, ?_, ?_, ?_, ?_, ?_, ?_, ?_, ?_, ?_, ?_, ?_, ?_, ?_, ?_⟩ <;>
      simp only [] <;> first | assumption | skip
    all_goals
      simp [addedBy, launchedSales, launchedPurchases, pastWait, printedBy] at *
    all_goals first | omega | assumption | simp [hPr, hVb]

theorem mutex_inv_step (t : Thread) (s s' : State) (h : Inv s) (hs : step t s = .next s') :
    Inv s' := by
  unfold step at hs
  split at hs
  · cases hs
  · cases t
    · exact mutex_inv_main s s' h hs
    · exact mutex_inv_makeSales s s' h hs
    · exact mutex_inv_newPurchases s s' h hs

theorem mutex_inv_run (sched : List Thread) (s s' : State) (h : Inv s)
    (hr : run sched s = some s') : Inv s' :=
  runWith_invariant step Inv mutex_inv_step sched s s' h hr

/-- Every state reached from the initial state satisfies the invariant. -/
theorem mutex_inv_reachable (sched : List Thread) (s : State) (hr : run sched init = some s) :
    Inv s :=
  mutex_inv_run sched init s mutex_inv_init hr

theorem mutex_doneCount_le_started (pc : WorkerPc) :
    pc.doneCount ≤ (if pc.started = true then 1 else 0) := by
  cases pc <;> simp [mutex_pc_simps]

/-- The barrier accounting holds in every state satisfying the invariant. -/
theorem mutex_barrier (s : State) (h : Inv s) :
    BarrierAccounting s.wg s.trace (s.mainPc == .wgWait) (pastWait s.mainPc)
      Thread.makeSales Thread.newPurchases := by
  have hs1 := mutex_doneCount_range s.salesPc
  have hp1 := mutex_doneCount_range s.purchasesPc
  have hs2 := mutex_doneCount_le_started s.salesPc
  have hp2 := mutex_doneCount_le_started s.purchasesPc
  have ha := race_added_range s.mainPc
  have hl := race_added_of_launched s.mainPc
  have hw := race_added_of_wait s.mainPc
  obtain ⟨hSR, hPR, hLH, hEX, hC, hA, hD, hSD, hPD, hMD, hSS, hPS, hW, hSW, hPW, hMW, hV, hSer,
    hPr⟩ := h
  rw [hSS, hPS] at hl
  have hle : doneCalls s.trace ≤ registered s.trace := by
    rw [hD, hA]
    by_cases h1 : s.salesPc.started = true
    · have := hl (Or.inl h1); omega
    · by_cases h2 : s.purchasesPc.started = true
      · have := hl (Or.inr h2); omega
      · simp only [h1, h2] at hs2 hp2
        simp at hs2 hp2
        omega
  refine ⟨by omega, hC, hle, by omega, ?_, by omega, by omega, by omega, ?_, ?_⟩
  · intro h; rw [hA]; exact hw h
  · intro h
    have := hw (Or.inl h)
    constructor
    · intro h0; omega
    · intro h0; omega
  · intro h
    have := hw (Or.inr h)
    obtain ⟨e1, e2⟩ := hW h
    rw [e1, e2] at hD
    simp only [mutex_pc_simps] at hD
    omega

theorem mutex_main_no_panic (s : State) (h : Inv s) : main s ≠ .panic := by
  obtain ⟨hnn, _⟩ := mutex_barrier s h
  intro hpanic
  unfold main at hpanic
  split at hpanic
  · cases hpanic
  · split at hpanic
    · rename_i heq
      simp [WaitGroup.Add] at heq
      omega
    · cases hpanic
  · cases hpanic
  · cases hpanic
  · split at hpanic <;> cases hpanic
  · cases hpanic
  · cases hpanic

theorem mutex_makeSales_no_panic (s : State) (h : Inv s) : makeSales s ≠ .panic := by
  have hp1 := mutex_doneCount_range s.purchasesPc
  have hl := race_added_of_launched s.mainPc
  obtain ⟨hSR, hPR, hLH, hEX, hC, hA, hD, hSD, hPD, hMD, hSS, hPS, hW, hSW, hPW, hMW, hV, hSer,
    hPr⟩ := h
  rw [hSS, hPS] at hl
  intro hpanic
  unfold makeSales at hpanic
  split at hpanic
  · cases hpanic
  · rename_i i hpc
    rw [hpc] at hD hl
    simp only [mutex_pc_simps] at hD hl
    have := hl (Or.inl trivial)
    split at hpanic
    · split at hpanic <;> cases hpanic
    · split at hpanic
      · rename_i heq
        simp [WaitGroup.Done, WaitGroup.Add] at heq
        omega
      · cases hpanic
  · cases hpanic
  · rename_i i hpc
    rw [hpc] at hLH
    simp [mutex_pc_simps] at hLH
    split at hpanic
    · rename_i heq
      simp [Mutex.Unlock, hLH] at heq
    · cases hpanic
  · cases hpanic

theorem mutex_newPurchases_no_panic (s : State) (h : Inv s) : newPurchases s ≠ .panic := by
  have hs1 := mutex_doneCount_range s.salesPc
  have hl := race_added_of_launched s.mainPc
  obtain ⟨hSR, hPR, hLH, hEX, hC, hA, hD, hSD, hPD, hMD, hSS, hPS, hW, hSW, hPW, hMW, hV, hSer,
    hPr⟩ := h
  rw [hSS, hPS] at hl
  intro hpanic
  unfold newPurchases at hpanic
  split at hpanic
  · cases hpanic
  · rename_i i hpc
    rw [hpc] at hD hl
    simp only [mutex_pc_simps] at hD hl
    have := hl (Or.inr trivial)
    split at hpanic
    · split at hpanic <;> cases hpanic
    · split at hpanic
      · rename_i heq
        simp [WaitGroup.Done, WaitGroup.Add] at heq
        omega
      · cases hpanic
  · cases hpanic
  · rename_i i hpc
    rw [hpc] at hLH
    simp [mutex_pc_simps] at hLH
    split at hpanic
    · rename_i heq
      simp [Mutex.Unlock, hLH] at heq
    · cases hpanic
  · cases hpanic

/-- No step of the mutex program panics. -/
theorem mutex_no_panic (s : State) (h : Inv s) (t : Thread) : step t s ≠ .panic := by
  intro hpanic
  unfold step at hpanic
  split at hpanic
  · cases hpanic
  · cases t
    · exact mutex_main_no_panic s h hpanic
    · exact mutex_makeSales_no_panic s h hpanic
    · exact mutex_newPurchases_no_panic s h hpanic

theorem mutex_fuel_simps :
    (WorkerPc.notStarted.fuel = 900001) ∧ (∀ i, (WorkerPc.loop i).fuel = 3 * (300000 - i) + 1) ∧
    (∀ i, (WorkerPc.mutate i).fuel = 3 * (300000 - i)) ∧
    (∀ i, (WorkerPc.unlock i).fuel = 3 * (300000 - i) - 1) ∧ (WorkerPc.returned.fuel = 0) := by
  refine ⟨?_, ?_, ?_, ?_, ?_⟩ <;> intros <;> rfl

/-- Every step uses up one unit of fuel. -/
theorem mutex_fuel_step (t : Thread) (s s' : State) (h : Inv s) (hs : step t s = .next s') :
    fuel s' + 1 = fuel s := by
  have hs3 := mutex_not_started s.salesPc
  have hp3 := mutex_not_started s.purchasesPc
  obtain ⟨hSR, hPR, hLH, hEX, hC, hA, hD, hSD, hPD, hMD, hSS, hPS, hW, hSW, hPW, hMW, hV, hSer,
    hPr⟩ := h
  unfold step at hs
  split at hs
  · cases hs
  · cases t
    · rcases mutex_main_next s s' hs with ⟨hpc, rfl⟩ | ⟨hpc, hl, rfl⟩ | ⟨hpc, rfl⟩ | ⟨hpc, rfl⟩ |
        ⟨hpc, hl, rfl⟩ | ⟨hpc, rfl⟩
      all_goals rw [hpc] at hSS hPS
      all_goals simp only [launchedSales, launchedPurchases] at hSS hPS
      all_goals
        first
        | (have e1 := hs3 hSS.symm
           simp only [fuel, hpc, mainFuel, e1, mutex_fuel_simps]
           omega)
        | (have e2 := hp3 hPS.symm
           simp only [fuel, hpc, mainFuel, e2, mutex_fuel_simps]
           omega)
        | (simp only [fuel, hpc, mainFuel]
           omega)
    · rcases mutex_makeSales_next s s' hs with ⟨i, hpc, hi, hl, rfl⟩ | ⟨i, hpc, hi, hl, rfl⟩ |
        ⟨i, hpc, rfl⟩ | ⟨i, hpc, hl, rfl⟩
      all_goals rw [hpc] at hSR
      all_goals simp only [mutex_pc_simps] at hSR
      all_goals simp only [fuel, hpc, mutex_fuel_simps]
      all_goals omega
    · rcases mutex_newPurchases_next s s' hs with ⟨i, hpc, hi, hl, rfl⟩ |
        ⟨i, hpc, hi, hl, rfl⟩ | ⟨i, hpc, rfl⟩ | ⟨i, hpc, hl, rfl⟩
      all_goals rw [hpc] at hPR
      all_goals simp only [mutex_pc_simps] at hPR
      all_goals simp only [fuel, hpc, mutex_fuel_simps]
      all_goals omega

/-- A schedule that runs from the initial state has used exactly as much fuel as
it has steps: no execution has more than 1800008 steps. -/
theorem mutex_run_length (sched : List Thread) (s : State) (hr : run sched init = some s) :
    sched.length + fuel s = 1800008 :=
  runWith_measure step Inv fuel mutex_inv_step mutex_fuel_step sched init s mutex_inv_init hr

/-- In a state where `main` has not returned some thread can take a step. -/
theorem mutex_progress (s : State) (h : Inv s) (hm : s.mainPc ≠ .exited) :
    ∃ t s', step t s = .next s' := by
  have hb := mutex_barrier s h
  have hs1 := mutex_doneCount_range s.salesPc
  have hp1 := mutex_doneCount_range s.purchasesPc
  have hs2 := mutex_doneCount_eq_one s.salesPc
  have hp2 := mutex_doneCount_eq_one s.purchasesPc
  have hnp := mutex_no_panic s h
  obtain ⟨hSR, hPR, hLH, hEX, hC, hA, hD, hSD, hPD, hMD, hSS, hPS, hW, hSW, hPW, hMW, hV, hSer,
    hPr⟩ := h
  obtain ⟨hnn, _⟩ := hb
  suffices hex : ∃ t, step t s ≠ .blocked by
    obtain ⟨t, ht⟩ := hex
    exact ⟨t, Outcome.exists_next _ ht (hnp t)⟩
  by_cases hw : s.mainPc = .wgWait
  · rw [hw] at hA hSS hPS
    simp only [addedBy, launchedSales, launchedPurchases] at hA hSS hPS
    cases hsp : s.salesPc with
    | notStarted => rw [hsp] at hSS; simp [mutex_pc_simps] at hSS
    | mutate i => exact ⟨.makeSales, by simp [step, hm, makeSales, hsp]⟩
    | unlock i =>
      refine ⟨.makeSales, ?_⟩
      rw [hsp] at hLH
      simp only [mutex_pc_simps, Bool.true_or] at hLH
      simp [step, hm, makeSales, hsp, Mutex.Unlock, hLH]
    | loop i =>
      by_cases hi : i < 300000
      · cases hpp : s.purchasesPc with
        | notStarted => rw [hpp] at hPS; simp [mutex_pc_simps] at hPS
        | mutate j => exact ⟨.newPurchases, by simp [step, hm, newPurchases, hpp]⟩
        | unlock j =>
          refine ⟨.newPurchases, ?_⟩
          rw [hpp] at hLH
          simp only [mutex_pc_simps, Bool.or_true] at hLH
          simp [step, hm, newPurchases, hpp, Mutex.Unlock, hLH]
        | loop j =>
          refine ⟨.makeSales, ?_⟩
          rw [hsp, hpp] at hLH
          simp only [mutex_pc_simps, Bool.or_false] at hLH
          simp [step, hm, makeSales, hsp, hi, Mutex.Lock, hLH]
        | returned =>
          refine ⟨.makeSales, ?_⟩
          rw [hsp, hpp] at hLH
          simp only [mutex_pc_simps, Bool.or_false] at hLH
          simp [step, hm, makeSales, hsp, hi, Mutex.Lock, hLH]
      · refine ⟨.makeSales, ?_⟩
        rw [hsp] at hD
        simp only [mutex_pc_simps] at hD
        have hc : ¬ s.wg.counter + -1 < 0 := by omega
        simp [step, hm, makeSales, hsp, hi, WaitGroup.Done, WaitGroup.Add, hc]
    | returned =>
      cases hpp : s.purchasesPc with
      | notStarted => rw [hpp] at hPS; simp [mutex_pc_simps] at hPS
      | mutate j => exact ⟨.newPurchases, by simp [step, hm, newPurchases, hpp]⟩
      | unlock j =>
        refine ⟨.newPurchases, ?_⟩
        rw [hpp] at hLH
        simp only [mutex_pc_simps, Bool.or_true] at hLH
        simp [step, hm, newPurchases, hpp, Mutex.Unlock, hLH]
      | loop j =>
        refine ⟨.newPurchases, ?_⟩
        rw [hsp, hpp] at hLH hD
        simp only [mutex_pc_simps, Bool.or_false] at hLH hD
        by_cases hj : j < 300000
        · simp [step, hm, newPurchases, hpp, hj, Mutex.Lock, hLH]
        · have hc : ¬ s.wg.counter + -1 < 0 := by omega
          simp [step, hm, newPurchases, hpp, hj, WaitGroup.Done, WaitGroup.Add, hc]
      | returned =>
        refine ⟨.main, ?_⟩
        rw [hsp, hpp] at hD
        simp only [mutex_pc_simps] at hD
        have hc : s.wg.counter = 0 := by omega
        simp [step, hm, main, hw, WaitGroup.Wait, hc]
  · refine ⟨.main, ?_⟩
    have hc : ¬ s.wg.counter + 2 < 0 := by omega
    cases hmp : s.mainPc <;> simp [step, main, hmp, WaitGroup.Add, hc] <;> simp_all


/-- Every reachable state of the mutex program can be run to the end of `main`. -/
theorem mutex_completes (s : State) (h : Inv s) :
    ∃ sched s', run sched s = some s' ∧ s'.mainPc = .exited :=
  runWith_completes step Inv fuel (fun s => s.mainPc = .exited) mutex_inv_step mutex_fuel_step
    mutex_progress (fuel s) s rfl h

theorem mutex_run_append (a b : List Thread) (s : State) :
    run (a ++ b) s = (run a s).bind (run b) :=
  runWith_append step a b s

/-- The state after `main` has launched both goroutines. -/
theorem mutex_run_launch : run launch init = some launched := by
  rfl

/-- One iteration of `makeSales` run without interruption. -/
theorem mutex_sales_block (m : MainPc) (hm : m ≠ .exited) (pp : WorkerPc) (w : WaitGroup)
    (j : Nat) (s : State) (hj : j < 300000)
    (hP : s.salesPc = .loop j ∧ s.mutex.locked = false ∧ s.mainPc = m ∧
      s.purchasesPc = pp ∧ s.wg = w) :
    ∃ s', runWith step [.makeSales, .makeSales, .makeSales] s = some s' ∧
      (s'.salesPc = .loop (j + 1) ∧ s'.mutex.locked = false ∧ s'.mainPc = m ∧
        s'.purchasesPc = pp ∧ s'.wg = w) := by
  obtain ⟨hpc, hl, hmp, hp, hw⟩ := hP
  subst hmp
  refine ⟨{ s with mutex := ⟨false⟩, widgetInventory := wrapInt32 (s.widgetInventory - 100),
                   trace := s.trace ++ [.write .makeSales], salesPc := .loop (j + 1) },
    ?_, rfl, rfl, rfl, hp, hw⟩
  simp [runWith, step, makeSales, hpc, hl, hm, hj, Mutex.Lock, Mutex.Unlock]

/-- One iteration of `newPurchases` run without interruption. -/
theorem mutex_purchases_block (m : MainPc) (hm : m ≠ .exited) (sp : WorkerPc) (w : WaitGroup)
    (j : Nat) (s : State) (hj : j < 300000)
    (hP : s.purchasesPc = .loop j ∧ s.mutex.locked = false ∧ s.mainPc = m ∧
      s.salesPc = sp ∧ s.wg = w) :
    ∃ s', runWith step [.newPurchases, .newPurchases, .newPurchases] s = some s' ∧
      (s'.purchasesPc = .loop (j + 1) ∧ s'.mutex.locked = false ∧ s'.mainPc = m ∧
        s'.salesPc = sp ∧ s'.wg = w) := by
  obtain ⟨hpc, hl, hmp, hp, hw⟩ := hP
  subst hmp
  refine ⟨{ s with mutex := ⟨false⟩, widgetInventory := wrapInt32 (s.widgetInventory + 100),
                   trace := s.trace ++ [.write .newPurchases], purchasesPc := .loop (j + 1) },
    ?_, rfl, rfl, rfl, hp, hw⟩
  simp [runWith, step, newPurchases, hpc, hl, hm, hj, Mutex.Lock, Mutex.Unlock]

/-- After the launch, all iterations of `makeSales` can run back to back. -/
theorem mutex_run_allSales :
    ∃ s, run (launch ++ allSales) init = some s ∧ s.salesPc = .loop 300000 ∧
      s.mutex.locked = false ∧ s.mainPc = .wgWait ∧ s.purchasesPc = .loop 0 ∧ s.wg = ⟨2⟩ := by
  obtain ⟨s, hs, hP⟩ := runWith_times step [.makeSales, .makeSales, .makeSales]
    (fun j s => s.salesPc = .loop j ∧ s.mutex.locked = false ∧ s.mainPc = .wgWait ∧
      s.purchasesPc = .loop 0 ∧ s.wg = ⟨2⟩) 300000
    (mutex_sales_block .wgWait (by decide) (.loop 0) ⟨2⟩) 300000 0 launched
    ⟨rfl, rfl, rfl, rfl, rfl⟩ (by omega)
  rw [Nat.zero_add] at hP
  refine ⟨s, ?_, hP⟩
  rw [mutex_run_append, mutex_run_launch, Option.some_bind, run, allSales]
  exact hs

/-- The sequential schedule runs to the end of the program. -/
theorem mutex_run_sequential :
    ∃ s, run sequential init = some s ∧ s.mainPc = .exited := by
  obtain ⟨s1, h1, hpc1, hl1, hm1, hp1, hw1⟩ := mutex_run_allSales
  -- `wg.Done` of `makeSales`
  have h2 : step .makeSales s1 = .next { s1 with
      wg := ⟨1⟩, trace := s1.trace ++ [.done .makeSales], salesPc := .returned } := by
    simp [step, makeSales, hpc1, hm1, hw1, WaitGroup.Done, WaitGroup.Add]
  obtain ⟨s3, h3, hpc3, hl3, hm3, hp3, hw3⟩ := runWith_times step
    [.newPurchases, .newPurchases, .newPurchases]
    (fun j s => s.purchasesPc = .loop j ∧ s.mutex.locked = false ∧ s.mainPc = .wgWait ∧
      s.salesPc = .returned ∧ s.wg = ⟨1⟩) 300000
    (mutex_purchases_block .wgWait (by decide) .returned ⟨1⟩) 300000 0
    { s1 with wg := ⟨1⟩, trace := s1.trace ++ [.done .makeSales], salesPc := .returned }
    ⟨hp1, hl1, hm1, rfl, rfl⟩ (by omega)
  rw [Nat.zero_add] at hpc3
  have h4 : runWith step [.newPurchases, .main, .main] s3 = some { s3 with
      wg := ⟨0⟩, trace := s3.trace ++ [.done .newPurchases], purchasesPc := .returned,
      stdout := s3.stdout ++ [.ending s3.widgetInventory], mainPc := .exited } := by
    simp [runWith, step, newPurchases, main, hpc3, hm3, hw3, WaitGroup.Done, WaitGroup.Add,
      WaitGroup.Wait]
  refine ⟨{ s3 with
      wg := ⟨0⟩, trace := s3.trace ++ [.done .newPurchases], purchasesPc := .returned,
      stdout := s3.stdout ++ [.ending s3.widgetInventory], mainPc := .exited }, ?_, rfl⟩
  rw [run] at h1
  rw [run, sequential, ← List.append_assoc, runWith_append, h1, Option.some_bind, runWith, h2]
  simp only []
  rw [runWith_append, allPurchases, h3, Option.some_bind]
  exact h4

end RaceMutex

/-! ## The atomic program -/

namespace RaceAtomic

/-- Evaluation of the program-point functions on constructors. -/
theorem atomic_pc_simps :
    (WorkerPc.notStarted.inRange = True) ∧ (∀ i, (WorkerPc.loop i).inRange = (i ≤ 300000)) ∧
    (WorkerPc.returned.inRange = True) ∧
    (WorkerPc.notStarted.applied = 0) ∧ (∀ i, (WorkerPc.loop i).applied = i) ∧
    (WorkerPc.returned.applied = 300000) ∧
    (WorkerPc.notStarted.doneCount = 0) ∧ (∀ i, (WorkerPc.loop i).doneCount = 0) ∧
    (WorkerPc.returned.doneCount = 1) ∧
    (WorkerPc.notStarted.started = false) ∧ (∀ i, (WorkerPc.loop i).started = true) ∧
    (WorkerPc.returned.started = true) := by
  refine ⟨?_, ?_, ?_, ?_, ?_, ?_, ?_, ?_, ?_, ?_, ?_, ?_⟩ <;> intros <;> rfl

theorem atomic_applied_le (pc : WorkerPc) (h : pc.inRange) : pc.applied ≤ 300000 := by
  cases pc <;> simp only [atomic_pc_simps] at * <;> omega

theorem atomic_doneCount_range (pc : WorkerPc) : 0 ≤ pc.doneCount ∧ pc.doneCount ≤ 1 := by
  cases pc <;> simp [atomic_pc_simps]

theorem atomic_doneCount_eq_one (pc : WorkerPc) (h : pc.doneCount = 1) : pc = .returned := by
  cases pc <;> simp [atomic_pc_simps] at h ⊢

theorem atomic_not_started (pc : WorkerPc) (h : pc.started = false) : pc = .notStarted := by
  cases pc <;> simp [atomic_pc_simps] at h ⊢

theorem atomic_inv_init : Inv init := by
  constructor <;> simp [init, atomic_pc_simps, registered, doneCalls,
    addedBy, launchedSales, launchedPurchases, pastWait, writers, serial, printedBy]

theorem atomic_makeSales_next (s s' : State) (h : makeSales s = .next s') :
    (∃ i, s.salesPc = .loop i ∧ i < 300000 ∧
      s' = { s with widgetInventory := atomicAddInt32 s.widgetInventory (-100),
                    trace := s.trace ++ [.write .makeSales], salesPc := .loop (i + 1) }) ∨
    (∃ i, s.salesPc = .loop i ∧ 300000 ≤ i ∧ 1 ≤ s.wg.counter ∧
      s' = { s with wg := ⟨s.wg.counter + -1⟩, trace := s.trace ++ [.done .makeSales],
                    salesPc := .returned }) := by
  unfold makeSales at h
  split at h
  · cases h
  · rename_i i hpc
    split at h
    · rename_i hi
      cases h
      exact Or.inl ⟨i, hpc, hi, rfl⟩
    · split at h
      · cases h
      · rename_i w hw
        rw [WaitGroup.Done_eq_some] at hw
        obtain ⟨hl, rfl⟩ := hw
        cases h
        exact Or.inr ⟨i, hpc, by omega, by omega, rfl⟩
  · cases h

theorem atomic_newPurchases_next (s s' : State) (h : newPurchases s = .next s') :
    (∃ i, s.purchasesPc = .loop i ∧ i < 300000 ∧
      s' = { s with widgetInventory := atomicAddInt32 s.widgetInventory 100,
                    trace := s.trace ++ [.write .newPurchases], purchasesPc := .loop (i + 1) }) ∨
    (∃ i, s.purchasesPc = .loop i ∧ 300000 ≤ i ∧ 1 ≤ s.wg.counter ∧
      s' = { s with wg := ⟨s.wg.counter + -1⟩, trace := s.trace ++ [.done .newPurchases],
                    purchasesPc := .returned }) := by
  unfold newPurchases at h
  split at h
  · cases h
  · rename_i i hpc
    split at h
    · rename_i hi
      cases h
      exact Or.inl ⟨i, hpc, hi, rfl⟩
    · split at h
      · cases h
      · rename_i w hw
        rw [WaitGroup.Done_eq_some] at hw
        obtain ⟨hl, rfl⟩ := hw
        cases h
        exact Or.inr ⟨i, hpc, by omega, by omega, rfl⟩
  · cases h

theorem atomic_main_next (s s' : State) (h : main s = .next s') :
    (s.mainPc = .printStart ∧
      s' = { s with stdout := s.stdout ++ [.starting s.widgetInventory], mainPc := .wgAdd }) ∨
    (s.mainPc = .wgAdd ∧ 0 ≤ s.wg.counter + 2 ∧
      s' = { s with wg := ⟨s.wg.counter + 2⟩, trace := s.trace ++ [.add 2],
                    mainPc := .goMakeSales }) ∨
    (s.mainPc = .goMakeSales ∧ s' = { s with salesPc := .loop 0, mainPc := .goNewPurchases }) ∨
    (s.mainPc = .goNewPurchases ∧ s' = { s with purchasesPc := .loop 0, mainPc := .wgWait }) ∨
    (s.mainPc = .wgWait ∧ s.wg.counter = 0 ∧ s' = { s with mainPc := .printEnd }) ∨
    (s.mainPc = .printEnd ∧
      s' = { s with stdout := s.stdout ++ [.ending s.widgetInventory], mainPc := .exited }) := by
  unfold main at h
  split at h
  · rename_i hpc
    cases h
    exact Or.inl ⟨hpc, rfl⟩
  · rename_i hpc
    split at h
    · cases h
    · rename_i w hw
      rw [WaitGroup.Add_eq_some] at hw
      obtain ⟨hl, rfl⟩ := hw
      cases h
      exact Or.inr (Or.inl ⟨hpc, hl, rfl⟩)
  · rename_i hpc
    cases h
    exact Or.inr (Or.inr (Or.inl ⟨hpc, rfl⟩))
  · rename_i hpc
    cases h
    exact Or.inr (Or.inr (Or.inr (Or.inl ⟨hpc, rfl⟩)))
  · rename_i hpc
    split at h
    · rename_i hw
      cases h
      simp only [WaitGroup.Wait, beq_iff_eq] at hw
      exact Or.inr (Or.inr (Or.inr (Or.inr (Or.inl ⟨hpc, hw, rfl⟩))))
    · cases h
  · rename_i hpc
    cases h
    exact Or.inr (Or.inr (Or.inr (Or.inr (Or.inr ⟨hpc, rfl⟩))))
  · cases h

theorem atomic_inv_makeSales (s s' : State) (h : Inv s) (hs : makeSales s = .next s') :
    Inv s' := by
  have hsr := atomic_applied_le _ h.salesRange
  have hpr := atomic_applied_le _ h.purchasesRange
  obtain ⟨hSR, hPR, hC, hA, hD, hSD, hPD, hMD, hSS, hPS, hW, hSW, hPW, hMW, hV, hSer, hPr⟩ := h
  rcases atomic_makeSales_next s s' hs with ⟨i, hpc, hi, rfl⟩ | ⟨i, hpc, hi, hl, rfl⟩
  all_goals clear hs
  all_goals rw [hpc] at hSR hD hSD hSS hW hSW hV hsr
  all_goals
    refine ⟨?_, ?_, ?_, ?_, ?_, ?_, ?_, ?_, ?_, ?_, ?_, ?_, ?_, ?_, ?_, ?_, ?_⟩ <;>
      simp only [] <;> first | assumption | skip
  all_goals
    simp [atomic_pc_simps, registered, doneCalls, writers,
      serial, serialStep, List.count_cons, List.count_append] at *
  all_goals first | omega | (simp_all; done) | (unfold atomicAddInt32 wrapInt32; omega)

theorem atomic_inv_newPurchases (s s' : State) (h : Inv s) (hs : newPurchases s = .next s') :
    Inv s' := by
  have hsr := atomic_applied_le _ h.salesRange
  have hpr := atomic_applied_le _ h.purchasesRange
  obtain ⟨hSR, hPR, hC, hA, hD, hSD, hPD, hMD, hSS, hPS, hW, hSW, hPW, hMW, hV, hSer, hPr⟩ := h
  rcases atomic_newPurchases_next s s' hs with ⟨i, hpc, hi, rfl⟩ | ⟨i, hpc, hi, hl, rfl⟩
  all_goals clear hs
  all_goals rw [hpc] at hPR hD hPD hPS hW hPW hV hpr
  all_goals
    refine ⟨?_, ?_, ?_, ?_, ?_, ?_, ?_, ?_, ?_, ?_, ?_, ?_, ?_, ?_, ?_, ?_, ?_⟩ <;>
      simp only [] <;> first | assumption | skip
  all_goals
    simp [atomic_pc_simps, registered, doneCalls, writers,
      serial, serialStep, List.count_cons, List.count_append] at *
  all_goals first | omega | (simp_all; done) | (unfold atomicAddInt32 wrapInt32; omega)

theorem atomic_inv_main (s s' : State) (h : Inv s) (hs : main s = .next s') : Inv s' := by
  have hs1 := atomic_doneCount_range s.salesPc
  have hp1 := atomic_doneCount_range s.purchasesPc
  have hs2 := atomic_doneCount_eq_one s.salesPc
  have hp2 := atomic_doneCount_eq_one s.purchasesPc
  have hs3 := atomic_not_started s.salesPc
  have hp3 := atomic_not_started s.purchasesPc
  obtain ⟨hSR, hPR, hC, hA, hD, hSD, hPD, hMD, hSS, hPS, hW, hSW, hPW, hMW, hV, hSer, hPr⟩ := h
  rcases atomic_main_next s s' hs with ⟨hpc, rfl⟩ | ⟨hpc, hl, rfl⟩ | ⟨hpc, rfl⟩ | ⟨hpc, rfl⟩ |
    ⟨hpc, hl, rfl⟩ | ⟨hpc, rfl⟩
  all_goals clear hs
  all_goals rw [hpc] at hA hSS hPS hW hPr
  all_goals
    simp only [addedBy, launchedSales, launchedPurchases, pastWait, printedBy] at hA hSS hPS hW hPr
  · have e1 := hs3 hSS.symm
    have e2 := hp3 hPS.symm
    have hVb := hV
    rw [e1, e2] at hVb
    simp only [atomic_pc_simps] at hVb
    refine ⟨?_, ?_, ?_, ?_, ?_, ?_, ?_, ?_, ?_, ?_, ?_, ?_, ?_, ?_, ?_, ?_, ?_⟩ <;>
      simp only [] <;> first | assumption | simp [printedBy, hPr, hVb]
  · refine ⟨?_, ?_, ?_, ?_, ?_, ?_, ?_, ?_, ?_, ?_, ?_, ?_, ?_, ?_, ?_, ?_, ?_⟩ <;>
      simp only [] <;> first | assumption | skip
    all_goals
      simp [registered, doneCalls, writers, addedBy, launchedSales, launchedPurchases, pastWait,
        printedBy, List.count_append] at *
    all_goals omega
  · have e1 := hs3 hSS.symm
    rw [e1] at hSR hD hSD hSW hV
    refine ⟨?_, ?_, ?_, ?_, ?_, ?_, ?_, ?_, ?_, ?_, ?_, ?_, ?_, ?_, ?_, ?_, ?_⟩ <;>
      simp only [] <;> first | assumption | skip
    all_goals
      simp [atomic_pc_simps, addedBy, launchedSales, launchedPurchases, pastWait,
        printedBy] at *
  · have e2 := hp3 hPS.symm
    rw [e2] at hPR hD hPD hPW hV
    refine ⟨?_, ?_, ?_, ?_, ?_, ?_, ?_, ?_, ?_, ?_, ?_, ?_, ?_, ?_, ?_, ?_, ?_⟩ <;>
      simp only [] <;> first | assumption | skip
    all_goals
      simp [atomic_pc_simps, addedBy, launchedSales, launchedPurchases, pastWait,
        printedBy] at *
  · have e1 := hs2 (by omega)
    have e2 := hp2 (by omega)
    refine ⟨?_, ?_, ?_, ?_, ?_, ?_, ?_, ?_, ?_, ?_, ?_, ?_, ?_, ?_, ?_, ?_, ?_⟩ <;>
      simp only [] <;> first | assumption | skip
    all_goals
      simp [addedBy, launchedSales, launchedPurchases, pastWait, printedBy] at *
    all_goals first | omega | assumption | exact ⟨e1, e2⟩
  · have e := hW trivial
    have hVb := hV
    rw [e.1, e.2] at hVb
    simp only [atomic_pc_simps] at hVb
    refine ⟨?_, ?_, ?_, ?_, ?_, ?_, ?_, ?_, ?_, ?_, ?_, ?_, ?_, ?_, ?_, ?_, ?_⟩ <;>
      simp only [] <;> first | assumption | skip
    all_goals
      simp [addedBy, launchedSales, launchedPurchases, pastWait, printedBy] at *
    all_goals first | omega | assumption | simp [hPr, hVb]

theorem atomic_inv_step (t : Thread) (s s' : State) (h : Inv s) (hs : step t s = .next s') :
    Inv s' := by
  unfold step at hs
  split at hs
  · cases hs
  · cases t
    · exact atomic_inv_main s s' h hs
    · exact atomic_inv_makeSales s s' h hs
    · exact atomic_inv_newPurchases s s' h hs

theorem atomic_inv_run (sched : List Thread) (s s' : State) (h : Inv s)
    (hr : run sched s = some s') : Inv s' :=
  runWith_invariant step Inv atomic_inv_step sched s s' h hr

/-- Every state reached from the initial state satisfies the invariant. -/
theorem atomic_inv_reachable (sched : List Thread) (s : State)
    (hr : run sched init = some s) : Inv s :=
  atomic_inv_run sched init s atomic_inv_init hr

theorem atomic_doneCount_le_started (pc : WorkerPc) :
    pc.doneCount ≤ (if pc.started = true then 1 else 0) := by
  cases pc <;> simp [atomic_pc_simps]

/-- The barrier accounting holds in every state satisfying the invariant. -/
theorem atomic_barrier (s : State) (h : Inv s) :
    BarrierAccounting s.wg s.trace (s.mainPc == .wgWait) (pastWait s.mainPc)
      Thread.makeSales Thread.newPurchases := by
  have hs1 := atomic_doneCount_range s.salesPc
  have hp1 := atomic_doneCount_range s.purchasesPc
  have hs2 := atomic_doneCount_le_started s.salesPc
  have hp2 := atomic_doneCount_le_started s.purchasesPc
  have ha := race_added_range s.mainPc
  have hl := race_added_of_launched s.mainPc
  have hw := race_added_of_wait s.mainPc
  obtain ⟨hSR, hPR, hC, hA, hD, hSD, hPD, hMD, hSS, hPS, hW, hSW, hPW, hMW, hV, hSer, hPr⟩ := h
  rw [hSS, hPS] at hl
  have hle : doneCalls s.trace ≤ registered s.trace := by
    rw [hD, hA]
    by_cases h1 : s.salesPc.started = true
    · have := hl (Or.inl h1); omega
    · by_cases h2 : s.purchasesPc.started = true
      · have := hl (Or.inr h2); omega
      · simp only [h1, h2] at hs2 hp2
        simp at hs2 hp2
        omega
  refine ⟨by omega, hC, hle, by omega, ?_, by omega, by omega, by omega, ?_, ?_⟩
  · intro h; rw [hA]; exact hw h
  · intro h
    have := hw (Or.inl h)
    constructor
    · intro h0; omega
    · intro h0; omega
  · intro h
    have := hw (Or.inr h)
    obtain ⟨e1, e2⟩ := hW h
    rw [e1, e2] at hD
    simp only [atomic_pc_simps] at hD
    omega

theorem atomic_main_no_panic (s : State) (h : Inv s) : main s ≠ .panic := by
  obtain ⟨hnn, _⟩ := atomic_barrier s h
  intro hpanic
  unfold main at hpanic
  split at hpanic
  · cases hpanic
  · split at hpanic
    · rename_i heq
      simp [WaitGroup.Add] at heq
      omega
    · cases hpanic
  · cases hpanic
  · cases hpanic
  · split at hpanic <;> cases hpanic
  · cases hpanic
  · cases hpanic

theorem atomic_makeSales_no_panic (s : State) (h : Inv s) : makeSales s ≠ .panic := by
  have hp1 := atomic_doneCount_range s.purchasesPc
  have hl := race_added_of_launched s.mainPc
  obtain ⟨hSR, hPR, hC, hA, hD, hSD, hPD, hMD, hSS, hPS, hW, hSW, hPW, hMW, hV, hSer, hPr⟩ := h
  rw [hSS, hPS] at hl
  intro hpanic
  unfold makeSales at hpanic
  split at hpanic
  · cases hpanic
  · rename_i i hpc
    rw [hpc] at hD hl
    simp only [atomic_pc_simps] at hD hl
    have := hl (Or.inl trivial)
    split at hpanic
    · cases hpanic
    · split at hpanic
      · rename_i heq
        simp [WaitGroup.Done, WaitGroup.Add] at heq
        omega
      · cases hpanic
  · cases hpanic

theorem atomic_newPurchases_no_panic (s : State) (h : Inv s) : newPurchases s ≠ .panic := by
  have hs1 := atomic_doneCount_range s.salesPc
  have hl := race_added_of_launched s.mainPc
  obtain ⟨hSR, hPR, hC, hA, hD, hSD, hPD, hMD, hSS, hPS, hW, hSW, hPW, hMW, hV, hSer, hPr⟩ := h
  rw [hSS, hPS] at hl
  intro hpanic
  unfold newPurchases at hpanic
  split at hpanic
  · cases hpanic
  · rename_i i hpc
    rw [hpc] at hD hl
    simp only [atomic_pc_simps] at hD hl
    have := hl (Or.inr trivial)
    split at hpanic
    · cases hpanic
    · split at hpanic
      · rename_i heq
        simp [WaitGroup.Done, WaitGroup.Add] at heq
        omega
      · cases hpanic
  · cases hpanic

/-- No step of the atomic program panics. -/
theorem atomic_no_panic (s : State) (h : Inv s) (t : Thread) : step t s ≠ .panic := by
  intro hpanic
  unfold step at hpanic
  split at hpanic
  · cases hpanic
  · cases t
    · exact atomic_main_no_panic s h hpanic
    · exact atomic_makeSales_no_panic s h hpanic
    · exact atomic_newPurchases_no_panic s h hpanic

theorem atomic_fuel_simps :
    (WorkerPc.notStarted.fuel = 300001) ∧ (∀ i, (WorkerPc.loop i).fuel = (300000 - i) + 1) ∧
    (WorkerPc.returned.fuel = 0) := by
  refine ⟨?_, ?_, ?_⟩ <;> intros <;> rfl

/-- Every step uses up one unit of fuel. -/
theorem atomic_fuel_step (t : Thread) (s s' : State) (h : Inv s) (hs : step t s = .next s') :
    fuel s' + 1 = fuel s := by
  have hs3 := atomic_not_started s.salesPc
  have hp3 := atomic_not_started s.purchasesPc
  obtain ⟨hSR, hPR, hC, hA, hD, hSD, hPD, hMD, hSS, hPS, hW, hSW, hPW, hMW, hV, hSer, hPr⟩ := h
  unfold step at hs
  split at hs
  · cases hs
  · cases t
    · rcases atomic_main_next s s' hs with ⟨hpc, rfl⟩ | ⟨hpc, hl, rfl⟩ | ⟨hpc, rfl⟩ |
        ⟨hpc, rfl⟩ | ⟨hpc, hl, rfl⟩ | ⟨hpc, rfl⟩
      all_goals rw [hpc] at hSS hPS
      all_goals simp only [launchedSales, launchedPurchases] at hSS hPS
      all_goals
        first
        | (have e1 := hs3 hSS.symm
           simp only [fuel, hpc, mainFuel, e1, atomic_fuel_simps]
           omega)
        | (have e2 := hp3 hPS.symm
           simp only [fuel, hpc, mainFuel, e2, atomic_fuel_simps]
           omega)
        | (simp only [fuel, hpc, mainFuel]
           omega)
    · rcases atomic_makeSales_next s s' hs with ⟨i, hpc, hi, rfl⟩ | ⟨i, hpc, hi, hl, rfl⟩
      all_goals rw [hpc] at hSR
      all_goals simp only [atomic_pc_simps] at hSR
      all_goals simp only [fuel, hpc, atomic_fuel_simps]
      all_goals omega
    · rcases atomic_newPurchases_next s s' hs with ⟨i, hpc, hi, rfl⟩ | ⟨i, hpc, hi, hl, rfl⟩
      all_goals rw [hpc] at hPR
      all_goals simp only [atomic_pc_simps] at hPR
      all_goals simp only [fuel, hpc, atomic_fuel_simps]
      all_goals omega

/-- A schedule that runs from the initial state has used exactly as much fuel as
it has steps: no execution has more than 600008 steps. -/
theorem atomic_run_length (sched : List Thread) (s : State) (hr : run sched init = some s) :
    sched.length + fuel s = 600008 :=
  runWith_measure step Inv fuel atomic_inv_step atomic_fuel_step sched init s atomic_inv_init hr

/-- In a state where `main` has not returned some thread can take a step. -/
theorem atomic_progress (s : State) (h : Inv s) (hm : s.mainPc ≠ .exited) :
    ∃ t s', step t s = .next s' := by
  have hb := atomic_barrier s h
  have hs1 := atomic_doneCount_range s.salesPc
  have hp1 := atomic_doneCount_range s.purchasesPc
  have hnp := atomic_no_panic s h
  obtain ⟨hSR, hPR, hC, hA, hD, hSD, hPD, hMD, hSS, hPS, hW, hSW, hPW, hMW, hV, hSer, hPr⟩ := h
  obtain ⟨hnn, _⟩ := hb
  suffices hex : ∃ t, step t s ≠ .blocked by
    obtain ⟨t, ht⟩ := hex
    exact ⟨t, Outcome.exists_next _ ht (hnp t)⟩
  by_cases hw : s.mainPc = .wgWait
  · rw [hw] at hA hSS hPS
    simp only [addedBy, launchedSales, launchedPurchases] at hA hSS hPS
    cases hsp : s.salesPc with
    | notStarted => rw [hsp] at hSS; simp [atomic_pc_simps] at hSS
    | loop i =>
      refine ⟨.makeSales, ?_⟩
      rw [hsp] at hD
      simp only [atomic_pc_simps] at hD
      by_cases hi : i < 300000
      · simp [step, hm, makeSales, hsp, hi]
      · have hc : ¬ s.wg.counter + -1 < 0 := by omega
        simp [step, hm, makeSales, hsp, hi, WaitGroup.Done, WaitGroup.Add, hc]
    | returned =>
      cases hpp : s.purchasesPc with
      | notStarted => rw [hpp] at hPS; simp [atomic_pc_simps] at hPS
      | loop j =>
        refine ⟨.newPurchases, ?_⟩
        rw [hsp, hpp] at hD
        simp only [atomic_pc_simps] at hD
        by_cases hj : j < 300000
        · simp [step, hm, newPurchases, hpp, hj]
        · have hc : ¬ s.wg.counter + -1 < 0 := by omega
          simp [step, hm, newPurchases, hpp, hj, WaitGroup.Done, WaitGroup.Add, hc]
      | returned =>
        refine ⟨.main, ?_⟩
        rw [hsp, hpp] at hD
        simp only [atomic_pc_simps] at hD
        have hc : s.wg.counter = 0 := by omega
        simp [step, hm, main, hw, WaitGroup.Wait, hc]
  · refine ⟨.main, ?_⟩
    have hc : ¬ s.wg.counter + 2 < 0 := by omega
    cases hmp : s.mainPc <;> simp [step, main, hmp, WaitGroup.Add, hc] <;> simp_all


/-- Every reachable state of the atomic program can be run to the end of `main`. -/
theorem atomic_completes (s : State) (h : Inv s) :
    ∃ sched s', run sched s = some s' ∧ s'.mainPc = .exited :=
  runWith_completes step Inv fuel (fun s => s.mainPc = .exited) atomic_inv_step atomic_fuel_step
    atomic_progress (fuel s) s rfl h

theorem atomic_run_append (a b : List Thread) (s : State) :
    run (a ++ b) s = (run a s).bind (run b) :=
  runWith_append step a b s

/-- The state after `main` has launched both goroutines. -/
theorem atomic_run_launch : run launch init = some launched := by
  rfl

/-- One iteration of `makeSales`. -/
theorem atomic_sales_block (m : MainPc) (hm : m ≠ .exited) (pp : WorkerPc) (w : WaitGroup)
    (j : Nat) (s : State) (hj : j < 300000)
    (hP : s.salesPc = .loop j ∧ s.mainPc = m ∧ s.purchasesPc = pp ∧ s.wg = w) :
    ∃ s', runWith step [.makeSales] s = some s' ∧
      (s'.salesPc = .loop (j + 1) ∧ s'.mainPc = m ∧ s'.purchasesPc = pp ∧ s'.wg = w) := by
  obtain ⟨hpc, hmp, hp, hw⟩ := hP
  subst hmp
  refine ⟨{ s with widgetInventory := atomicAddInt32 s.widgetInventory (-100),
                   trace := s.trace ++ [.write .makeSales], salesPc := .loop (j + 1) },
    ?_, rfl, rfl, hp, hw⟩
  simp [runWith, step, makeSales, hpc, hm, hj]

/-- One iteration of `newPurchases`. -/
theorem atomic_purchases_block (m : MainPc) (hm : m ≠ .exited) (sp : WorkerPc) (w : WaitGroup)
    (j : Nat) (s : State) (hj : j < 300000)
    (hP : s.purchasesPc = .loop j ∧ s.mainPc = m ∧ s.salesPc = sp ∧ s.wg = w) :
    ∃ s', runWith step [.newPurchases] s = some s' ∧
      (s'.purchasesPc = .loop (j + 1) ∧ s'.mainPc = m ∧ s'.salesPc = sp ∧ s'.wg = w) := by
  obtain ⟨hpc, hmp, hp, hw⟩ := hP
  subst hmp
  refine ⟨{ s with widgetInventory := atomicAddInt32 s.widgetInventory 100,
                   trace := s.trace ++ [.write .newPurchases], purchasesPc := .loop (j + 1) },
    ?_, rfl, rfl, hp, hw⟩
  simp [runWith, step, newPurchases, hpc, hm, hj]

/-- After the launch, all iterations of `makeSales` can run back to back. -/
theorem atomic_run_allSales :
    ∃ s, run (launch ++ allSales) init = some s ∧ s.salesPc = .loop 300000 ∧
      s.mainPc = .wgWait ∧ s.purchasesPc = .loop 0 ∧ s.wg = ⟨2⟩ := by
  obtain ⟨s, hs, hP⟩ := runWith_times step [.makeSales]
    (fun j s => s.salesPc = .loop j ∧ s.mainPc = .wgWait ∧
      s.purchasesPc = .loop 0 ∧ s.wg = ⟨2⟩) 300000
    (atomic_sales_block .wgWait (by decide) (.loop 0) ⟨2⟩) 300000 0 launched
    ⟨rfl, rfl, rfl, rfl⟩ (by omega)
  rw [Nat.zero_add] at hP
  refine ⟨s, ?_, hP⟩
  rw [atomic_run_append, atomic_run_launch, Option.some_bind, run, allSales]
  exact hs

/-- The sequential schedule runs to the end of the program. -/
theorem atomic_run_sequential :
    ∃ s, run sequential init = some s ∧ s.mainPc = .exited := by
  obtain ⟨s1, h1, hpc1, hm1, hp1, hw1⟩ := atomic_run_allSales
  have h2 : step .makeSales s1 = .next { s1 with
      wg := ⟨1⟩, trace := s1.trace ++ [.done .makeSales], salesPc := .returned } := by
    simp [step, makeSales, hpc1, hm1, hw1, WaitGroup.Done, WaitGroup.Add]
  obtain ⟨s3, h3, hpc3, hm3, hp3, hw3⟩ := runWith_times step [.newPurchases]
    (fun j s => s.purchasesPc = .loop j ∧ s.mainPc = .wgWait ∧
      s.salesPc = .returned ∧ s.wg = ⟨1⟩) 300000
    (atomic_purchases_block .wgWait (by decide) .returned ⟨1⟩) 300000 0
    { s1 with wg := ⟨1⟩, trace := s1.trace ++ [.done .makeSales], salesPc := .returned }
    ⟨hp1, hm1, rfl, rfl⟩ (by omega)
  rw [Nat.zero_add] at hpc3
  have h4 : runWith step [.newPurchases, .main, .main] s3 = some { s3 with
      wg := ⟨0⟩, trace := s3.trace ++ [.done .newPurchases], purchasesPc := .returned,
      stdout := s3.stdout ++ [.ending s3.widgetInventory], mainPc := .exited } := by
    simp [runWith, step, newPurchases, main, hpc3, hm3, hw3, WaitGroup.Done, WaitGroup.Add,
      WaitGroup.Wait]
  refine ⟨{ s3 with
      wg := ⟨0⟩, trace := s3.trace ++ [.done .newPurchases], purchasesPc := .returned,
      stdout := s3.stdout ++ [.ending s3.widgetInventory], mainPc := .exited }, ?_, rfl⟩
  rw [run] at h1
  rw [run, sequential, ← List.append_assoc, runWith_append, h1, Option.some_bind, runWith, h2]
  simp only []
  rw [runWith_append, allPurchases, h3, Option.some_bind]
  exact h4

end RaceAtomic

/-! ## The unsynchronized program -/

namespace RaceProblem

/-- Evaluation of the program-point functions on constructors. -/
theorem unsync_pc_simps :
    (WorkerPc.notStarted.inRange = True) ∧ (∀ i, (WorkerPc.loop i).inRange = (i ≤ 3000)) ∧
    (∀ i v, (WorkerPc.store i v).inRange = (i < 3000)) ∧ (WorkerPc.returned.inRange = True) ∧
    (WorkerPc.notStarted.applied = 0) ∧ (∀ i, (WorkerPc.loop i).applied = i) ∧
    (∀ i v, (WorkerPc.store i v).applied = i) ∧ (WorkerPc.returned.applied = 3000) ∧
    (WorkerPc.notStarted.doneCount = 0) ∧ (∀ i, (WorkerPc.loop i).doneCount = 0) ∧
    (∀ i v, (WorkerPc.store i v).doneCount = 0) ∧ (WorkerPc.returned.doneCount = 1) ∧
    (WorkerPc.notStarted.started = false) ∧ (∀ i, (WorkerPc.loop i).started = true) ∧
    (∀ i v, (WorkerPc.store i v).started = true) ∧ (WorkerPc.returned.started = true) := by
  refine ⟨?_, ?_, ?_, ?_, ?_, ?_, ?_, ?_, ?_, ?_, ?_, ?_, ?_, ?_, ?_, ?_⟩ <;> intros <;> rfl

theorem unsync_applied_le (pc : WorkerPc) (h : pc.inRange) : pc.applied ≤ 3000 := by
  cases pc <;> simp only [unsync_pc_simps] at * <;> omega

theorem unsync_doneCount_range (pc : WorkerPc) : 0 ≤ pc.doneCount ∧ pc.doneCount ≤ 1 := by
  cases pc <;> simp [unsync_pc_simps]

theorem unsync_doneCount_eq_one (pc : WorkerPc) (h : pc.doneCount = 1) : pc = .returned := by
  cases pc <;> simp [unsync_pc_simps] at h ⊢

theorem unsync_not_started (pc : WorkerPc) (h : pc.started = false) : pc = .notStarted := by
  cases pc <;> simp [unsync_pc_simps] at h ⊢

theorem launchedSales_of_launchedPurchases (m : MainPc) (h : launchedPurchases m = true) :
    launchedSales m = true := by
  cases m <;> simp [launchedPurchases, launchedSales] at h ⊢

theorem unsync_inv_init : Inv init := by
  constructor <;> simp [init, unsync_pc_simps, registered, doneCalls,
    addedBy, launchedSales, launchedPurchases, pastWait, writers, printedBy]

theorem unsync_makeSales_next (s s' : State) (h : makeSales s = .next s') :
    (∃ i, s.salesPc = .loop i ∧ i < 3000 ∧
      s' = { s with salesPc := .store i s.widgetInventory }) ∨
    (∃ i, s.salesPc = .loop i ∧ 3000 ≤ i ∧ 1 ≤ s.wg.counter ∧
      s' = { s with wg := ⟨s.wg.counter + -1⟩, trace := s.trace ++ [.done .makeSales],
                    salesPc := .returned }) ∨
    (∃ i v, s.salesPc = .store i v ∧
      s' = { s with widgetInventory := wrapInt32 (v - 100),
                    trace := s.trace ++ [.write .makeSales], salesPc := .loop (i + 1) }) := by
  unfold makeSales at h
  split at h
  · cases h
  · rename_i i hpc
    split at h
    · rename_i hi
      cases h
      exact Or.inl ⟨i, hpc, hi, rfl⟩
    · split at h
      · cases h
      · rename_i w hw
        rw [WaitGroup.Done_eq_some] at hw
        obtain ⟨hl, rfl⟩ := hw
        cases h
        exact Or.inr (Or.inl ⟨i, hpc, by omega, by omega, rfl⟩)
  · rename_i i v hpc
    cases h
    exact Or.inr (Or.inr ⟨i, v, hpc, rfl⟩)
  · cases h

theorem unsync_newPurchases_next (s s' : State) (h : newPurchases s = .next s') :
    (∃ i, s.purchasesPc = .loop i ∧ i < 3000 ∧
      s' = { s with purchasesPc := .store i s.widgetInventory }) ∨
    (∃ i, s.purchasesPc = .loop i ∧ 3000 ≤ i ∧ 1 ≤ s.wg.counter ∧
      s' = { s with wg := ⟨s.wg.counter + -1⟩, trace := s.trace ++ [.done .newPurchases],
                    purchasesPc := .returned }) ∨
    (∃ i v, s.purchasesPc = .store i v ∧
      s' = { s with widgetInventory := wrapInt32 (v + 100),
                    trace := s.trace ++ [.write .newPurchases],
                    purchasesPc := .loop (i + 1) }) := by
  unfold newPurchases at h
  split at h
  · cases h
  · rename_i i hpc
    split at h
    · rename_i hi
      cases h
      exact Or.inl ⟨i, hpc, hi, rfl⟩
    · split at h
      · cases h
      · rename_i w hw
        rw [WaitGroup.Done_eq_some] at hw
        obtain ⟨hl, rfl⟩ := hw
        cases h
        exact Or.inr (Or.inl ⟨i, hpc, by omega, by omega, rfl⟩)
  · rename_i i v hpc
    cases h
    exact Or.inr (Or.inr ⟨i, v, hpc, rfl⟩)
  · cases h

theorem unsync_main_next (s s' : State) (h : main s = .next s') :
    (s.mainPc = .printStart ∧
      s' = { s with stdout := s.stdout ++ [.starting s.widgetInventory], mainPc := .wgAdd }) ∨
    (s.mainPc = .wgAdd ∧ 0 ≤ s.wg.counter + 2 ∧
      s' = { s with wg := ⟨s.wg.counter + 2⟩, trace := s.trace ++ [.add 2],
                    mainPc := .goMakeSales }) ∨
    (s.mainPc = .goMakeSales ∧ s' = { s with salesPc := .loop 0, mainPc := .goNewPurchases }) ∨
    (s.mainPc = .goNewPurchases ∧ s' = { s with purchasesPc := .loop 0, mainPc := .wgWait }) ∨
    (s.mainPc = .wgWait ∧ s.wg.counter = 0 ∧ s' = { s with mainPc := .printEnd }) ∨
    (s.mainPc = .printEnd ∧
      s' = { s with stdout := s.stdout ++ [.ending s.widgetInventory], mainPc := .exited }) := by
  unfold main at h
  split at h
  · rename_i hpc
    cases h
    exact Or.inl ⟨hpc, rfl⟩
  · rename_i hpc
    split at h
    · cases h
    · rename_i w hw
      rw [WaitGroup.Add_eq_some] at hw
      obtain ⟨hl, rfl⟩ := hw
      cases h
      exact Or.inr (Or.inl ⟨hpc, hl, rfl⟩)
  · rename_i hpc
    cases h
    exact Or.inr (Or.inr (Or.inl ⟨hpc, rfl⟩))
  · rename_i hpc
    cases h
    exact Or.inr (Or.inr (Or.inr (Or.inl ⟨hpc, rfl⟩)))
  · rename_i hpc
    split at h
    · rename_i hw
      cases h
      simp only [WaitGroup.Wait, beq_iff_eq] at hw
      exact Or.inr (Or.inr (Or.inr (Or.inr (Or.inl ⟨hpc, hw, rfl⟩))))
    · cases h
  · rename_i hpc
    cases h
    exact Or.inr (Or.inr (Or.inr (Or.inr (Or.inr ⟨hpc, rfl⟩))))
  · cases h

theorem unsync_inv_makeSales (s s' : State) (h : Inv s) (hs : makeSales s = .next s') :
    Inv s' := by
  obtain ⟨hSR, hPR, hC, hA, hD, hSD, hPD, hMD, hSS, hPS, hW, hSW, hPW, hMW, hU, hPr⟩ := h
  rcases unsync_makeSales_next s s' hs with ⟨i, hpc, hi, rfl⟩ | ⟨i, hpc, hi, hl, rfl⟩ |
    ⟨i, v, hpc, rfl⟩
  all_goals clear hs
  all_goals rw [hpc] at hSR hD hSD hSS hW hSW
  all_goals
    refine ⟨?_, ?_, ?_, ?_, ?_, ?_, ?_, ?_, ?_, ?_, ?_, ?_, ?_, ?_, ?_, ?_⟩ <;>
      simp only [] <;> first | assumption | skip
  all_goals
    simp [unsync_pc_simps, registered, doneCalls, writers,
      List.count_cons, List.count_append] at *
  all_goals first | omega | simp_all

theorem unsync_inv_newPurchases (s s' : State) (h : Inv s) (hs : newPurchases s = .next s') :
    Inv s' := by
  have hLL := launchedSales_of_launchedPurchases s.mainPc
  obtain ⟨hSR, hPR, hC, hA, hD, hSD, hPD, hMD, hSS, hPS, hW, hSW, hPW, hMW, hU, hPr⟩ := h
  rcases unsync_newPurchases_next s s' hs with ⟨i, hpc, hi, rfl⟩ | ⟨i, hpc, hi, hl, rfl⟩ |
    ⟨i, v, hpc, rfl⟩
  all_goals clear hs
  all_goals rw [hpc] at hPR hD hPD hPS hW hPW
  all_goals
    refine ⟨?_, ?_, ?_, ?_, ?_, ?_, ?_, ?_, ?_, ?_, ?_, ?_, ?_, ?_, ?_, ?_⟩ <;>
      simp only [] <;> first | assumption | skip
  all_goals
    simp [unsync_pc_simps, registered, doneCalls, writers,
      List.count_cons, List.count_append] at *
  all_goals first | omega | simp_all

theorem unsync_inv_main (s s' : State) (h : Inv s) (hs : main s = .next s') : Inv s' := by
  have hs1 := unsync_doneCount_range s.salesPc
  have hp1 := unsync_doneCount_range s.purchasesPc
  have hs2 := unsync_doneCount_eq_one s.salesPc
  have hp2 := unsync_doneCount_eq_one s.purchasesPc
  have hs3 := unsync_not_started s.salesPc
  have hp3 := unsync_not_started s.purchasesPc
  obtain ⟨hSR, hPR, hC, hA, hD, hSD, hPD, hMD, hSS, hPS, hW, hSW, hPW, hMW, hU, v, hPr⟩ := h
  rcases unsync_main_next s s' hs with ⟨hpc, rfl⟩ | ⟨hpc, hl, rfl⟩ | ⟨hpc, rfl⟩ | ⟨hpc, rfl⟩ |
    ⟨hpc, hl, rfl⟩ | ⟨hpc, rfl⟩
  all_goals clear hs
  all_goals rw [hpc] at hA hSS hPS hW hPr hU
  all_goals
    simp only [addedBy, launchedSales, launchedPurchases, pastWait, printedBy]
      at hA hSS hPS hW hPr hU
  · have hUb := hU trivial
    refine ⟨?_, ?_, ?_, ?_, ?_, ?_, ?_, ?_, ?_, ?_, ?_, ?_, ?_, ?_, ?_, ?_⟩ <;>
      simp only [] <;> first | assumption | simp [printedBy, launchedSales, hPr, hUb]
  · refine ⟨?_, ?_, ?_, ?_, ?_, ?_, ?_, ?_, ?_, ?_, ?_, ?_, ?_, ?_, ?_, ?_⟩ <;>
      simp only [] <;> first | assumption | skip
    all_goals
      simp [registered, doneCalls, writers, addedBy, launchedSales, launchedPurchases, pastWait,
        printedBy, List.count_append] at *
    all_goals first | omega | assumption
  · have e1 := hs3 hSS.symm
    rw [e1] at hSR hD hSD hSW
    refine ⟨?_, ?_, ?_, ?_, ?_, ?_, ?_, ?_, ?_, ?_, ?_, ?_, ?_, ?_, ?_, ?_⟩ <;>
      simp only [] <;> first | assumption | skip
    all_goals
      simp [unsync_pc_simps, addedBy, launchedSales, launchedPurchases, pastWait,
        printedBy] at *
    all_goals first | omega | assumption
  · have e2 := hp3 hPS.symm
    rw [e2] at hPR hD hPD hPW
    refine ⟨?_, ?_, ?_, ?_, ?_, ?_, ?_, ?_, ?_, ?_, ?_, ?_, ?_, ?_, ?_, ?_⟩ <;>
      simp only [] <;> first | assumption | skip
    all_goals
      simp [unsync_pc_simps, addedBy, launchedSales, launchedPurchases, pastWait,
        printedBy] at *
    all_goals first | omega | assumption
  · have e1 := hs2 (by omega)
    have e2 := hp2 (by omega)
    refine ⟨?_, ?_, ?_, ?_, ?_, ?_, ?_, ?_, ?_, ?_, ?_, ?_, ?_, ?_, ?_, ?_⟩ <;>
      simp only [] <;> first | assumption | skip
    all_goals
      simp [addedBy, launchedSales, launchedPurchases, pastWait, printedBy] at *
    all_goals first | omega | assumption | exact ⟨e1, e2⟩
  · refine ⟨?_, ?_, ?_, ?_, ?_, ?_, ?_, ?_, ?_, ?_, ?_, ?_, ?_, ?_, ?_, ?_⟩ <;>
      simp only [] <;> first | assumption | skip
    all_goals
      simp [addedBy, launchedSales, launchedPurchases, pastWait, printedBy] at *
    all_goals first | omega | assumption | simp [hPr]

theorem unsync_inv_step (t : Thread) (s s' : State) (h : Inv s) (hs : step t s = .next s') :
    Inv s' := by
  unfold step at hs
  split at hs
  · cases hs
  · cases t
    · exact unsync_inv_main s s' h hs
    · exact unsync_inv_makeSales s s' h hs
    · exact unsync_inv_newPurchases s s' h hs

theorem unsync_inv_run (sched : List Thread) (s s' : State) (h : Inv s)
    (hr : run sched s = some s') : Inv s' :=
  runWith_invariant step Inv unsync_inv_step sched s s' h hr

/-- Every state reached from the initial state satisfies the invariant. -/
theorem unsync_inv_reachable (sched : List Thread) (s : State)
    (hr : run sched init = some s) : Inv s :=
  unsync_inv_run sched init s unsync_inv_init hr

theorem unsync_doneCount_le_started (pc : WorkerPc) :
    pc.doneCount ≤ (if pc.started = true then 1 else 0) := by
  cases pc <;> simp [unsync_pc_simps]

/-- The barrier accounting holds in every state satisfying the invariant. -/
theorem unsync_barrier (s : State) (h : Inv s) :
    BarrierAccounting s.wg s.trace (s.mainPc == .wgWait) (pastWait s.mainPc)
      Thread.makeSales Thread.newPurchases := by
  have hs1 := unsync_doneCount_range s.salesPc
  have hp1 := unsync_doneCount_range s.purchasesPc
  have hs2 := unsync_doneCount_le_started s.salesPc
  have hp2 := unsync_doneCount_le_started s.purchasesPc
  have ha := race_added_range s.mainPc
  have hl := race_added_of_launched s.mainPc
  have hw := race_added_of_wait s.mainPc
  obtain ⟨hSR, hPR, hC, hA, hD, hSD, hPD, hMD, hSS, hPS, hW, hSW, hPW, hMW, hU, hPr⟩ := h
  rw [hSS, hPS] at hl
  have hle : doneCalls s.trace ≤ registered s.trace := by
    rw [hD, hA]
    by_cases h1 : s.salesPc.started = true
    · have := hl (Or.inl h1); omega
    · by_cases h2 : s.purchasesPc.started = true
      · have := hl (Or.inr h2); omega
      · simp only [h1, h2] at hs2 hp2
        simp at hs2 hp2
        omega
  refine ⟨by omega, hC, hle, by omega, ?_, by omega, by omega, by omega, ?_, ?_⟩
  · intro h; rw [hA]; exact hw h
  · intro h
    have := hw (Or.inl h)
    constructor
    · intro h0; omega
    · intro h0; omega
  · intro h
    have := hw (Or.inr h)
    obtain ⟨e1, e2⟩ := hW h
    rw [e1, e2] at hD
    simp only [unsync_pc_simps] at hD
    omega

theorem unsync_main_no_panic (s : State) (h : Inv s) : main s ≠ .panic := by
  obtain ⟨hnn, _⟩ := unsync_barrier s h
  intro hpanic
  unfold main at hpanic
  split at hpanic
  · cases hpanic
  · split at hpanic
    · rename_i heq
      simp [WaitGroup.Add] at heq
      omega
    · cases hpanic
  · cases hpanic
  · cases hpanic
  · split at hpanic <;> cases hpanic
  · cases hpanic
  · cases hpanic

theorem unsync_makeSales_no_panic (s : State) (h : Inv s) : makeSales s ≠ .panic := by
  have hp1 := unsync_doneCount_range s.purchasesPc
  have hl := race_added_of_launched s.mainPc
  obtain ⟨hSR, hPR, hC, hA, hD, hSD, hPD, hMD, hSS, hPS, hW, hSW, hPW, hMW, hU, hPr⟩ := h
  rw [hSS, hPS] at hl
  intro hpanic
  unfold makeSales at hpanic
  split at hpanic
  · cases hpanic
  · rename_i i hpc
    rw [hpc] at hD hl
    simp only [unsync_pc_simps] at hD hl
    have := hl (Or.inl trivial)
    split at hpanic
    · cases hpanic
    · split at hpanic
      · rename_i heq
        simp [WaitGroup.Done, WaitGroup.Add] at heq
        omega
      · cases hpanic
  · cases hpanic
  · cases hpanic

theorem unsync_newPurchases_no_panic (s : State) (h : Inv s) : newPurchases s ≠ .panic := by
  have hs1 := unsync_doneCount_range s.salesPc
  have hl := race_added_of_launched s.mainPc
  obtain ⟨hSR, hPR, hC, hA, hD, hSD, hPD, hMD, hSS, hPS, hW, hSW, hPW, hMW, hU, hPr⟩ := h
  rw [hSS, hPS] at hl
  intro hpanic
  unfold newPurchases at hpanic
  split at hpanic
  · cases hpanic
  · rename_i i hpc
    rw [hpc] at hD hl
    simp only [unsync_pc_simps] at hD hl
    have := hl (Or.inr trivial)
    split at hpanic
    · cases hpanic
    · split at hpanic
      · rename_i heq
        simp [WaitGroup.Done, WaitGroup.Add] at heq
        omega
      · cases hpanic
  · cases hpanic
  · cases hpanic

/-- No step of the atomic program panics. -/
theorem unsync_no_panic (s : State) (h : Inv s) (t : Thread) : step t s ≠ .panic := by
  intro hpanic
  unfold step at hpanic
  split at hpanic
  · cases hpanic
  · cases t
    · exact unsync_main_no_panic s h hpanic
    · exact unsync_makeSales_no_panic s h hpanic
    · exact unsync_newPurchases_no_panic s h hpanic

theorem unsync_fuel_simps :
    (WorkerPc.notStarted.fuel = 6001) ∧ (∀ i, (WorkerPc.loop i).fuel = 2 * (3000 - i) + 1) ∧
    (∀ i v, (WorkerPc.store i v).fuel = 2 * (3000 - i)) ∧ (WorkerPc.returned.fuel = 0) := by
  refine ⟨?_, ?_, ?_, ?_⟩ <;> intros <;> rfl

/-- Every step uses up one unit of fuel. -/
theorem unsync_fuel_step (t : Thread) (s s' : State) (h : Inv s) (hs : step t s = .next s') :
    fuel s' + 1 = fuel s := by
  have hs3 := unsync_not_started s.salesPc
  have hp3 := unsync_not_started s.purchasesPc
  obtain ⟨hSR, hPR, hC, hA, hD, hSD, hPD, hMD, hSS, hPS, hW, hSW, hPW, hMW, hU, hPr⟩ := h
  unfold step at hs
  split at hs
  · cases hs
  · cases t
    · rcases unsync_main_next s s' hs with ⟨hpc, rfl⟩ | ⟨hpc, hl, rfl⟩ | ⟨hpc, rfl⟩ |
        ⟨hpc, rfl⟩ | ⟨hpc, hl, rfl⟩ | ⟨hpc, rfl⟩
      all_goals rw [hpc] at hSS hPS
      all_goals simp only [launchedSales, launchedPurchases] at hSS hPS
      all_goals
        first
        | (have e1 := hs3 hSS.symm
           simp only [fuel, hpc, mainFuel, e1, unsync_fuel_simps]
           omega)
        | (have e2 := hp3 hPS.symm
           simp only [fuel, hpc, mainFuel, e2, unsync_fuel_simps]
           omega)
        | (simp only [fuel, hpc, mainFuel]
           omega)
    · rcases unsync_makeSales_next s s' hs with ⟨i, hpc, hi, rfl⟩ | ⟨i, hpc, hi, hl, rfl⟩ |
        ⟨i, v, hpc, rfl⟩
      all_goals rw [hpc] at hSR
      all_goals simp only [unsync_pc_simps] at hSR
      all_goals simp only [fuel, hpc, unsync_fuel_simps]
      all_goals omega
    · rcases unsync_newPurchases_next s s' hs with ⟨i, hpc, hi, rfl⟩ | ⟨i, hpc, hi, hl, rfl⟩ |
        ⟨i, v, hpc, rfl⟩
      all_goals rw [hpc] at hPR
      all_goals simp only [unsync_pc_simps] at hPR
      all_goals simp only [fuel, hpc, unsync_fuel_simps]
      all_goals omega

/-- A schedule that runs from the initial state has used exactly as much fuel as
it has steps: no execution has more than 12008 steps. -/
theorem unsync_run_length (sched : List Thread) (s : State) (hr : run sched init = some s) :
    sched.length + fuel s = 12008 :=
  runWith_measure step Inv fuel unsync_inv_step unsync_fuel_step sched init s unsync_inv_init hr

/-- In a state where `main` has not returned some thread can take a step. -/
theorem unsync_progress (s : State) (h : Inv s) (hm : s.mainPc ≠ .exited) :
    ∃ t s', step t s = .next s' := by
  have hb := unsync_barrier s h
  have hs1 := unsync_doneCount_range s.salesPc
  have hp1 := unsync_doneCount_range s.purchasesPc
  have hnp := unsync_no_panic s h
  obtain ⟨hSR, hPR, hC, hA, hD, hSD, hPD, hMD, hSS, hPS, hW, hSW, hPW, hMW, hU, hPr⟩ := h
  obtain ⟨hnn, _⟩ := hb
  suffices hex : ∃ t, step t s ≠ .blocked by
    obtain ⟨t, ht⟩ := hex
    exact ⟨t, Outcome.exists_next _ ht (hnp t)⟩
  by_cases hw : s.mainPc = .wgWait
  · rw [hw] at hA hSS hPS
    simp only [addedBy, launchedSales, launchedPurchases] at hA hSS hPS
    cases hsp : s.salesPc with
    | notStarted => rw [hsp] at hSS; simp [unsync_pc_simps] at hSS
    | store i v => exact ⟨.makeSales, by simp [step, hm, makeSales, hsp]⟩
    | loop i =>
      refine ⟨.makeSales, ?_⟩
      rw [hsp] at hD
      simp only [unsync_pc_simps] at hD
      by_cases hi : i < 3000
      · simp [step, hm, makeSales, hsp, hi]
      · have hc : ¬ s.wg.counter + -1 < 0 := by omega
        simp [step, hm, makeSales, hsp, hi, WaitGroup.Done, WaitGroup.Add, hc]
    | returned =>
      cases hpp : s.purchasesPc with
      | notStarted => rw [hpp] at hPS; simp [unsync_pc_simps] at hPS
      | store j v => exact ⟨.newPurchases, by simp [step, hm, newPurchases, hpp]⟩
      | loop j =>
        refine ⟨.newPurchases, ?_⟩
        rw [hsp, hpp] at hD
        simp only [unsync_pc_simps] at hD
        by_cases hj : j < 3000
        · simp [step, hm, newPurchases, hpp, hj]
        · have hc : ¬ s.wg.counter + -1 < 0 := by omega
          simp [step, hm, newPurchases, hpp, hj, WaitGroup.Done, WaitGroup.Add, hc]
      | returned =>
        refine ⟨.main, ?_⟩
        rw [hsp, hpp] at hD
        simp only [unsync_pc_simps] at hD
        have hc : s.wg.counter = 0 := by omega
        simp [step, hm, main, hw, WaitGroup.Wait, hc]
  · refine ⟨.main, ?_⟩
    have hc : ¬ s.wg.counter + 2 < 0 := by omega
    cases hmp : s.mainPc <;> simp [step, main, hmp, WaitGroup.Add, hc] <;> simp_all


/-- Every reachable state of the unsynchronized program can be run to the end of
`main`. -/
theorem unsync_completes (s : State) (h : Inv s) :
    ∃ sched s', run sched s = some s' ∧ s'.mainPc = .exited :=
  runWith_completes step Inv fuel (fun s => s.mainPc = .exited) unsync_inv_step unsync_fuel_step
    unsync_progress (fuel s) s rfl h

/-- The state after `main` has launched both goroutines. -/
theorem unsync_run_launch : run launch init = some launched := by
  rfl

/-- One iteration of `makeSales` (read, then write) run without interruption
subtracts 100. -/
theorem unsync_sales_block (b : Int) (hb : -1000000000 ≤ b ∧ b ≤ 1000000000) (m : MainPc)
    (hm : m ≠ .exited) (pp : WorkerPc) (w : WaitGroup) (out : List Line)
    (j : Nat) (s : State) (hj : j < 3000)
    (hP : s.salesPc = .loop j ∧ s.widgetInventory = b - 100 * j ∧ s.mainPc = m ∧
      s.purchasesPc = pp ∧ s.wg = w ∧ s.stdout = out) :
    ∃ s', runWith step [.makeSales, .makeSales] s = some s' ∧
      (s'.salesPc = .loop (j + 1) ∧ s'.widgetInventory = b - 100 * ((j + 1 : Nat) : Int) ∧
        s'.mainPc = m ∧ s'.purchasesPc = pp ∧ s'.wg = w ∧ s'.stdout = out) := by
  obtain ⟨hpc, hv, hmp, hp, hw, ho⟩ := hP
  subst hmp
  refine ⟨{ s with widgetInventory := wrapInt32 (s.widgetInventory - 100),
                   trace := s.trace ++ [.write .makeSales], salesPc := .loop (j + 1) },
    ?_, rfl, ?_, rfl, hp, hw, ho⟩
  · simp [runWith, step, makeSales, hpc, hm, hj]
  · simp only [wrapInt32, hv]
    omega

/-- One iteration of `newPurchases` (read, then write) run without interruption
adds 100. -/
theorem unsync_purchases_block (b : Int) (hb : -1000000000 ≤ b ∧ b ≤ 1000000000) (m : MainPc)
    (hm : m ≠ .exited) (sp : WorkerPc) (w : WaitGroup) (out : List Line)
    (j : Nat) (s : State) (hj : j < 3000)
    (hP : s.purchasesPc = .loop j ∧ s.widgetInventory = b + 100 * j ∧ s.mainPc = m ∧
      s.salesPc = sp ∧ s.wg = w ∧ s.stdout = out) :
    ∃ s', runWith step [.newPurchases, .newPurchases] s = some s' ∧
      (s'.purchasesPc = .loop (j + 1) ∧ s'.widgetInventory = b + 100 * ((j + 1 : Nat) : Int) ∧
        s'.mainPc = m ∧ s'.salesPc = sp ∧ s'.wg = w ∧ s'.stdout = out) := by
  obtain ⟨hpc, hv, hmp, hp, hw, ho⟩ := hP
  subst hmp
  refine ⟨{ s with widgetInventory := wrapInt32 (s.widgetInventory + 100),
                   trace := s.trace ++ [.write .newPurchases], purchasesPc := .loop (j + 1) },
    ?_, rfl, ?_, rfl, hp, hw, ho⟩
  · simp [runWith, step, newPurchases, hpc, hm, hj]
  · simp only [wrapInt32, hv]
    omega

/-- From a state in which `main` waits, `makeSales` has completed `i` iterations
and `newPurchases` has completed `i` iterations, with the counter at `v`: running
the rest of `makeSales`, then the rest of `newPurchases`, then `main`, ends the
program, and `main` prints `v` as the ending inventory. -/
theorem unsync_run_rest (i k : Nat) (hik : i + k = 3000) (v : Int)
    (hv : -10000000 ≤ v ∧ v ≤ 10000000) (s : State)
    (hs : s.salesPc = .loop i ∧ s.purchasesPc = .loop i ∧ s.widgetInventory = v ∧
      s.mainPc = .wgWait ∧ s.wg = ⟨2⟩ ∧ s.stdout = [.starting 1000]) :
    ∃ s', runWith step (times k [.makeSales, .makeSales] ++ (.makeSales ::
        (times k [.newPurchases, .newPurchases] ++ [.newPurchases, .main, .main]))) s = some s' ∧
      s'.mainPc = .exited ∧ s'.salesPc = .returned ∧ s'.purchasesPc = .returned ∧
      s'.stdout = [.starting 1000, .ending v] := by
  obtain ⟨hsp, hpp, hsv, hsm, hsw, hso⟩ := hs
  obtain ⟨s1, h1, hpc1, hv1, hm1, hp1, hw1, ho1⟩ := runWith_times step [.makeSales, .makeSales]
    (fun j s => s.salesPc = .loop j ∧ s.widgetInventory = (v + 100 * i) - 100 * j ∧
      s.mainPc = .wgWait ∧ s.purchasesPc = .loop i ∧ s.wg = ⟨2⟩ ∧ s.stdout = [.starting 1000])
    3000
    (unsync_sales_block (v + 100 * i) (by omega) .wgWait (by decide) (.loop i) ⟨2⟩ _)
    k i s ⟨hsp, by omega, hsm, hpp, hsw, hso⟩ (by omega)
  rw [hik] at hpc1 hv1
  have h2 : step .makeSales s1 = .next { s1 with
      wg := ⟨1⟩, trace := s1.trace ++ [.done .makeSales], salesPc := .returned } := by
    simp [step, makeSales, hpc1, hm1, hw1, WaitGroup.Done, WaitGroup.Add]
  obtain ⟨s3, h3, hpc3, hv3, hm3, hp3, hw3, ho3⟩ := runWith_times step
    [.newPurchases, .newPurchases]
    (fun j s => s.purchasesPc = .loop j ∧ s.widgetInventory = (v - 300000) + 100 * j ∧
      s.mainPc = .wgWait ∧ s.salesPc = .returned ∧ s.wg = ⟨1⟩ ∧ s.stdout = [.starting 1000])
    3000
    (unsync_purchases_block (v - 300000) (by omega) .wgWait (by decide) .returned ⟨1⟩ _)
    k i
    { s1 with wg := ⟨1⟩, trace := s1.trace ++ [.done .makeSales], salesPc := .returned }
    ⟨hp1, by simp only [hv1]; omega, hm1, rfl, rfl, ho1⟩ (by omega)
  rw [hik] at hpc3 hv3
  have hv3' : s3.widgetInventory = v := by rw [hv3]; omega
  have h4 : runWith step [.newPurchases, .main, .main] s3 = some { s3 with
      wg := ⟨0⟩, trace := s3.trace ++ [.done .newPurchases], purchasesPc := .returned,
      stdout := s3.stdout ++ [.ending s3.widgetInventory], mainPc := .exited } := by
    simp [runWith, step, newPurchases, main, hpc3, hm3, hw3, WaitGroup.Done, WaitGroup.Add,
      WaitGroup.Wait]
  refine ⟨{ s3 with
      wg := ⟨0⟩, trace := s3.trace ++ [.done .newPurchases], purchasesPc := .returned,
      stdout := s3.stdout ++ [.ending s3.widgetInventory], mainPc := .exited },
    ?_, rfl, hp3, rfl, ?_⟩
  · rw [runWith_append, h1, Option.some_bind, runWith, h2]
    simp only []
    rw [runWith_append, h3, Option.some_bind]
    exact h4
  · simp [ho3, hv3']

/-- The sequential schedule ends with the start value. -/
theorem unsync_run_sequential :
    ∃ s, run sequential init = some s ∧ s.mainPc = .exited ∧ s.salesPc = .returned ∧
      s.purchasesPc = .returned ∧ s.stdout = [.starting 1000, .ending 1000] := by
  obtain ⟨s, hs, h⟩ := unsync_run_rest 0 3000 rfl 1000 (by omega) launched
    ⟨rfl, rfl, rfl, rfl, rfl, rfl⟩
  refine ⟨s, ?_, h⟩
  have hl : runWith step launch init = some launched := unsync_run_launch
  rw [run, sequential, runWith_append, hl, Option.some_bind]
  exact hs

/-- The first iteration of both tasks, interleaved so that one update is lost. -/
theorem unsync_run_lost :
    runWith step [.makeSales, .newPurchases, .makeSales, .newPurchases] launched
      = some { launched with
          widgetInventory := 1100, salesPc := .loop 1, purchasesPc := .loop 1,
          trace := [.add 2, .write .makeSales, .write .newPurchases] } := by
  rfl

/-- The schedule with a lost update ends with 1100. -/
theorem unsync_run_lostUpdate :
    ∃ s, run lostUpdate init = some s ∧ s.mainPc = .exited ∧ s.salesPc = .returned ∧
      s.purchasesPc = .returned ∧ s.stdout = [.starting 1000, .ending 1100] := by
  obtain ⟨s, hs, h⟩ := unsync_run_rest 1 2999 rfl 1100 (by omega)
    { launched with
      widgetInventory := 1100, salesPc := .loop 1, purchasesPc := .loop 1,
      trace := [.add 2, .write .makeSales, .write .newPurchases] }
    ⟨rfl, rfl, rfl, rfl, rfl, rfl⟩
  refine ⟨s, ?_, h⟩
  have hl : runWith step launch init = some launched := unsync_run_launch
  rw [run, lostUpdate, runWith_append, hl, Option.some_bind, runWith_append, unsync_run_lost,
    Option.some_bind]
  exact hs

end RaceProblem

/-! ## The WaitGroup program -/

namespace Waitgroups

/-- Evaluation of the program-point functions on constructors. -/
theorem wgx_pc_simps :
    (WorkerPc.notStarted.doneCount = 0) ∧ (WorkerPc.deferDone.doneCount = 0) ∧
    (WorkerPc.sleep.doneCount = 0) ∧ (WorkerPc.println.doneCount = 0) ∧
    (WorkerPc.deferred.doneCount = 0) ∧ (WorkerPc.returned.doneCount = 1) ∧
    (WorkerPc.notStarted.started = false) ∧ (WorkerPc.deferDone.started = true) ∧
    (WorkerPc.sleep.started = true) ∧ (WorkerPc.println.started = true) ∧
    (WorkerPc.deferred.started = true) ∧ (WorkerPc.returned.started = true) ∧
    (WorkerPc.notStarted.printed = false) ∧ (WorkerPc.deferDone.printed = false) ∧
    (WorkerPc.sleep.printed = false) ∧ (WorkerPc.println.printed = false) ∧
    (WorkerPc.deferred.printed = true) ∧ (WorkerPc.returned.printed = true) := by
  refine ⟨?_, ?_, ?_, ?_, ?_, ?_, ?_, ?_, ?_, ?_, ?_, ?_, ?_, ?_, ?_, ?_, ?_, ?_⟩ <;> rfl

theorem wgx_doneCount_range (pc : WorkerPc) : 0 ≤ pc.doneCount ∧ pc.doneCount ≤ 1 := by
  cases pc <;> simp [wgx_pc_simps]

theorem wgx_doneCount_eq_one (pc : WorkerPc) (h : pc.doneCount = 1) : pc = .returned := by
  cases pc <;> simp [wgx_pc_simps] at h ⊢

theorem wgx_not_started (pc : WorkerPc) (h : pc.started = false) : pc = .notStarted := by
  cases pc <;> simp [wgx_pc_simps] at h ⊢

theorem wgx_mainOutput_nil (m : MainPc) (h : pastWait m = false) : mainOutput m = [] := by
  cases m <;> simp [pastWait, mainOutput] at h ⊢

theorem wgx_inv_init : Inv init := by
  constructor <;> simp [init, wgx_pc_simps, registered, doneCalls,
    addedBy, launchedSomething, launchedSomethingElse, pastWait, taskOutputs, mainOutput]

theorem wgx_doSomething_next (s s' : State) (h : doSomething s = .next s') :
    (s.somethingPc = .deferDone ∧ s' = { s with somethingPc := .sleep }) ∨
    (s.somethingPc = .sleep ∧ s' = { s with somethingPc := .println }) ∨
    (s.somethingPc = .println ∧
      s' = { s with stdout := s.stdout ++ [.iveDoneSomething], somethingPc := .deferred }) ∨
    (s.somethingPc = .deferred ∧ 1 ≤ s.wg.counter ∧
      s' = { s with wg := ⟨s.wg.counter + -1⟩, trace := s.trace ++ [.done .doSomething],
                    somethingPc := .returned }) := by
  unfold doSomething at h
  split at h
  · cases h
  · rename_i hpc
    cases h
    exact Or.inl ⟨hpc, rfl⟩
  · rename_i hpc
    cases h
    exact Or.inr (Or.inl ⟨hpc, rfl⟩)
  · rename_i hpc
    cases h
    exact Or.inr (Or.inr (Or.inl ⟨hpc, rfl⟩))
  · rename_i hpc
    split at h
    · cases h
    · rename_i w hw
      rw [WaitGroup.Done_eq_some] at hw
      obtain ⟨hl, rfl⟩ := hw
      cases h
      exact Or.inr (Or.inr (Or.inr ⟨hpc, by omega, rfl⟩))
  · cases h

theorem wgx_doSomethingElse_next (s s' : State) (h : doSomethingElse s = .next s') :
    (s.somethingElsePc = .deferDone ∧ s' = { s with somethingElsePc := .sleep }) ∨
    (s.somethingElsePc = .sleep ∧ s' = { s with somethingElsePc := .println }) ∨
    (s.somethingElsePc = .println ∧
      s' = { s with stdout := s.stdout ++ [.iveDoneSomethingElse],
                    somethingElsePc := .deferred }) ∨
    (s.somethingElsePc = .deferred ∧ 1 ≤ s.wg.counter ∧
      s' = { s with wg := ⟨s.wg.counter + -1⟩, trace := s.trace ++ [.done .doSomethingElse],
                    somethingElsePc := .returned }) := by
  unfold doSomethingElse at h
  split at h
  · cases h
  · rename_i hpc
    cases h
    exact Or.inl ⟨hpc, rfl⟩
  · rename_i hpc
    cases h
    exact Or.inr (Or.inl ⟨hpc, rfl⟩)
  · rename_i hpc
    cases h
    exact Or.inr (Or.inr (Or.inl ⟨hpc, rfl⟩))
  · rename_i hpc
    split at h
    · cases h
    · rename_i w hw
      rw [WaitGroup.Done_eq_some] at hw
      obtain ⟨hl, rfl⟩ := hw
      cases h
      exact Or.inr (Or.inr (Or.inr ⟨hpc, by omega, rfl⟩))
  · cases h

theorem wgx_main_next (s s' : State) (h : main s = .next s') :
    (s.mainPc = .timeNow ∧ s' = { s with mainPc := .newWaitGroup }) ∨
    (s.mainPc = .newWaitGroup ∧ s' = { s with wg := ⟨0⟩, mainPc := .wgAdd1 }) ∨
    (s.mainPc = .wgAdd1 ∧ 0 ≤ s.wg.counter + 1 ∧
      s' = { s with wg := ⟨s.wg.counter + 1⟩, trace := s.trace ++ [.add 1],
                    mainPc := .goDoSomething }) ∨
    (s.mainPc = .goDoSomething ∧ s' = { s with somethingPc := .deferDone, mainPc := .wgAdd2 }) ∨
    (s.mainPc = .wgAdd2 ∧ 0 ≤ s.wg.counter + 1 ∧
      s' = { s with wg := ⟨s.wg.counter + 1⟩, trace := s.trace ++ [.add 1],
                    mainPc := .goDoSomethingElse }) ∨
    (s.mainPc = .goDoSomethingElse ∧
      s' = { s with somethingElsePc := .deferDone, mainPc := .wgWait }) ∨
    (s.mainPc = .wgWait ∧ s.wg.counter = 0 ∧ s' = { s with mainPc := .printDone }) ∨
    (s.mainPc = .printDone ∧
      s' = { s with stdout := s.stdout ++ [.iGuessImDone], mainPc := .printElapsed }) ∨
    (s.mainPc = .printElapsed ∧
      s' = { s with stdout := s.stdout ++ [.processesTook], mainPc := .exited }) := by
  unfold main at h
  split at h
  · rename_i hpc
    cases h
    exact Or.inl ⟨hpc, rfl⟩
  · rename_i hpc
    cases h
    exact Or.inr (Or.inl ⟨hpc, rfl⟩)
  · rename_i hpc
    split at h
    · cases h
    · rename_i w hw
      rw [WaitGroup.Add_eq_some] at hw
      obtain ⟨hl, rfl⟩ := hw
      cases h
      exact Or.inr (Or.inr (Or.inl ⟨hpc, hl, rfl⟩))
  · rename_i hpc
    cases h
    exact Or.inr (Or.inr (Or.inr (Or.inl ⟨hpc, rfl⟩)))
  · rename_i hpc
    split at h
    · cases h
    · rename_i w hw
      rw [WaitGroup.Add_eq_some] at hw
      obtain ⟨hl, rfl⟩ := hw
      cases h
      exact Or.inr (Or.inr (Or.inr (Or.inr (Or.inl ⟨hpc, hl, rfl⟩))))
  · rename_i hpc
    cases h
    exact Or.inr (Or.inr (Or.inr (Or.inr (Or.inr (Or.inl ⟨hpc, rfl⟩)))))
  · rename_i hpc
    split at h
    · rename_i hw
      cases h
      simp only [WaitGroup.Wait, beq_iff_eq] at hw
      exact Or.inr (Or.inr (Or.inr (Or.inr (Or.inr (Or.inr (Or.inl ⟨hpc, hw, rfl⟩))))))
    · cases h
  · rename_i hpc
    cases h
    exact Or.inr (Or.inr (Or.inr (Or.inr (Or.inr (Or.inr (Or.inr (Or.inl ⟨hpc, rfl⟩)))))))
  · rename_i hpc
    cases h
    exact Or.inr (Or.inr (Or.inr (Or.inr (Or.inr (Or.inr (Or.inr (Or.inr ⟨hpc, rfl⟩)))))))
  · cases h

theorem wgx_inv_doSomething (s s' : State) (h : Inv s) (hs : doSomething s = .next s') :
    Inv s' := by
  have hmo := wgx_mainOutput_nil s.mainPc
  obtain ⟨hC, hA, hD, hSD, hED, hMD, hSS, hES, hW, o, ho, hO⟩ := h
  rcases wgx_doSomething_next s s' hs with ⟨hpc, rfl⟩ | ⟨hpc, rfl⟩ | ⟨hpc, rfl⟩ | ⟨hpc, hl, rfl⟩
  all_goals clear hs
  all_goals rw [hpc] at hD hSD hSS hW ho
  · refine ⟨?_, ?_, ?_, ?_, ?_, ?_, ?_, ?_, ?_, ?_⟩ <;>
      simp only [] <;> first | assumption | skip
    all_goals simp [wgx_pc_simps] at *
    all_goals first | omega | assumption | exact ⟨o, ho, hO⟩
  · refine ⟨?_, ?_, ?_, ?_, ?_, ?_, ?_, ?_, ?_, ?_⟩ <;>
      simp only [] <;> first | assumption | skip
    all_goals simp [wgx_pc_simps] at *
    all_goals first | omega | assumption | exact ⟨o, ho, hO⟩
  · have hpw : pastWait s.mainPc = false := by
      cases hp : pastWait s.mainPc
      · rfl
      · have := (hW hp).1
        cases this
    have hnil := hmo hpw
    refine ⟨?_, ?_, ?_, ?_, ?_, ?_, ?_, ?_, ?_, ?_⟩ <;>
      simp only [] <;> first | assumption | skip
    all_goals try simp only [wgx_pc_simps] at *
    · intro hp
      rw [hpw] at hp
      cases hp
    · rw [hnil] at hO ⊢
      cases hb : s.somethingElsePc.printed <;> rw [hb] at ho <;>
        simp [taskOutputs] at ho ⊢ <;> simp [hO, ho]
  · refine ⟨?_, ?_, ?_, ?_, ?_, ?_, ?_, ?_, ?_, ?_⟩ <;>
      simp only [] <;> first | assumption | skip
    all_goals simp [wgx_pc_simps, registered, doneCalls, List.count_append] at *
    all_goals first | omega | assumption | exact ⟨o, ho, hO⟩ | simp_all

theorem wgx_inv_doSomethingElse (s s' : State) (h : Inv s)
    (hs : doSomethingElse s = .next s') : Inv s' := by
  have hmo := wgx_mainOutput_nil s.mainPc
  obtain ⟨hC, hA, hD, hSD, hED, hMD, hSS, hES, hW, o, ho, hO⟩ := h
  rcases wgx_doSomethingElse_next s s' hs with
    ⟨hpc, rfl⟩ | ⟨hpc, rfl⟩ | ⟨hpc, rfl⟩ | ⟨hpc, hl, rfl⟩
  all_goals clear hs
  all_goals rw [hpc] at hD hED hES hW ho
  · refine ⟨?_, ?_, ?_, ?_, ?_, ?_, ?_, ?_, ?_, ?_⟩ <;>
      simp only [] <;> first | assumption | skip
    all_goals simp [wgx_pc_simps] at *
    all_goals first | omega | assumption | exact ⟨o, ho, hO⟩
  · refine ⟨?_, ?_, ?_, ?_, ?_, ?_, ?_, ?_, ?_, ?_⟩ <;>
      simp only [] <;> first | assumption | skip
    all_goals simp [wgx_pc_simps] at *
    all_goals first | omega | assumption | exact ⟨o, ho, hO⟩
  · have hpw : pastWait s.mainPc = false := by
      cases hp : pastWait s.mainPc
      · rfl
      · have := (hW hp).2
        cases this
    have hnil := hmo hpw
    refine ⟨?_, ?_, ?_, ?_, ?_, ?_, ?_, ?_, ?_, ?_⟩ <;>
      simp only [] <;> first | assumption | skip
    all_goals try simp only [wgx_pc_simps] at *
    · intro hp
      rw [hpw] at hp
      cases hp
    · rw [hnil] at hO ⊢
      cases hb : s.somethingPc.printed <;> rw [hb] at ho <;>
        simp [taskOutputs] at ho ⊢ <;> simp [hO, ho]
  · refine ⟨?_, ?_, ?_, ?_, ?_, ?_, ?_, ?_, ?_, ?_⟩ <;>
      simp only [] <;> first | assumption | skip
    all_goals simp [wgx_pc_simps, registered, doneCalls, List.count_append] at *
    all_goals first | omega | assumption | exact ⟨o, ho, hO⟩ | simp_all

theorem wgx_inv_main (s s' : State) (h : Inv s) (hs : main s = .next s') : Inv s' := by
  have hs1 := wgx_doneCount_range s.somethingPc
  have hp1 := wgx_doneCount_range s.somethingElsePc
  have hs2 := wgx_doneCount_eq_one s.somethingPc
  have hp2 := wgx_doneCount_eq_one s.somethingElsePc
  have hs3 := wgx_not_started s.somethingPc
  have hp3 := wgx_not_started s.somethingElsePc
  obtain ⟨hC, hA, hD, hSD, hED, hMD, hSS, hES, hW, o, ho, hO⟩ := h
  rcases wgx_main_next s s' hs with ⟨hpc, rfl⟩ | ⟨hpc, rfl⟩ | ⟨hpc, hl, rfl⟩ | ⟨hpc, rfl⟩ |
    ⟨hpc, hl, rfl⟩ | ⟨hpc, rfl⟩ | ⟨hpc, hl, rfl⟩ | ⟨hpc, rfl⟩ | ⟨hpc, rfl⟩
  all_goals clear hs
  all_goals rw [hpc] at hA hSS hES hW hO
  all_goals
    simp only [addedBy, launchedSomething, launchedSomethingElse, pastWait, mainOutput]
      at hA hSS hES hW hO
  · refine ⟨?_, ?_, ?_, ?_, ?_, ?_, ?_, ?_, ?_, ⟨o, ?_, ?_⟩⟩ <;>
      simp only [] <;> assumption
  · have e1 := hs3 hSS.symm
    have e2 := hp3 hES.symm
    have hDb := hD
    rw [e1, e2] at hDb
    refine ⟨?_, ?_, ?_, ?_, ?_, ?_, ?_, ?_, ?_, ⟨o, ?_, ?_⟩⟩ <;>
      simp only [] <;> first | assumption | skip
    all_goals
      simp [wgx_pc_simps, addedBy, launchedSomething, launchedSomethingElse, pastWait,
        mainOutput] at *
    all_goals omega
  · refine ⟨?_, ?_, ?_, ?_, ?_, ?_, ?_, ?_, ?_, ⟨o, ?_, ?_⟩⟩ <;>
      simp only [] <;> first | assumption | skip
    all_goals
      simp [registered, doneCalls, addedBy, launchedSomething, launchedSomethingElse, pastWait,
        mainOutput, List.count_append] at *
    all_goals omega
  · have e1 := hs3 hSS.symm
    rw [e1] at hD hSD ho
    refine ⟨?_, ?_, ?_, ?_, ?_, ?_, ?_, ?_, ?_, ⟨o, ?_, ?_⟩⟩ <;>
      simp only [] <;> first | assumption | skip
    all_goals
      simp [wgx_pc_simps, addedBy, launchedSomething, launchedSomethingElse, pastWait,
        mainOutput] at *
  · refine ⟨?_, ?_, ?_, ?_, ?_, ?_, ?_, ?_, ?_, ⟨o, ?_, ?_⟩⟩ <;>
      simp only [] <;> first | assumption | skip
    all_goals
      simp [registered, doneCalls, addedBy, launchedSomething, launchedSomethingElse, pastWait,
        mainOutput, List.count_append] at *
    all_goals omega
  · have e2 := hp3 hES.symm
    rw [e2] at hD hED ho
    refine ⟨?_, ?_, ?_, ?_, ?_, ?_, ?_, ?_, ?_, ⟨o, ?_, ?_⟩⟩ <;>
      simp only [] <;> first | assumption | skip
    all_goals
      simp [wgx_pc_simps, addedBy, launchedSomething, launchedSomethingElse, pastWait,
        mainOutput] at *
  · have e1 := hs2 (by omega)
    have e2 := hp2 (by omega)
    refine ⟨?_, ?_, ?_, ?_, ?_, ?_, ?_, ?_, ?_, ⟨o, ?_, ?_⟩⟩ <;>
      simp only [] <;> first | assumption | skip
    all_goals
      simp [addedBy, launchedSomething, launchedSomethingElse, pastWait, mainOutput] at *
    all_goals first | omega | assumption | exact ⟨e1, e2⟩
  · refine ⟨?_, ?_, ?_, ?_, ?_, ?_, ?_, ?_, ?_, ⟨o, ?_, ?_⟩⟩ <;>
      simp only [] <;> first | assumption | skip
    all_goals
      simp [addedBy, launchedSomething, launchedSomethingElse, pastWait, mainOutput] at *
    all_goals first | omega | assumption
  · refine ⟨?_, ?_, ?_, ?_, ?_, ?_, ?_, ?_, ?_, ⟨o, ?_, ?_⟩⟩ <;>
      simp only [] <;> first | assumption | skip
    all_goals
      simp [addedBy, launchedSomething, launchedSomethingElse, pastWait, mainOutput] at *
    all_goals first | omega | assumption | simp [hO]

theorem wgx_inv_step (t : Thread) (s s' : State) (h : Inv s) (hs : step t s = .next s') :
    Inv s' := by
  unfold step at hs
  split at hs
  · cases hs
  · cases t
    · exact wgx_inv_main s s' h hs
    · exact wgx_inv_doSomething s s' h hs
    · exact wgx_inv_doSomethingElse s s' h hs

theorem wgx_inv_run (sched : List Thread) (s s' : State) (h : Inv s)
    (hr : run sched s = some s') : Inv s' :=
  runWith_invariant step Inv wgx_inv_step sched s s' h hr

/-- Every state reached from the initial state satisfies the invariant. -/
theorem wgx_inv_reachable (sched : List Thread) (s : State)
    (hr : run sched init = some s) : Inv s :=
  wgx_inv_run sched init s wgx_inv_init hr

theorem wgx_added_ge_launched (m : MainPc) :
    (if launchedSomething m = true then 1 else 0)
      + (if launchedSomethingElse m = true then 1 else 0) ≤ addedBy m := by
  cases m <;> simp [launchedSomething, launchedSomethingElse, addedBy]

theorem wgx_added_range (m : MainPc) : 0 ≤ addedBy m ∧ addedBy m ≤ 2 := by
  cases m <;> simp [addedBy]

theorem wgx_added_of_wait (m : MainPc) (h : (m == .wgWait) = true ∨ pastWait m = true) :
    addedBy m = 2 := by
  cases m <;> simp [pastWait, addedBy] at h ⊢

theorem wgx_doneCount_le_started (pc : WorkerPc) :
    pc.doneCount ≤ (if pc.started = true then 1 else 0) := by
  cases pc <;> simp [wgx_pc_simps]

theorem wgx_dones_le_added (s : State) (h : Inv s) :
    s.somethingPc.doneCount + s.somethingElsePc.doneCount ≤ addedBy s.mainPc := by
  have hs2 := wgx_doneCount_le_started s.somethingPc
  have hp2 := wgx_doneCount_le_started s.somethingElsePc
  have hl := wgx_added_ge_launched s.mainPc
  rw [h.somethingStarted, h.somethingElseStarted] at hl
  omega

/-- The barrier accounting holds in every state satisfying the invariant. -/
theorem wgx_barrier (s : State) (h : Inv s) :
    BarrierAccounting s.wg s.trace (s.mainPc == .wgWait) (pastWait s.mainPc)
      Thread.doSomething Thread.doSomethingElse := by
  have hs1 := wgx_doneCount_range s.somethingPc
  have hp1 := wgx_doneCount_range s.somethingElsePc
  have ha := wgx_added_range s.mainPc
  have hw := wgx_added_of_wait s.mainPc
  have hle := wgx_dones_le_added s h
  obtain ⟨hC, hA, hD, hSD, hED, hMD, hSS, hES, hW, hO⟩ := h
  refine ⟨by omega, hC, by omega, by omega, ?_, by omega, by omega, by omega, ?_, ?_⟩
  · intro h; rw [hA]; exact hw h
  · intro h
    have := hw (Or.inl h)
    constructor
    · intro h0; omega
    · intro h0; omega
  · intro h
    have := hw (Or.inr h)
    obtain ⟨e1, e2⟩ := hW h
    rw [e1, e2] at hD
    simp only [wgx_pc_simps] at hD
    omega

theorem wgx_main_no_panic (s : State) (h : Inv s) : main s ≠ .panic := by
  obtain ⟨hnn, _⟩ := wgx_barrier s h
  intro hpanic
  unfold main at hpanic
  split at hpanic
  · cases hpanic
  · cases hpanic
  · split at hpanic
    · rename_i heq
      simp [WaitGroup.Add] at heq
      omega
    · cases hpanic
  · cases hpanic
  · split at hpanic
    · rename_i heq
      simp [WaitGroup.Add] at heq
      omega
    · cases hpanic
  · cases hpanic
  · split at hpanic <;> cases hpanic
  · cases hpanic
  · cases hpanic
  · cases hpanic

theorem wgx_doSomething_no_panic (s : State) (h : Inv s) : doSomething s ≠ .panic := by
  have hp1 := wgx_doneCount_range s.somethingElsePc
  have hp2 := wgx_doneCount_le_started s.somethingElsePc
  have hl := wgx_added_ge_launched s.mainPc
  obtain ⟨hC, hA, hD, hSD, hED, hMD, hSS, hES, hW, hO⟩ := h
  rw [hSS, hES] at hl
  intro hpanic
  unfold doSomething at hpanic
  split at hpanic
  · cases hpanic
  · cases hpanic
  · cases hpanic
  · cases hpanic
  · rename_i hpc
    rw [hpc] at hD hl
    simp only [wgx_pc_simps] at hD hl
    split at hpanic
    · rename_i heq
      simp [WaitGroup.Done, WaitGroup.Add] at heq
      simp at hl
      omega
    · cases hpanic
  · cases hpanic

theorem wgx_doSomethingElse_no_panic (s : State) (h : Inv s) : doSomethingElse s ≠ .panic := by
  have hp1 := wgx_doneCount_range s.somethingPc
  have hp2 := wgx_doneCount_le_started s.somethingPc
  have hl := wgx_added_ge_launched s.mainPc
  obtain ⟨hC, hA, hD, hSD, hED, hMD, hSS, hES, hW, hO⟩ := h
  rw [hSS, hES] at hl
  intro hpanic
  unfold doSomethingElse at hpanic
  split at hpanic
  · cases hpanic
  · cases hpanic
  · cases hpanic
  · cases hpanic
  · rename_i hpc
    rw [hpc] at hD hl
    simp only [wgx_pc_simps] at hD hl
    split at hpanic
    · rename_i heq
      simp [WaitGroup.Done, WaitGroup.Add] at heq
      simp at hl
      omega
    · cases hpanic
  · cases hpanic

/-- No step of the WaitGroup program panics. -/
theorem wgx_no_panic (s : State) (h : Inv s) (t : Thread) : step t s ≠ .panic := by
  intro hpanic
  unfold step at hpanic
  split at hpanic
  · cases hpanic
  · cases t
    · exact wgx_main_no_panic s h hpanic
    · exact wgx_doSomething_no_panic s h hpanic
    · exact wgx_doSomethingElse_no_panic s h hpanic

theorem wgx_fuel_simps :
    (WorkerPc.notStarted.fuel = 4) ∧ (WorkerPc.deferDone.fuel = 4) ∧ (WorkerPc.sleep.fuel = 3) ∧
    (WorkerPc.println.fuel = 2) ∧ (WorkerPc.deferred.fuel = 1) ∧ (WorkerPc.returned.fuel = 0) := by
  refine ⟨?_, ?_, ?_, ?_, ?_, ?_⟩ <;> rfl

/-- Every step uses up one unit of fuel. -/
theorem wgx_fuel_step (t : Thread) (s s' : State) (h : Inv s) (hs : step t s = .next s') :
    fuel s' + 1 = fuel s := by
  have hs3 := wgx_not_started s.somethingPc
  have hp3 := wgx_not_started s.somethingElsePc
  obtain ⟨hC, hA, hD, hSD, hED, hMD, hSS, hES, hW, hO⟩ := h
  unfold step at hs
  split at hs
  · cases hs
  · cases t
    · rcases wgx_main_next s s' hs with ⟨hpc, rfl⟩ | ⟨hpc, rfl⟩ | ⟨hpc, hl, rfl⟩ | ⟨hpc, rfl⟩ |
        ⟨hpc, hl, rfl⟩ | ⟨hpc, rfl⟩ | ⟨hpc, hl, rfl⟩ | ⟨hpc, rfl⟩ | ⟨hpc, rfl⟩
      all_goals rw [hpc] at hSS hES
      all_goals simp only [launchedSomething, launchedSomethingElse] at hSS hES
      all_goals
        first
        | (have e1 := hs3 hSS.symm
           simp only [fuel, hpc, mainFuel, e1, wgx_fuel_simps]
           omega)
        | (have e2 := hp3 hES.symm
           simp only [fuel, hpc, mainFuel, e2, wgx_fuel_simps]
           omega)
        | (simp only [fuel, hpc, mainFuel]
           omega)
    · rcases wgx_doSomething_next s s' hs with
        ⟨hpc, rfl⟩ | ⟨hpc, rfl⟩ | ⟨hpc, rfl⟩ | ⟨hpc, hl, rfl⟩
      all_goals simp only [fuel, hpc, wgx_fuel_simps]
      all_goals omega
    · rcases wgx_doSomethingElse_next s s' hs with
        ⟨hpc, rfl⟩ | ⟨hpc, rfl⟩ | ⟨hpc, rfl⟩ | ⟨hpc, hl, rfl⟩
      all_goals simp only [fuel, hpc, wgx_fuel_simps]

/-- A schedule that runs from the initial state has used exactly as much fuel as
it has steps: no execution has more than 17 steps. -/
theorem wgx_run_length (sched : List Thread) (s : State) (hr : run sched init = some s) :
    sched.length + fuel s = 17 :=
  runWith_measure step Inv fuel wgx_inv_step wgx_fuel_step sched init s wgx_inv_init hr

/-- In a state where `main` has not returned some thread can take a step. -/
theorem wgx_progress (s : State) (h : Inv s) (hm : s.mainPc ≠ .exited) :
    ∃ t s', step t s = .next s' := by
  have hb := wgx_barrier s h
  have hs1 := wgx_doneCount_range s.somethingPc
  have hp1 := wgx_doneCount_range s.somethingElsePc
  have hnp := wgx_no_panic s h
  obtain ⟨hC, hA, hD, hSD, hED, hMD, hSS, hES, hW, hO⟩ := h
  obtain ⟨hnn, _⟩ := hb
  suffices hex : ∃ t, step t s ≠ .blocked by
    obtain ⟨t, ht⟩ := hex
    exact ⟨t, Outcome.exists_next _ ht (hnp t)⟩
  by_cases hw : s.mainPc = .wgWait
  · rw [hw] at hA hSS hES
    simp only [addedBy, launchedSomething, launchedSomethingElse] at hA hSS hES
    cases hsp : s.somethingPc with
    | notStarted => rw [hsp] at hSS; simp [wgx_pc_simps] at hSS
    | deferDone => exact ⟨.doSomething, by simp [step, hm, doSomething, hsp]⟩
    | sleep => exact ⟨.doSomething, by simp [step, hm, doSomething, hsp]⟩
    | println => exact ⟨.doSomething, by simp [step, hm, doSomething, hsp]⟩
    | deferred =>
      refine ⟨.doSomething, ?_⟩
      rw [hsp] at hD
      simp only [wgx_pc_simps] at hD
      have hc : ¬ s.wg.counter + -1 < 0 := by omega
      simp [step, hm, doSomething, hsp, WaitGroup.Done, WaitGroup.Add, hc]
    | returned =>
      cases hpp : s.somethingElsePc with
      | notStarted => rw [hpp] at hES; simp [wgx_pc_simps] at hES
      | deferDone => exact ⟨.doSomethingElse, by simp [step, hm, doSomethingElse, hpp]⟩
      | sleep => exact ⟨.doSomethingElse, by simp [step, hm, doSomethingElse, hpp]⟩
      | println => exact ⟨.doSomethingElse, by simp [step, hm, doSomethingElse, hpp]⟩
      | deferred =>
        refine ⟨.doSomethingElse, ?_⟩
        rw [hsp, hpp] at hD
        simp only [wgx_pc_simps] at hD
        have hc : ¬ s.wg.counter + -1 < 0 := by omega
        simp [step, hm, doSomethingElse, hpp, WaitGroup.Done, WaitGroup.Add, hc]
      | returned =>
        refine ⟨.main, ?_⟩
        rw [hsp, hpp] at hD
        simp only [wgx_pc_simps] at hD
        have hc : s.wg.counter = 0 := by omega
        simp [step, hm, main, hw, WaitGroup.Wait, hc]
  · refine ⟨.main, ?_⟩
    have hc : ¬ s.wg.counter + 1 < 0 := by omega
    cases hmp : s.mainPc <;> simp [step, main, hmp, WaitGroup.Add, hc] <;> simp_all

/-- Every reachable state of the WaitGroup program can be run to the end of
`main`. -/
theorem wgx_completes (s : State) (h : Inv s) :
    ∃ sched s', run sched s = some s' ∧ s'.mainPc = .exited :=
  runWith_completes step Inv fuel (fun s => s.mainPc = .exited) wgx_inv_step wgx_fuel_step
    wgx_progress (fuel s) s rfl h

end Waitgroups

/-! ## Serialized steps -/

/-- Without wraparound the serialized steps add up: the result is the start
value plus 100 per purchase minus 100 per sale. -/
theorem mutex_serial_eq (l : List Thread) (w : Int)
    (hlo : -2147483648 ≤ w - 100 * (l.count .makeSales : Int))
    (hhi : w + 100 * (l.count .newPurchases : Int) ≤ 2147483647) :
    RaceMutex.serial l w
      = w + 100 * (l.count .newPurchases : Int) - 100 * (l.count .makeSales : Int) := by
  induction l generalizing w with
  | nil => simp [RaceMutex.serial]
  | cons t ts ih =>
    have hc : RaceMutex.serial (t :: ts) w = RaceMutex.serial ts (RaceMutex.serialStep w t) := rfl
    rw [hc]
    cases t
    · simp only [RaceMutex.serialStep] at *
      simp [List.count_cons] at *
      exact ih w hlo hhi
    · simp [List.count_cons] at *
      have e : RaceMutex.serialStep w .makeSales = w - 100 := by
        simp only [RaceMutex.serialStep, wrapInt32]
        omega
      rw [e, ih (w - 100) (by omega) (by omega)]
      omega
    · simp [List.count_cons] at *
      have e : RaceMutex.serialStep w .newPurchases = w + 100 := by
        simp only [RaceMutex.serialStep, wrapInt32]
        omega
      rw [e, ih (w + 100) (by omega) (by omega)]
      omega

/-- An atomic add of `-100` / `100` is the same update as the lock-protected
`-= 100` / `+= 100`. -/
theorem atomic_serialStep_eq (w : Int) (t : Thread) :
    RaceAtomic.serialStep w t = RaceMutex.serialStep w t := by
  cases t <;> simp [RaceAtomic.serialStep, RaceMutex.serialStep, atomicAddInt32, Int.sub_eq_add_neg]

theorem atomic_serial_eq_mutex (l : List Thread) (w : Int) :
    RaceAtomic.serial l w = RaceMutex.serial l w := by
  induction l generalizing w with
  | nil => rfl
  | cons t ts ih =>
    have h1 : RaceAtomic.serial (t :: ts) w = RaceAtomic.serial ts (RaceAtomic.serialStep w t) :=
      rfl
    have h2 : RaceMutex.serial (t :: ts) w = RaceMutex.serial ts (RaceMutex.serialStep w t) := rfl
    rw [h1, h2, atomic_serialStep_eq, ih]

theorem count_take_le (l : List Thread) (n : Nat) (t : Thread) :
    (l.take n).count t ≤ l.count t :=
  List.Sublist.count_le (List.take_sublist n l) t

/-- The sequential order (all sales, then all purchases) is an interleaving. -/
theorem salesThenPurchases_isInterleaving :
    IsInterleaving (List.replicate 300000 .makeSales ++ List.replicate 300000 .newPurchases) := by
  refine ⟨?_, ?_, ?_⟩ <;> rw [List.count_append, List.count_replicate, List.count_replicate] <;>
    rfl

/-! ## Complete executions and `wg.Wait` -/

theorem wgx_wait_returns_iff (s : Waitgroups.State) (hm : s.mainPc = .wgWait) :
    (∃ s', Waitgroups.step .main s = .next s') ↔ s.wg.counter = 0 := by
  by_cases hc : s.wg.counter = 0 <;>
    simp [Waitgroups.step, Waitgroups.main, hm, WaitGroup.Wait, hc]

theorem unsync_wait_returns_iff (s : RaceProblem.State) (hm : s.mainPc = .wgWait) :
    (∃ s', RaceProblem.step .main s = .next s') ↔ s.wg.counter = 0 := by
  by_cases hc : s.wg.counter = 0 <;>
    simp [RaceProblem.step, RaceProblem.main, hm, WaitGroup.Wait, hc]

theorem mutex_wait_returns_iff (s : RaceMutex.State) (hm : s.mainPc = .wgWait) :
    (∃ s', RaceMutex.step .main s = .next s') ↔ s.wg.counter = 0 := by
  by_cases hc : s.wg.counter = 0 <;>
    simp [RaceMutex.step, RaceMutex.main, hm, WaitGroup.Wait, hc]

theorem atomic_wait_returns_iff (s : RaceAtomic.State) (hm : s.mainPc = .wgWait) :
    (∃ s', RaceAtomic.step .main s = .next s') ↔ s.wg.counter = 0 := by
  by_cases hc : s.wg.counter = 0 <;>
    simp [RaceAtomic.step, RaceAtomic.main, hm, WaitGroup.Wait, hc]

/-- The schedule in which `doSomething` prints first runs the WaitGroup program
to its end. -/
theorem wgx_run_somethingFirst :
    ∃ s, Waitgroups.run Waitgroups.somethingFirst Waitgroups.init = some s ∧
      s.mainPc = .exited ∧
      s.stdout = [.iveDoneSomething, .iveDoneSomethingElse, .iGuessImDone, .processesTook] :=
  ⟨_, rfl, rfl, rfl⟩

/-- The schedule in which `doSomethingElse` prints first runs the WaitGroup
program to its end. -/
theorem wgx_run_somethingElseFirst :
    ∃ s, Waitgroups.run Waitgroups.somethingElseFirst Waitgroups.init = some s ∧
      s.mainPc = .exited ∧
      s.stdout = [.iveDoneSomethingElse, .iveDoneSomething, .iGuessImDone, .processesTook] :=
  ⟨_, rfl, rfl, rfl⟩

/-! ## Claims -/

/-- C1. Mutex variant: every interleaving of the 300000 lock-protected sales and
the 300000 lock-protected purchases, applied to the int32 counter starting at
1000, ends at 1000; and in every execution of the program in which `wg.Wait` has
returned, the updates performed form such an interleaving, the counter is its
result, the counter is 1000, and `main` prints 1000 as the ending inventory. -/
theorem mutex_final_value_is_start (l : List Thread) (hl : IsInterleaving l)
    (sched : List Thread) (s : RaceMutex.State)
    (hr : RaceMutex.run sched RaceMutex.init = some s) (hw : pastWait s.mainPc = true) :
    RaceMutex.serial l 1000 = 1000 ∧
    IsInterleaving (writers s.trace) ∧
    s.widgetInventory = RaceMutex.serial (writers s.trace) 1000 ∧
    s.widgetInventory = 1000 ∧
    (s.mainPc = .exited → s.stdout = [.starting 1000, .ending 1000]) := by
  have hI := RaceMutex.mutex_inv_reachable sched s hr
  obtain ⟨hs, hp⟩ := hI.waited hw
  refine ⟨?_, ⟨?_, ?_, hI.mainWrites⟩, hI.serialized, ?_, ?_⟩
  · obtain ⟨h1, h2, _⟩ := hl
    rw [mutex_serial_eq l 1000 (by omega) (by omega)]
    omega
  · rw [hI.salesWrites, hs]; rfl
  · rw [hI.purchasesWrites, hp]; rfl
  · rw [hI.value, hs, hp]
    simp [RaceMutex.mutex_pc_simps]
  · intro hx
    rw [hI.printed, hx]
    rfl

/-- C1, witness: the sequential schedule runs the mutex program to its end. -/
theorem mutex_final_value_is_start_witness :
    ∃ s, RaceMutex.run RaceMutex.sequential RaceMutex.init = some s ∧ s.mainPc = .exited ∧
      s.widgetInventory = 1000 ∧ s.stdout = [.starting 1000, .ending 1000] ∧
      RaceMutex.serial
        (List.replicate 300000 .makeSales ++ List.replicate 300000 .newPurchases) 1000 = 1000 := by
  obtain ⟨s, hs, hm⟩ := RaceMutex.mutex_run_sequential
  have h := mutex_final_value_is_start _ salesThenPurchases_isInterleaving
    RaceMutex.sequential s hs (by rw [hm]; rfl)
  exact ⟨s, hs, hm, h.2.2.2.1, h.2.2.2.2 hm, h.1⟩

/-- C2. Atomic variant: under every interleaving of the 300000 atomic adds of
-100 with the 300000 atomic adds of 100 the final counter equals the final
counter of the mutex variant under the same interleaving (the two agree on every
order of steps and every start value `w`), and both equal the start value 1000;
and in every execution of the atomic program in which `wg.Wait` has returned, the
updates performed form such an interleaving, the counter is its result, which is
also the mutex variant's result for that interleaving, and `main` prints 1000. -/
theorem atomic_same_as_mutex (l : List Thread) (hl : IsInterleaving l) (w : Int)
    (sched : List Thread) (s : RaceAtomic.State)
    (hr : RaceAtomic.run sched RaceAtomic.init = some s) (hw : pastWait s.mainPc = true) :
    RaceAtomic.serial l w = RaceMutex.serial l w ∧
    RaceAtomic.serial l 1000 = 1000 ∧ RaceMutex.serial l 1000 = 1000 ∧
    IsInterleaving (writers s.trace) ∧
    s.widgetInventory = RaceAtomic.serial (writers s.trace) 1000 ∧
    s.widgetInventory = RaceMutex.serial (writers s.trace) 1000 ∧
    s.widgetInventory = 1000 ∧
    (s.mainPc = .exited → s.stdout = [.starting 1000, .ending 1000]) := by
  have hI := RaceAtomic.atomic_inv_reachable sched s hr
  obtain ⟨hs, hp⟩ := hI.waited hw
  have hm : RaceMutex.serial l 1000 = 1000 := by
    obtain ⟨h1, h2, _⟩ := hl
    rw [mutex_serial_eq l 1000 (by omega) (by omega)]
    omega
  refine ⟨atomic_serial_eq_mutex l w, ?_, hm, ⟨?_, ?_, hI.mainWrites⟩, hI.serialized, ?_, ?_, ?_⟩
  · rw [atomic_serial_eq_mutex, hm]
  · rw [hI.salesWrites, hs]; rfl
  · rw [hI.purchasesWrites, hp]; rfl
  · rw [← atomic_serial_eq_mutex]
    exact hI.serialized
  · rw [hI.value, hs, hp]
    simp [RaceAtomic.atomic_pc_simps]
  · intro hx
    rw [hI.printed, hx]
    rfl

/-- C2, witness: the sequential schedule runs the atomic program to its end. -/
theorem atomic_same_as_mutex_witness :
    ∃ s, RaceAtomic.run RaceAtomic.sequential RaceAtomic.init = some s ∧ s.mainPc = .exited ∧
      s.widgetInventory = 1000 ∧ s.stdout = [.starting 1000, .ending 1000] ∧
      RaceAtomic.serial
          (List.replicate 300000 .makeSales ++ List.replicate 300000 .newPurchases) 1000
        = RaceMutex.serial
          (List.replicate 300000 .makeSales ++ List.replicate 300000 .newPurchases) 1000 := by
  obtain ⟨s, hs, hm⟩ := RaceAtomic.atomic_run_sequential
  have h := atomic_same_as_mutex _ salesThenPurchases_isInterleaving 1000
    RaceAtomic.sequential s hs (by rw [hm]; rfl)
  exact ⟨s, hs, hm, h.2.2.2.2.2.2.1, h.2.2.2.2.2.2.2 hm, h.1⟩

/-- C10. No int32 wraparound in the mutex and atomic variants. For every
interleaving `l` and every initial segment `l.take n` of it, with `p` purchases
and `s` sales applied so far (each at most 300000), the counter is
`1000 + 100 * (p - s)` as a mathematical integer, lies in
`[-29999000, 30001000]`, and the next subtraction or addition of 100 does not
wrap. The same holds in every reachable state of the two programs, `p` and `s`
being the numbers of updates each task has performed. -/
theorem no_int32_wraparound (l : List Thread) (hl : IsInterleaving l) (n : Nat)
    (schedB : List Thread) (sb : RaceMutex.State)
    (hb : RaceMutex.run schedB RaceMutex.init = some sb)
    (schedC : List Thread) (sc : RaceAtomic.State)
    (hc : RaceAtomic.run schedC RaceAtomic.init = some sc) :
    ((l.take n).count .newPurchases ≤ 300000 ∧ (l.take n).count .makeSales ≤ 300000 ∧
      RaceMutex.serial (l.take n) 1000
        = 1000 + 100 * (((l.take n).count .newPurchases : Int) - (l.take n).count .makeSales) ∧
      RaceAtomic.serial (l.take n) 1000
        = 1000 + 100 * (((l.take n).count .newPurchases : Int) - (l.take n).count .makeSales) ∧
      -29999000 ≤ RaceMutex.serial (l.take n) 1000 ∧
      RaceMutex.serial (l.take n) 1000 ≤ 30001000 ∧
      RaceMutex.serialStep (RaceMutex.serial (l.take n) 1000) .makeSales
        = RaceMutex.serial (l.take n) 1000 - 100 ∧
      RaceMutex.serialStep (RaceMutex.serial (l.take n) 1000) .newPurchases
        = RaceMutex.serial (l.take n) 1000 + 100 ∧
      RaceAtomic.serialStep (RaceAtomic.serial (l.take n) 1000) .makeSales
        = RaceAtomic.serial (l.take n) 1000 - 100 ∧
      RaceAtomic.serialStep (RaceAtomic.serial (l.take n) 1000) .newPurchases
        = RaceAtomic.serial (l.take n) 1000 + 100) ∧
    ((writers sb.trace).count .newPurchases ≤ 300000 ∧
      (writers sb.trace).count .makeSales ≤ 300000 ∧
      sb.widgetInventory = 1000 + 100 * (((writers sb.trace).count .newPurchases : Int)
        - (writers sb.trace).count .makeSales) ∧
      -29999000 ≤ sb.widgetInventory ∧ sb.widgetInventory ≤ 30001000 ∧
      wrapInt32 (sb.widgetInventory - 100) = sb.widgetInventory - 100 ∧
      wrapInt32 (sb.widgetInventory + 100) = sb.widgetInventory + 100) ∧
    ((writers sc.trace).count .newPurchases ≤ 300000 ∧
      (writers sc.trace).count .makeSales ≤ 300000 ∧
      sc.widgetInventory = 1000 + 100 * (((writers sc.trace).count .newPurchases : Int)
        - (writers sc.trace).count .makeSales) ∧
      -29999000 ≤ sc.widgetInventory ∧ sc.widgetInventory ≤ 30001000 ∧
      atomicAddInt32 sc.widgetInventory (-100) = sc.widgetInventory - 100 ∧
      atomicAddInt32 sc.widgetInventory 100 = sc.widgetInventory + 100) := by
  obtain ⟨hls, hlp, _⟩ := hl
  have hp := count_take_le l n .newPurchases
  have hs := count_take_le l n .makeSales
  have hv := mutex_serial_eq (l.take n) 1000 (by omega) (by omega)
  have hIb := RaceMutex.mutex_inv_reachable schedB sb hb
  have hIc := RaceAtomic.atomic_inv_reachable schedC sc hc
  have hbs := RaceMutex.mutex_applied_le _ hIb.salesRange
  have hbp := RaceMutex.mutex_applied_le _ hIb.purchasesRange
  have hcs := RaceAtomic.atomic_applied_le _ hIc.salesRange
  have hcp := RaceAtomic.atomic_applied_le _ hIc.purchasesRange
  have hbv := hIb.value
  have hcv := hIc.value
  refine ⟨⟨by omega, by omega, by omega, ?_, by omega, by omega, ?_, ?_, ?_, ?_⟩,
    ⟨?_, ?_, ?_, by omega, by omega, ?_, ?_⟩, ⟨?_, ?_, ?_, by omega, by omega, ?_, ?_⟩⟩
  · rw [atomic_serial_eq_mutex]; omega
  · simp only [RaceMutex.serialStep, wrapInt32]; omega
  · simp only [RaceMutex.serialStep, wrapInt32]; omega
  · rw [atomic_serial_eq_mutex]
    simp only [RaceAtomic.serialStep, atomicAddInt32, wrapInt32]; omega
  · rw [atomic_serial_eq_mutex]
    simp only [RaceAtomic.serialStep, atomicAddInt32, wrapInt32]; omega
  · rw [hIb.purchasesWrites]; exact hbp
  · rw [hIb.salesWrites]; exact hbs
  · rw [hIb.purchasesWrites, hIb.salesWrites]; omega
  · simp only [wrapInt32]; omega
  · simp only [wrapInt32]; omega
  · rw [hIc.purchasesWrites]; exact hcp
  · rw [hIc.salesWrites]; exact hcs
  · rw [hIc.purchasesWrites, hIc.salesWrites]; omega
  · simp only [atomicAddInt32, wrapInt32]; omega
  · simp only [atomicAddInt32, wrapInt32]; omega

/-- C10, witness: the sequential order, cut after 300005 steps, and the states
at the end of the two programs' sequential schedules. -/
theorem no_int32_wraparound_witness :
    ∃ (sb : RaceMutex.State) (sc : RaceAtomic.State),
      RaceMutex.run RaceMutex.sequential RaceMutex.init = some sb ∧
      RaceAtomic.run RaceAtomic.sequential RaceAtomic.init = some sc ∧
      -29999000 ≤ sb.widgetInventory ∧ sb.widgetInventory ≤ 30001000 ∧
      -29999000 ≤ sc.widgetInventory ∧ sc.widgetInventory ≤ 30001000 ∧
      -29999000 ≤ RaceMutex.serial ((List.replicate 300000 Thread.makeSales ++
        List.replicate 300000 Thread.newPurchases).take 300005) 1000 := by
  obtain ⟨sb, hb, _⟩ := RaceMutex.mutex_run_sequential
  obtain ⟨sc, hc, _⟩ := RaceAtomic.atomic_run_sequential
  have h := no_int32_wraparound _ salesThenPurchases_isInterleaving 300005
    RaceMutex.sequential sb hb RaceAtomic.sequential sc hc
  exact ⟨sb, sc, hb, hc, h.2.1.2.2.2.1, h.2.1.2.2.2.2.1, h.2.2.2.2.2.1, h.2.2.2.2.2.2.1,
    h.1.2.2.2.2.1⟩

/-- C3. Unsynchronized variant, each `-= 100` / `+= 100` being a read of the
shared counter followed by a write: there is a schedule in which both tasks run
their whole loop and call `Done`, and `main` then prints an ending inventory
different from 1000 (here 1100: the two tasks read 1000 before either writes),
while the schedule that runs the two tasks one after the other prints 1000. -/
theorem unsync_final_value_not_guaranteed :
    (∃ s v, RaceProblem.run RaceProblem.lostUpdate RaceProblem.init = some s ∧
      s.mainPc = .exited ∧ s.salesPc = .returned ∧ s.purchasesPc = .returned ∧
      s.stdout = [.starting 1000, .ending v] ∧ v ≠ 1000) ∧
    (∃ s, RaceProblem.run RaceProblem.sequential RaceProblem.init = some s ∧
      s.mainPc = .exited ∧ s.salesPc = .returned ∧ s.purchasesPc = .returned ∧
      s.stdout = [.starting 1000, .ending 1000]) := by
  refine ⟨?_, RaceProblem.unsync_run_sequential⟩
  obtain ⟨s, hs, hm, h1, h2, ho⟩ := RaceProblem.unsync_run_lostUpdate
  exact ⟨s, 1100, hs, hm, h1, h2, ho, by decide⟩

/-- C4. Barrier accounting in the four example programs (Waitgroups with
`Add(1)` twice, the three race-condition programs with `Add(2)`). In every
reachable state: the WaitGroup counter is the total registered minus the number
of `Done` calls and is non-negative, `Done` has been called at most as often as
has been registered, each task has called `Done` at most once, and no step
panics; when `main` stands at `wg.Wait` the total registered is 2, the counter is
zero exactly when both tasks have called `Done`, and `Wait` can return exactly
then; once `Wait` has returned the counter is zero and 2 = 2 `Done` calls have
been made. `Wait` does not block forever: as long as `main` has not returned
some thread can take a step, no execution is longer than 17, 12008, 1800008,
600008 steps respectively, and every reachable state can be run on to the end of
`main`. -/
theorem barrier_accounting
    (schedW : List Waitgroups.Thread) (sw : Waitgroups.State)
    (hw : Waitgroups.run schedW Waitgroups.init = some sw)
    (schedA : List Thread) (sa : RaceProblem.State)
    (ha : RaceProblem.run schedA RaceProblem.init = some sa)
    (schedB : List Thread) (sb : RaceMutex.State)
    (hb : RaceMutex.run schedB RaceMutex.init = some sb)
    (schedC : List Thread) (sc : RaceAtomic.State)
    (hc : RaceAtomic.run schedC RaceAtomic.init = some sc) :
    (BarrierAccounting sw.wg sw.trace (sw.mainPc == .wgWait) (Waitgroups.pastWait sw.mainPc)
        Waitgroups.Thread.doSomething Waitgroups.Thread.doSomethingElse ∧
      WaitLiveness Waitgroups.step sw sw.trace (sw.mainPc == .wgWait) (sw.mainPc == .exited)
        Waitgroups.Thread.main Waitgroups.Thread.doSomething Waitgroups.Thread.doSomethingElse ∧
      schedW.length ≤ 17 ∧
      ∃ rest s', Waitgroups.run rest sw = some s' ∧ s'.mainPc = .exited) ∧
    (BarrierAccounting sa.wg sa.trace (sa.mainPc == .wgWait) (pastWait sa.mainPc)
        Thread.makeSales Thread.newPurchases ∧
      WaitLiveness RaceProblem.step sa sa.trace (sa.mainPc == .wgWait) (sa.mainPc == .exited)
        Thread.main Thread.makeSales Thread.newPurchases ∧
      schedA.length ≤ 12008 ∧
      ∃ rest s', RaceProblem.run rest sa = some s' ∧ s'.mainPc = .exited) ∧
    (BarrierAccounting sb.wg sb.trace (sb.mainPc == .wgWait) (pastWait sb.mainPc)
        Thread.makeSales Thread.newPurchases ∧
      WaitLiveness RaceMutex.step sb sb.trace (sb.mainPc == .wgWait) (sb.mainPc == .exited)
        Thread.main Thread.makeSales Thread.newPurchases ∧
      schedB.length ≤ 1800008 ∧
      ∃ rest s', RaceMutex.run rest sb = some s' ∧ s'.mainPc = .exited) ∧
    (BarrierAccounting sc.wg sc.trace (sc.mainPc == .wgWait) (pastWait sc.mainPc)
        Thread.makeSales Thread.newPurchases ∧
      WaitLiveness RaceAtomic.step sc sc.trace (sc.mainPc == .wgWait) (sc.mainPc == .exited)
        Thread.main Thread.makeSales Thread.newPurchases ∧
      schedC.length ≤ 600008 ∧
      ∃ rest s', RaceAtomic.run rest sc = some s' ∧ s'.mainPc = .exited) := by
  have hIw := Waitgroups.wgx_inv_reachable schedW sw hw
  have hIa := RaceProblem.unsync_inv_reachable schedA sa ha
  have hIb := RaceMutex.mutex_inv_reachable schedB sb hb
  have hIc := RaceAtomic.atomic_inv_reachable schedC sc hc
  have hBw := Waitgroups.wgx_barrier sw hIw
  have hBa := RaceProblem.unsync_barrier sa hIa
  have hBb := RaceMutex.mutex_barrier sb hIb
  have hBc := RaceAtomic.atomic_barrier sc hIc
  have hLw := Waitgroups.wgx_run_length schedW sw hw
  have hLa := RaceProblem.unsync_run_length schedA sa ha
  have hLb := RaceMutex.mutex_run_length schedB sb hb
  have hLc := RaceAtomic.atomic_run_length schedC sc hc
  refine ⟨⟨hBw, ⟨Waitgroups.wgx_no_panic sw hIw, ?_, ?_⟩, by omega,
      Waitgroups.wgx_completes sw hIw⟩,
    ⟨hBa, ⟨RaceProblem.unsync_no_panic sa hIa, ?_, ?_⟩, by omega,
      RaceProblem.unsync_completes sa hIa⟩,
    ⟨hBb, ⟨RaceMutex.mutex_no_panic sb hIb, ?_, ?_⟩, by omega,
      RaceMutex.mutex_completes sb hIb⟩,
    ⟨hBc, ⟨RaceAtomic.atomic_no_panic sc hIc, ?_, ?_⟩, by omega,
      RaceAtomic.atomic_completes sc hIc⟩⟩
  · intro h
    rw [wgx_wait_returns_iff sw (by simpa using h)]
    exact hBw.2.2.2.2.2.2.2.2.1 h
  · intro h
    exact Waitgroups.wgx_progress sw hIw (by simpa using h)
  · intro h
    rw [unsync_wait_returns_iff sa (by simpa using h)]
    exact hBa.2.2.2.2.2.2.2.2.1 h
  · intro h
    exact RaceProblem.unsync_progress sa hIa (by simpa using h)
  · intro h
    rw [mutex_wait_returns_iff sb (by simpa using h)]
    exact hBb.2.2.2.2.2.2.2.2.1 h
  · intro h
    exact RaceMutex.mutex_progress sb hIb (by simpa using h)
  · intro h
    rw [atomic_wait_returns_iff sc (by simpa using h)]
    exact hBc.2.2.2.2.2.2.2.2.1 h
  · intro h
    exact RaceAtomic.atomic_progress sc hIc (by simpa using h)

/-- C4, witness: the four programs run to their end under the schedules that
run one task after the other; at the end the counter is zero. -/
theorem barrier_accounting_witness :
    ∃ (sw : Waitgroups.State) (sa : RaceProblem.State) (sb : RaceMutex.State)
      (sc : RaceAtomic.State),
      Waitgroups.run Waitgroups.somethingFirst Waitgroups.init = some sw ∧
      RaceProblem.run RaceProblem.sequential RaceProblem.init = some sa ∧
      RaceMutex.run RaceMutex.sequential RaceMutex.init = some sb ∧
      RaceAtomic.run RaceAtomic.sequential RaceAtomic.init = some sc ∧
      sw.mainPc = .exited ∧ sa.mainPc = .exited ∧ sb.mainPc = .exited ∧ sc.mainPc = .exited ∧
      sw.wg.counter = 0 ∧ sa.wg.counter = 0 ∧ sb.wg.counter = 0 ∧ sc.wg.counter = 0 := by
  obtain ⟨sw, hw, hmw, _⟩ := wgx_run_somethingFirst
  obtain ⟨sa, ha, hma, _⟩ := RaceProblem.unsync_run_sequential
  obtain ⟨sb, hb, hmb⟩ := RaceMutex.mutex_run_sequential
  obtain ⟨sc, hc, hmc⟩ := RaceAtomic.atomic_run_sequential
  have h := barrier_accounting _ sw hw _ sa ha _ sb hb _ sc hc
  refine ⟨sw, sa, sb, sc, hw, ha, hb, hc, hmw, hma, hmb, hmc, ?_, ?_, ?_, ?_⟩
  · exact (h.1.1.2.2.2.2.2.2.2.2.2 (by rw [hmw]; rfl)).1
  · exact (h.2.1.1.2.2.2.2.2.2.2.2.2 (by rw [hma]; rfl)).1
  · exact (h.2.2.1.1.2.2.2.2.2.2.2.2.2 (by rw [hmb]; rfl)).1
  · exact (h.2.2.2.1.2.2.2.2.2.2.2.2.2 (by rw [hmc]; rfl)).1

theorem wgx_something_mem (o : List Waitgroups.Line) (b : Bool)
    (h : o ∈ Waitgroups.taskOutputs true b) : Waitgroups.Line.iveDoneSomething ∈ o := by
  cases b <;> simp [Waitgroups.taskOutputs] at h <;> rcases h with rfl | rfl <;> simp

theorem wgx_somethingElse_mem (o : List Waitgroups.Line) (a : Bool)
    (h : o ∈ Waitgroups.taskOutputs a true) : Waitgroups.Line.iveDoneSomethingElse ∈ o := by
  cases a <;> simp [Waitgroups.taskOutputs] at h <;> rcases h with rfl | rfl <;> simp

/-- C9. Every worker task calls `wg.Done` exactly once per execution and only
after its entire body has run. In every reachable state of each of the four
programs: each task has called `Done` at most once and `main` never; a task that
has called `Done` has run its whole body (doSomething / doSomethingElse: its
message is on stdout; makeSales / newPurchases: it has performed all the counter
updates of its loop, 3000 in the unsynchronized program and 300000 in the mutex
and atomic programs); and once `wg.Wait` has returned in `main` (so also when
`main` reads the ending inventory) both tasks have called `Done` exactly once
and all updates of both tasks have been applied. -/
theorem done_once_after_body
    (schedW : List Waitgroups.Thread) (sw : Waitgroups.State)
    (hw : Waitgroups.run schedW Waitgroups.init = some sw)
    (schedA : List Thread) (sa : RaceProblem.State)
    (ha : RaceProblem.run schedA RaceProblem.init = some sa)
    (schedB : List Thread) (sb : RaceMutex.State)
    (hb : RaceMutex.run schedB RaceMutex.init = some sb)
    (schedC : List Thread) (sc : RaceAtomic.State)
    (hc : RaceAtomic.run schedC RaceAtomic.init = some sc) :
    (sw.trace.count (.done .doSomething) ≤ 1 ∧ sw.trace.count (.done .doSomethingElse) ≤ 1 ∧
      sw.trace.count (.done .main) = 0 ∧
      (sw.trace.count (.done .doSomething) = 1 → .iveDoneSomething ∈ sw.stdout) ∧
      (sw.trace.count (.done .doSomethingElse) = 1 → .iveDoneSomethingElse ∈ sw.stdout) ∧
      (Waitgroups.pastWait sw.mainPc = true →
        sw.trace.count (.done .doSomething) = 1 ∧ sw.trace.count (.done .doSomethingElse) = 1 ∧
        .iveDoneSomething ∈ sw.stdout ∧ .iveDoneSomethingElse ∈ sw.stdout)) ∧
    (sa.trace.count (.done .makeSales) ≤ 1 ∧ sa.trace.count (.done .newPurchases) ≤ 1 ∧
      sa.trace.count (.done .main) = 0 ∧
      (sa.trace.count (.done .makeSales) = 1 → (writers sa.trace).count .makeSales = 3000) ∧
      (sa.trace.count (.done .newPurchases) = 1 →
        (writers sa.trace).count .newPurchases = 3000) ∧
      (pastWait sa.mainPc = true →
        sa.trace.count (.done .makeSales) = 1 ∧ sa.trace.count (.done .newPurchases) = 1 ∧
        (writers sa.trace).count .makeSales = 3000 ∧
        (writers sa.trace).count .newPurchases = 3000)) ∧
    (sb.trace.count (.done .makeSales) ≤ 1 ∧ sb.trace.count (.done .newPurchases) ≤ 1 ∧
      sb.trace.count (.done .main) = 0 ∧
      (sb.trace.count (.done .makeSales) = 1 → (writers sb.trace).count .makeSales = 300000) ∧
      (sb.trace.count (.done .newPurchases) = 1 →
        (writers sb.trace).count .newPurchases = 300000) ∧
      (pastWait sb.mainPc = true →
        sb.trace.count (.done .makeSales) = 1 ∧ sb.trace.count (.done .newPurchases) = 1 ∧
        (writers sb.trace).count .makeSales = 300000 ∧
        (writers sb.trace).count .newPurchases = 300000)) ∧
    (sc.trace.count (.done .makeSales) ≤ 1 ∧ sc.trace.count (.done .newPurchases) ≤ 1 ∧
      sc.trace.count (.done .main) = 0 ∧
      (sc.trace.count (.done .makeSales) = 1 → (writers sc.trace).count .makeSales = 300000) ∧
      (sc.trace.count (.done .newPurchases) = 1 →
        (writers sc.trace).count .newPurchases = 300000) ∧
      (pastWait sc.mainPc = true →
        sc.trace.count (.done .makeSales) = 1 ∧ sc.trace.count (.done .newPurchases) = 1 ∧
        (writers sc.trace).count .makeSales = 300000 ∧
        (writers sc.trace).count .newPurchases = 300000)) := by
  have hIw := Waitgroups.wgx_inv_reachable schedW sw hw
  have hIa := RaceProblem.unsync_inv_reachable schedA sa ha
  have hIb := RaceMutex.mutex_inv_reachable schedB sb hb
  have hIc := RaceAtomic.atomic_inv_reachable schedC sc hc
  refine ⟨?_, ?_, ?_, ?_⟩
  · have h1 := Waitgroups.wgx_doneCount_range sw.somethingPc
    have h2 := Waitgroups.wgx_doneCount_range sw.somethingElsePc
    have e1 := Waitgroups.wgx_doneCount_eq_one sw.somethingPc
    have e2 := Waitgroups.wgx_doneCount_eq_one sw.somethingElsePc
    obtain ⟨hC, hA, hD, hSD, hED, hMD, hSS, hES, hW, o, ho, hO⟩ := hIw
    have m1 : sw.trace.count (.done .doSomething) = 1 → .iveDoneSomething ∈ sw.stdout := by
      intro h
      have e := e1 (by omega)
      rw [e] at ho
      rw [hO]
      exact List.mem_append_left _ (wgx_something_mem o _ ho)
    have m2 : sw.trace.count (.done .doSomethingElse) = 1 →
        .iveDoneSomethingElse ∈ sw.stdout := by
      intro h
      have e := e2 (by omega)
      rw [e] at ho
      rw [hO]
      exact List.mem_append_left _ (wgx_somethingElse_mem o _ ho)
    refine ⟨by omega, by omega, hMD, m1, m2, ?_⟩
    intro hp
    obtain ⟨r1, r2⟩ := hW hp
    rw [r1] at hSD
    rw [r2] at hED
    simp only [Waitgroups.wgx_pc_simps] at hSD hED
    have c1 : sw.trace.count (.done .doSomething) = 1 := by omega
    have c2 : sw.trace.count (.done .doSomethingElse) = 1 := by omega
    exact ⟨c1, c2, m1 c1, m2 c2⟩
  · have h1 := RaceProblem.unsync_doneCount_range sa.salesPc
    have h2 := RaceProblem.unsync_doneCount_range sa.purchasesPc
    have e1 := RaceProblem.unsync_doneCount_eq_one sa.salesPc
    have e2 := RaceProblem.unsync_doneCount_eq_one sa.purchasesPc
    obtain ⟨hSR, hPR, hC, hA, hD, hSD, hPD, hMD, hSS, hPS, hW, hSW, hPW, hMW, hU, hPr⟩ := hIa
    have m1 : sa.trace.count (.done .makeSales) = 1 →
        (writers sa.trace).count .makeSales = 3000 := by
      intro h
      rw [hSW, e1 (by omega)]
      rfl
    have m2 : sa.trace.count (.done .newPurchases) = 1 →
        (writers sa.trace).count .newPurchases = 3000 := by
      intro h
      rw [hPW, e2 (by omega)]
      rfl
    refine ⟨by omega, by omega, hMD, m1, m2, ?_⟩
    intro hp
    obtain ⟨r1, r2⟩ := hW hp
    rw [r1] at hSD
    rw [r2] at hPD
    simp only [RaceProblem.unsync_pc_simps] at hSD hPD
    have c1 : sa.trace.count (.done .makeSales) = 1 := by omega
    have c2 : sa.trace.count (.done .newPurchases) = 1 := by omega
    exact ⟨c1, c2, m1 c1, m2 c2⟩
  · have h1 := RaceMutex.mutex_doneCount_range sb.salesPc
    have h2 := RaceMutex.mutex_doneCount_range sb.purchasesPc
    have e1 := RaceMutex.mutex_doneCount_eq_one sb.salesPc
    have e2 := RaceMutex.mutex_doneCount_eq_one sb.purchasesPc
    obtain ⟨hSR, hPR, hLH, hEX, hC, hA, hD, hSD, hPD, hMD, hSS, hPS, hW, hSW, hPW, hMW, hV,
      hSer, hPr⟩ := hIb
    have m1 : sb.trace.count (.done .makeSales) = 1 →
        (writers sb.trace).count .makeSales = 300000 := by
      intro h
      rw [hSW, e1 (by omega)]
      rfl
    have m2 : sb.trace.count (.done .newPurchases) = 1 →
        (writers sb.trace).count .newPurchases = 300000 := by
      intro h
      rw [hPW, e2 (by omega)]
      rfl
    refine ⟨by omega, by omega, hMD, m1, m2, ?_⟩
    intro hp
    obtain ⟨r1, r2⟩ := hW hp
    rw [r1] at hSD
    rw [r2] at hPD
    simp only [RaceMutex.mutex_pc_simps] at hSD hPD
    have c1 : sb.trace.count (.done .makeSales) = 1 := by omega
    have c2 : sb.trace.count (.done .newPurchases) = 1 := by omega
    exact ⟨c1, c2, m1 c1, m2 c2⟩
  · have h1 := RaceAtomic.atomic_doneCount_range sc.salesPc
    have h2 := RaceAtomic.atomic_doneCount_range sc.purchasesPc
    have e1 := RaceAtomic.atomic_doneCount_eq_one sc.salesPc
    have e2 := RaceAtomic.atomic_doneCount_eq_one sc.purchasesPc
    obtain ⟨hSR, hPR, hC, hA, hD, hSD, hPD, hMD, hSS, hPS, hW, hSW, hPW, hMW, hV, hSer, hPr⟩ :=
      hIc
    have m1 : sc.trace.count (.done .makeSales) = 1 →
        (writers sc.trace).count .makeSales = 300000 := by
      intro h
      rw [hSW, e1 (by omega)]
      rfl
    have m2 : sc.trace.count (.done .newPurchases) = 1 →
        (writers sc.trace).count .newPurchases = 300000 := by
      intro h
      rw [hPW, e2 (by omega)]
      rfl
    refine ⟨by omega, by omega, hMD, m1, m2, ?_⟩
    intro hp
    obtain ⟨r1, r2⟩ := hW hp
    rw [r1] at hSD
    rw [r2] at hPD
    simp only [RaceAtomic.atomic_pc_simps] at hSD hPD
    have c1 : sc.trace.count (.done .makeSales) = 1 := by omega
    have c2 : sc.trace.count (.done .newPurchases) = 1 := by omega
    exact ⟨c1, c2, m1 c1, m2 c2⟩

/-- C9, witness: at the end of the four programs' sequential schedules every
task has called `Done` exactly once and has run its whole body. -/
theorem done_once_after_body_witness :
    ∃ (sw : Waitgroups.State) (sa : RaceProblem.State) (sb : RaceMutex.State)
      (sc : RaceAtomic.State),
      Waitgroups.run Waitgroups.somethingElseFirst Waitgroups.init = some sw ∧
      RaceProblem.run RaceProblem.sequential RaceProblem.init = some sa ∧
      RaceMutex.run RaceMutex.sequential RaceMutex.init = some sb ∧
      RaceAtomic.run RaceAtomic.sequential RaceAtomic.init = some sc ∧
      sw.trace.count (.done .doSomething) = 1 ∧
      sa.trace.count (.done .makeSales) = 1 ∧ (writers sa.trace).count .makeSales = 3000 ∧
      sb.trace.count (.done .makeSales) = 1 ∧ (writers sb.trace).count .makeSales = 300000 ∧
      sc.trace.count (.done .makeSales) = 1 ∧ (writers sc.trace).count .makeSales = 300000 := by
  obtain ⟨sw, hw, hmw, _⟩ := wgx_run_somethingElseFirst
  obtain ⟨sa, ha, hma, _⟩ := RaceProblem.unsync_run_sequential
  obtain ⟨sb, hb, hmb⟩ := RaceMutex.mutex_run_sequential
  obtain ⟨sc, hc, hmc⟩ := RaceAtomic.atomic_run_sequential
  have h := done_once_after_body _ sw hw _ sa ha _ sb hb _ sc hc
  have hpw := h.1.2.2.2.2.2 (by rw [hmw]; rfl)
  have hpa := h.2.1.2.2.2.2.2 (by rw [hma]; rfl)
  have hpb := h.2.2.1.2.2.2.2.2 (by rw [hmb]; rfl)
  have hpc := h.2.2.2.2.2.2.2.2 (by rw [hmc]; rfl)
  exact ⟨sw, sa, sb, sc, hw, ha, hb, hc, hpw.1, hpa.1, hpa.2.2.1, hpb.1, hpb.2.2.1, hpc.1,
    hpc.2.2.1⟩

/-- In every reachable state of the WaitGroup program stdout is one of nine
lists. -/
theorem wgx_stdout_cases (s : Waitgroups.State) (h : Waitgroups.Inv s) :
    s.stdout ∈ Waitgroups.possibleOutputs := by
  obtain ⟨hC, hA, hD, hSD, hED, hMD, hSS, hES, hW, o, ho, hO⟩ := h
  by_cases hp : Waitgroups.pastWait s.mainPc = true
  · obtain ⟨r1, r2⟩ := hW hp
    rw [r1, r2] at ho
    simp only [Waitgroups.wgx_pc_simps, Waitgroups.taskOutputs] at ho
    cases hm : s.mainPc <;> rw [hm] at hp hO <;>
      simp only [Waitgroups.pastWait, Waitgroups.mainOutput] at hp hO <;>
      first
      | (cases hp; done)
      | (simp at ho
         rcases ho with rfl | rfl <;> simp [hO, Waitgroups.possibleOutputs])
  · have hnil := Waitgroups.wgx_mainOutput_nil s.mainPc (by simpa using hp)
    rw [hnil, List.append_nil] at hO
    rw [hO]
    cases h1 : s.somethingPc.printed <;> cases h2 : s.somethingElsePc.printed <;>
      rw [h1, h2] at ho <;> simp [Waitgroups.taskOutputs] at ho <;>
      rcases ho with rfl | rfl <;> simp [Waitgroups.possibleOutputs]

/-- C5. Output order of the Waitgroups example. In every reachable state stdout
is one of the nine lists of `possibleOutputs`; whenever the line at position `k`
is "I guess I'm done", both task messages are among the `k` lines before it, and
whenever it is the elapsed-time line, "I guess I'm done" is among the lines
before it. The order of the two task messages is not fixed: one schedule prints
"I've done something" first, another prints "I've done something else" first. -/
theorem waitgroups_output_order (sched : List Waitgroups.Thread) (s : Waitgroups.State)
    (hr : Waitgroups.run sched Waitgroups.init = some s) :
    s.stdout ∈ Waitgroups.possibleOutputs ∧
    (∀ k, s.stdout[k]? = some .iGuessImDone →
      .iveDoneSomething ∈ s.stdout.take k ∧ .iveDoneSomethingElse ∈ s.stdout.take k) ∧
    (∀ k, s.stdout[k]? = some .processesTook →
      .iGuessImDone ∈ s.stdout.take k ∧
      .iveDoneSomething ∈ s.stdout.take k ∧ .iveDoneSomethingElse ∈ s.stdout.take k) ∧
    (∃ s1, Waitgroups.run Waitgroups.somethingFirst Waitgroups.init = some s1 ∧
      s1.stdout = [.iveDoneSomething, .iveDoneSomethingElse, .iGuessImDone, .processesTook]) ∧
    (∃ s2, Waitgroups.run Waitgroups.somethingElseFirst Waitgroups.init = some s2 ∧
      s2.stdout = [.iveDoneSomethingElse, .iveDoneSomething, .iGuessImDone, .processesTook]) := by
  have hI := Waitgroups.wgx_inv_reachable sched s hr
  have hc := wgx_stdout_cases s hI
  refine ⟨hc, ?_, ?_, ?_, ?_⟩
  · intro k hk
    simp only [Waitgroups.possibleOutputs, List.mem_cons, List.mem_singleton,
      List.not_mem_nil, or_false] at hc
    rcases hc with h | h | h | h | h | h | h | h | h <;> rw [h] at hk ⊢ <;>
      rcases k with _ | _ | _ | _ | k <;> simp at hk ⊢
  · intro k hk
    simp only [Waitgroups.possibleOutputs, List.mem_cons, List.mem_singleton,
      List.not_mem_nil, or_false] at hc
    rcases hc with h | h | h | h | h | h | h | h | h <;> rw [h] at hk ⊢ <;>
      rcases k with _ | _ | _ | _ | k <;> simp at hk ⊢
  · obtain ⟨s1, h1, _, h2⟩ := wgx_run_somethingFirst
    exact ⟨s1, h1, h2⟩
  · obtain ⟨s2, h1, _, h2⟩ := wgx_run_somethingElseFirst
    exact ⟨s2, h1, h2⟩

/-- C5, witness: the complete schedule in which `doSomething` prints first. -/
theorem waitgroups_output_order_witness :
    ∃ s, Waitgroups.run Waitgroups.somethingFirst Waitgroups.init = some s ∧
      s.stdout = [.iveDoneSomething, .iveDoneSomethingElse, .iGuessImDone, .processesTook] ∧
      (∀ k, s.stdout[k]? = some .iGuessImDone →
        .iveDoneSomething ∈ s.stdout.take k ∧ .iveDoneSomethingElse ∈ s.stdout.take k) := by
  obtain ⟨s, hs, _, ho⟩ := wgx_run_somethingFirst
  exact ⟨s, hs, ho, (waitgroups_output_order Waitgroups.somethingFirst s hs).2.1⟩

/-- A `Lock` by `makeSales` is followed, in `makeSales`, by exactly one update of
the counter and then `Unlock`. -/
theorem mutex_sales_critical_section (s s1 : RaceMutex.State) (i : Nat)
    (hpc : s.salesPc = .loop i) (hi : i < 300000) (h : RaceMutex.makeSales s = .next s1) :
    s.mutex.locked = false ∧
    s1.salesPc = .mutate i ∧ s1.mutex.locked = true ∧ s1.widgetInventory = s.widgetInventory ∧
    ∃ s2, RaceMutex.makeSales s1 = .next s2 ∧ s2.salesPc = .unlock i ∧
      s2.mutex.locked = true ∧ s2.widgetInventory = wrapInt32 (s.widgetInventory - 100) ∧
      ∃ s3, RaceMutex.makeSales s2 = .next s3 ∧ s3.salesPc = .loop (i + 1) ∧
        s3.mutex.locked = false ∧ s3.widgetInventory = s2.widgetInventory := by
  rcases RaceMutex.mutex_makeSales_next s s1 h with ⟨j, hj, _, hl, rfl⟩ | ⟨j, hj, hge, _, rfl⟩ |
    ⟨j, hj, rfl⟩ | ⟨j, hj, _, rfl⟩
  · rw [hpc] at hj
    cases hj
    refine ⟨hl, rfl, rfl, rfl,
      { s with mutex := ⟨true⟩, widgetInventory := wrapInt32 (s.widgetInventory - 100),
               trace := s.trace ++ [.write .makeSales], salesPc := .unlock i },
      rfl, rfl, rfl, rfl,
      { s with mutex := ⟨false⟩, widgetInventory := wrapInt32 (s.widgetInventory - 100),
               trace := s.trace ++ [.write .makeSales], salesPc := .loop (i + 1) },
      rfl, rfl, rfl, rfl⟩
  · rw [hpc] at hj
    cases hj
    omega
  · rw [hpc] at hj
    cases hj
  · rw [hpc] at hj
    cases hj

/-- A `Lock` by `newPurchases` is followed, in `newPurchases`, by exactly one
update of the counter and then `Unlock`. -/
theorem mutex_purchases_critical_section (s s1 : RaceMutex.State) (i : Nat)
    (hpc : s.purchasesPc = .loop i) (hi : i < 300000)
    (h : RaceMutex.newPurchases s = .next s1) :
    s.mutex.locked = false ∧
    s1.purchasesPc = .mutate i ∧ s1.mutex.locked = true ∧
    s1.widgetInventory = s.widgetInventory ∧
    ∃ s2, RaceMutex.newPurchases s1 = .next s2 ∧ s2.purchasesPc = .unlock i ∧
      s2.mutex.locked = true ∧ s2.widgetInventory = wrapInt32 (s.widgetInventory + 100) ∧
      ∃ s3, RaceMutex.newPurchases s2 = .next s3 ∧ s3.purchasesPc = .loop (i + 1) ∧
        s3.mutex.locked = false ∧ s3.widgetInventory = s2.widgetInventory := by
  rcases RaceMutex.mutex_newPurchases_next s s1 h with ⟨j, hj, _, hl, rfl⟩ |
    ⟨j, hj, hge, _, rfl⟩ | ⟨j, hj, rfl⟩ | ⟨j, hj, _, rfl⟩
  · rw [hpc] at hj
    cases hj
    refine ⟨hl, rfl, rfl, rfl,
      { s with mutex := ⟨true⟩, widgetInventory := wrapInt32 (s.widgetInventory + 100),
               trace := s.trace ++ [.write .newPurchases], purchasesPc := .unlock i },
      rfl, rfl, rfl, rfl,
      { s with mutex := ⟨false⟩, widgetInventory := wrapInt32 (s.widgetInventory + 100),
               trace := s.trace ++ [.write .newPurchases], purchasesPc := .loop (i + 1) },
      rfl, rfl, rfl, rfl⟩
  · rw [hpc] at hj
    cases hj
    omega
  · rw [hpc] at hj
    cases hj
  · rw [hpc] at hj
    cases hj

/-- Under the schedule `salesDoneWhileLocked`, `makeSales` has finished its
loop while `newPurchases` is inside its critical section. -/
theorem mutex_run_salesDoneWhileLocked :
    ∃ s, RaceMutex.run RaceMutex.salesDoneWhileLocked RaceMutex.init = some s ∧
      s.salesPc = .loop 300000 ∧ s.purchasesPc = .mutate 0 ∧ s.mutex.locked = true ∧
      s.mainPc = .wgWait ∧ s.wg = ⟨2⟩ := by
  obtain ⟨s1, h1, hpc1, hl1, hm1, hp1, hw1⟩ := RaceMutex.mutex_run_allSales
  refine ⟨{ s1 with mutex := ⟨true⟩, purchasesPc := .mutate 0 }, ?_, hpc1, rfl, rfl, hm1, hw1⟩
  rw [RaceMutex.run] at h1
  rw [RaceMutex.run, RaceMutex.salesDoneWhileLocked, ← List.append_assoc, runWith_append, h1,
    Option.some_bind]
  simp [runWith, RaceMutex.step, RaceMutex.newPurchases, hp1, hm1, hl1, Mutex.Lock]

/-- C8 as stated fails: under the schedule `salesDoneWhileLocked`, `makeSales`
has finished its loop and its next step is the `wg.Done` call, while the mutex is
locked (by `newPurchases`, which is inside its critical section). -/
theorem lock_not_free_at_done :
    ∃ s s', RaceMutex.run RaceMutex.salesDoneWhileLocked RaceMutex.init = some s ∧
      s.salesPc = .loop 300000 ∧ s.purchasesPc = .mutate 0 ∧ s.mutex.locked = true ∧
      RaceMutex.step .makeSales s = .next s' ∧ s'.salesPc = .returned ∧
      s'.trace = s.trace ++ [.done .makeSales] ∧ s'.wg.counter = s.wg.counter - 1 := by
  obtain ⟨s, hs, hpc, hpp, hl, hm, hw⟩ := mutex_run_salesDoneWhileLocked
  refine ⟨s, { s with wg := ⟨1⟩, trace := s.trace ++ [.done .makeSales], salesPc := .returned },
    hs, hpc, hpp, hl, ?_, rfl, rfl, ?_⟩
  · simp [RaceMutex.step, RaceMutex.makeSales, hpc, hm, hw, WaitGroup.Done, WaitGroup.Add]
  · simp [hw]

/-- C8, amended. Mutual exclusion in the mutex variant. In every reachable
state: `makeSales` and `newPurchases` are never both between `Lock` and
`Unlock`, and the mutex is locked exactly when one of them is; a step that
changes `widgetInventory` is taken by a task that is between its `Lock` and
`Unlock`, with the mutex locked and the other task outside its critical section,
and `main` never changes it; each `Lock` is followed in its task by exactly one
update and then `Unlock`; a task that calls `wg.Done` is not itself between
`Lock` and `Unlock` and `Done` leaves the mutex alone (it may at that moment be
locked by the other task); the mutex is free once both tasks have returned. -/
theorem mutual_exclusion (sched : List Thread) (s : RaceMutex.State)
    (hr : RaceMutex.run sched RaceMutex.init = some s) :
    ¬ (s.salesPc.holdsLock = true ∧ s.purchasesPc.holdsLock = true) ∧
    (s.mutex.locked = true ↔ (s.salesPc.holdsLock = true ∨ s.purchasesPc.holdsLock = true)) ∧
    (∀ s', RaceMutex.makeSales s = .next s' → s'.widgetInventory ≠ s.widgetInventory →
      s.salesPc.holdsLock = true ∧ s.mutex.locked = true ∧ s.purchasesPc.holdsLock = false) ∧
    (∀ s', RaceMutex.newPurchases s = .next s' → s'.widgetInventory ≠ s.widgetInventory →
      s.purchasesPc.holdsLock = true ∧ s.mutex.locked = true ∧ s.salesPc.holdsLock = false) ∧
    (∀ s', RaceMutex.main s = .next s' → s'.widgetInventory = s.widgetInventory) ∧
    (∀ i s1, s.salesPc = .loop i → i < 300000 → RaceMutex.makeSales s = .next s1 →
      s.mutex.locked = false ∧
      s1.salesPc = .mutate i ∧ s1.mutex.locked = true ∧
      s1.widgetInventory = s.widgetInventory ∧
      ∃ s2, RaceMutex.makeSales s1 = .next s2 ∧ s2.salesPc = .unlock i ∧
        s2.mutex.locked = true ∧ s2.widgetInventory = wrapInt32 (s.widgetInventory - 100) ∧
        ∃ s3, RaceMutex.makeSales s2 = .next s3 ∧ s3.salesPc = .loop (i + 1) ∧
          s3.mutex.locked = false ∧ s3.widgetInventory = s2.widgetInventory) ∧
    (∀ i s1, s.purchasesPc = .loop i → i < 300000 → RaceMutex.newPurchases s = .next s1 →
      s.mutex.locked = false ∧
      s1.purchasesPc = .mutate i ∧ s1.mutex.locked = true ∧
      s1.widgetInventory = s.widgetInventory ∧
      ∃ s2, RaceMutex.newPurchases s1 = .next s2 ∧ s2.purchasesPc = .unlock i ∧
        s2.mutex.locked = true ∧ s2.widgetInventory = wrapInt32 (s.widgetInventory + 100) ∧
        ∃ s3, RaceMutex.newPurchases s2 = .next s3 ∧ s3.purchasesPc = .loop (i + 1) ∧
          s3.mutex.locked = false ∧ s3.widgetInventory = s2.widgetInventory) ∧
    (∀ s', RaceMutex.makeSales s = .next s' → s'.trace = s.trace ++ [.done .makeSales] →
      s.salesPc.holdsLock = false ∧ s'.mutex = s.mutex) ∧
    (∀ s', RaceMutex.newPurchases s = .next s' → s'.trace = s.trace ++ [.done .newPurchases] →
      s.purchasesPc.holdsLock = false ∧ s'.mutex = s.mutex) ∧
    (s.salesPc = .returned ∧ s.purchasesPc = .returned → s.mutex.locked = false) := by
  have hI := RaceMutex.mutex_inv_reachable sched s hr
  obtain ⟨hSR, hPR, hLH, hEX, hC, hA, hD, hSD, hPD, hMD, hSS, hPS, hW, hSW, hPW, hMW, hV, hSer,
    hPr⟩ := hI
  refine ⟨hEX, ?_, ?_, ?_, ?_, ?_, ?_, ?_, ?_, ?_⟩
  · rw [hLH]
    simp
  · intro s' h hne
    rcases RaceMutex.mutex_makeSales_next s s' h with ⟨j, hj, _, hl, rfl⟩ |
      ⟨j, hj, hge, _, rfl⟩ | ⟨j, hj, rfl⟩ | ⟨j, hj, _, rfl⟩
    · exact absurd rfl hne
    · exact absurd rfl hne
    · rw [hj] at hLH hEX
      simp only [RaceMutex.mutex_pc_simps, Bool.true_or] at hLH
      simp only [RaceMutex.mutex_pc_simps, true_and, Bool.not_eq_true] at hEX
      rw [hj]
      exact ⟨rfl, hLH, hEX⟩
    · exact absurd rfl hne
  · intro s' h hne
    rcases RaceMutex.mutex_newPurchases_next s s' h with ⟨j, hj, _, hl, rfl⟩ |
      ⟨j, hj, hge, _, rfl⟩ | ⟨j, hj, rfl⟩ | ⟨j, hj, _, rfl⟩
    · exact absurd rfl hne
    · exact absurd rfl hne
    · rw [hj] at hLH hEX
      simp only [RaceMutex.mutex_pc_simps, Bool.or_true] at hLH
      simp only [RaceMutex.mutex_pc_simps, and_true, Bool.not_eq_true] at hEX
      rw [hj]
      exact ⟨rfl, hLH, hEX⟩
    · exact absurd rfl hne
  · intro s' h
    rcases RaceMutex.mutex_main_next s s' h with ⟨_, rfl⟩ | ⟨_, _, rfl⟩ | ⟨_, rfl⟩ | ⟨_, rfl⟩ |
      ⟨_, _, rfl⟩ | ⟨_, rfl⟩ <;> rfl
  · intro i s1 hpc hi h
    exact mutex_sales_critical_section s s1 i hpc hi h
  · intro i s1 hpc hi h
    exact mutex_purchases_critical_section s s1 i hpc hi h
  · intro s' h ht
    rcases RaceMutex.mutex_makeSales_next s s' h with ⟨j, hj, _, hl, rfl⟩ |
      ⟨j, hj, hge, _, rfl⟩ | ⟨j, hj, rfl⟩ | ⟨j, hj, _, rfl⟩
    · simp at ht
    · rw [hj]
      exact ⟨rfl, rfl⟩
    · simp at ht
    · simp at ht
  · intro s' h ht
    rcases RaceMutex.mutex_newPurchases_next s s' h with ⟨j, hj, _, hl, rfl⟩ |
      ⟨j, hj, hge, _, rfl⟩ | ⟨j, hj, rfl⟩ | ⟨j, hj, _, rfl⟩
    · simp at ht
    · rw [hj]
      exact ⟨rfl, rfl⟩
    · simp at ht
    · simp at ht
  · rintro ⟨h1, h2⟩
    rw [hLH, h1, h2]
    rfl

/-- C8, witness: the state in which `makeSales` has finished its loop and
`newPurchases` is inside its critical section. -/
theorem mutual_exclusion_witness :
    ∃ s, RaceMutex.run RaceMutex.salesDoneWhileLocked RaceMutex.init = some s ∧
      s.purchasesPc.holdsLock = true ∧ s.salesPc.holdsLock = false ∧
      (s.mutex.locked = true ↔
        (s.salesPc.holdsLock = true ∨ s.purchasesPc.holdsLock = true)) := by
  obtain ⟨s, hs, h1, h2, _⟩ := mutex_run_salesDoneWhileLocked
  refine ⟨s, hs, ?_, ?_, (mutual_exclusion RaceMutex.salesDoneWhileLocked s hs).2.1⟩
  · rw [h2]; rfl
  · rw [h1]; rfl

/-- C6 as stated fails: the unsynchronized program does not use the iteration
count 300000 of the other two. In its complete sequential run each task performs
3000 updates of the counter. -/
theorem unsync_iteration_count_differs :
    ∃ s, RaceProblem.run RaceProblem.sequential RaceProblem.init = some s ∧
      s.mainPc = .exited ∧ s.salesPc = .returned ∧ s.purchasesPc = .returned ∧
      (writers s.trace).count .makeSales = 3000 ∧
      (writers s.trace).count .newPurchases = 3000 ∧
      (writers s.trace).count .makeSales ≠ 300000 ∧
      (writers s.trace).count .newPurchases ≠ 300000 := by
  obtain ⟨s, hs, hm, h1, h2, _⟩ := RaceProblem.unsync_run_sequential
  have hI := RaceProblem.unsync_inv_reachable _ s hs
  have c1 : (writers s.trace).count .makeSales = 3000 := by
    rw [hI.salesWrites, h1]; rfl
  have c2 : (writers s.trace).count .newPurchases = 3000 := by
    rw [hI.purchasesWrites, h2]; rfl
  exact ⟨s, hs, hm, h1, h2, c1, c2, by omega, by omega⟩

/-- C6, amended. The three counter variants initialize the counter to 1000; only
the two tasks update it, `makeSales` by subtracting 100 (from the value it read)
and `newPurchases` by adding 100; within each program both tasks run the same
number of iterations, which is 3000 in the unsynchronized program and 300000 in
the mutex and atomic programs: a task never performs more updates than that, and
has performed exactly that many when it has returned. -/
theorem same_parameters_per_program
    (schedA : List Thread) (sa : RaceProblem.State)
    (ha : RaceProblem.run schedA RaceProblem.init = some sa)
    (schedB : List Thread) (sb : RaceMutex.State)
    (hb : RaceMutex.run schedB RaceMutex.init = some sb)
    (schedC : List Thread) (sc : RaceAtomic.State)
    (hc : RaceAtomic.run schedC RaceAtomic.init = some sc) :
    (RaceProblem.init.widgetInventory = 1000 ∧ RaceMutex.init.widgetInventory = 1000 ∧
      RaceAtomic.init.widgetInventory = 1000) ∧
    ((writers sa.trace).count .main = 0 ∧
      (writers sa.trace).count .makeSales ≤ 3000 ∧
      (writers sa.trace).count .newPurchases ≤ 3000 ∧
      (sa.salesPc = .returned → (writers sa.trace).count .makeSales = 3000) ∧
      (sa.purchasesPc = .returned → (writers sa.trace).count .newPurchases = 3000) ∧
      (∀ s', RaceProblem.makeSales sa = .next s' →
        s'.widgetInventory = sa.widgetInventory ∨
        ∃ i v, sa.salesPc = .store i v ∧ s'.widgetInventory = wrapInt32 (v - 100)) ∧
      (∀ s', RaceProblem.newPurchases sa = .next s' →
        s'.widgetInventory = sa.widgetInventory ∨
        ∃ i v, sa.purchasesPc = .store i v ∧ s'.widgetInventory = wrapInt32 (v + 100)) ∧
      (∀ s', RaceProblem.main sa = .next s' → s'.widgetInventory = sa.widgetInventory)) ∧
    ((writers sb.trace).count .main = 0 ∧
      (writers sb.trace).count .makeSales ≤ 300000 ∧
      (writers sb.trace).count .newPurchases ≤ 300000 ∧
      (sb.salesPc = .returned → (writers sb.trace).count .makeSales = 300000) ∧
      (sb.purchasesPc = .returned → (writers sb.trace).count .newPurchases = 300000) ∧
      (∀ s', RaceMutex.makeSales sb = .next s' →
        s'.widgetInventory = sb.widgetInventory ∨
        s'.widgetInventory = wrapInt32 (sb.widgetInventory - 100)) ∧
      (∀ s', RaceMutex.newPurchases sb = .next s' →
        s'.widgetInventory = sb.widgetInventory ∨
        s'.widgetInventory = wrapInt32 (sb.widgetInventory + 100)) ∧
      (∀ s', RaceMutex.main sb = .next s' → s'.widgetInventory = sb.widgetInventory)) ∧
    ((writers sc.trace).count .main = 0 ∧
      (writers sc.trace).count .makeSales ≤ 300000 ∧
      (writers sc.trace).count .newPurchases ≤ 300000 ∧
      (sc.salesPc = .returned → (writers sc.trace).count .makeSales = 300000) ∧
      (sc.purchasesPc = .returned → (writers sc.trace).count .newPurchases = 300000) ∧
      (∀ s', RaceAtomic.makeSales sc = .next s' →
        s'.widgetInventory = sc.widgetInventory ∨
        s'.widgetInventory = atomicAddInt32 sc.widgetInventory (-100)) ∧
      (∀ s', RaceAtomic.newPurchases sc = .next s' →
        s'.widgetInventory = sc.widgetInventory ∨
        s'.widgetInventory = atomicAddInt32 sc.widgetInventory 100) ∧
      (∀ s', RaceAtomic.main sc = .next s' → s'.widgetInventory = sc.widgetInventory)) := by
  have hIa := RaceProblem.unsync_inv_reachable schedA sa ha
  have hIb := RaceMutex.mutex_inv_reachable schedB sb hb
  have hIc := RaceAtomic.atomic_inv_reachable schedC sc hc
  refine ⟨⟨rfl, rfl, rfl⟩, ⟨hIa.mainWrites, ?_, ?_, ?_, ?_, ?_, ?_, ?_⟩,
    ⟨hIb.mainWrites, ?_, ?_, ?_, ?_, ?_, ?_, ?_⟩, ⟨hIc.mainWrites, ?_, ?_, ?_, ?_, ?_, ?_, ?_⟩⟩
  · rw [hIa.salesWrites]; exact RaceProblem.unsync_applied_le _ hIa.salesRange
  · rw [hIa.purchasesWrites]; exact RaceProblem.unsync_applied_le _ hIa.purchasesRange
  · intro h; rw [hIa.salesWrites, h]; rfl
  · intro h; rw [hIa.purchasesWrites, h]; rfl
  · intro s' h
    rcases RaceProblem.unsync_makeSales_next sa s' h with ⟨i, _, _, rfl⟩ | ⟨i, _, _, _, rfl⟩ |
      ⟨i, v, hpc, rfl⟩
    · exact Or.inl rfl
    · exact Or.inl rfl
    · exact Or.inr ⟨i, v, hpc, rfl⟩
  · intro s' h
    rcases RaceProblem.unsync_newPurchases_next sa s' h with ⟨i, _, _, rfl⟩ |
      ⟨i, _, _, _, rfl⟩ | ⟨i, v, hpc, rfl⟩
    · exact Or.inl rfl
    · exact Or.inl rfl
    · exact Or.inr ⟨i, v, hpc, rfl⟩
  · intro s' h
    rcases RaceProblem.unsync_main_next sa s' h with ⟨_, rfl⟩ | ⟨_, _, rfl⟩ | ⟨_, rfl⟩ |
      ⟨_, rfl⟩ | ⟨_, _, rfl⟩ | ⟨_, rfl⟩ <;> rfl
  · rw [hIb.salesWrites]; exact RaceMutex.mutex_applied_le _ hIb.salesRange
  · rw [hIb.purchasesWrites]; exact RaceMutex.mutex_applied_le _ hIb.purchasesRange
  · intro h; rw [hIb.salesWrites, h]; rfl
  · intro h; rw [hIb.purchasesWrites, h]; rfl
  · intro s' h
    rcases RaceMutex.mutex_makeSales_next sb s' h with ⟨j, _, _, _, rfl⟩ | ⟨j, _, _, _, rfl⟩ |
      ⟨j, _, rfl⟩ | ⟨j, _, _, rfl⟩
    · exact Or.inl rfl
    · exact Or.inl rfl
    · exact Or.inr rfl
    · exact Or.inl rfl
  · intro s' h
    rcases RaceMutex.mutex_newPurchases_next sb s' h with ⟨j, _, _, _, rfl⟩ |
      ⟨j, _, _, _, rfl⟩ | ⟨j, _, rfl⟩ | ⟨j, _, _, rfl⟩
    · exact Or.inl rfl
    · exact Or.inl rfl
    · exact Or.inr rfl
    · exact Or.inl rfl
  · intro s' h
    rcases RaceMutex.mutex_main_next sb s' h with ⟨_, rfl⟩ | ⟨_, _, rfl⟩ | ⟨_, rfl⟩ |
      ⟨_, rfl⟩ | ⟨_, _, rfl⟩ | ⟨_, rfl⟩ <;> rfl
  · rw [hIc.salesWrites]; exact RaceAtomic.atomic_applied_le _ hIc.salesRange
  · rw [hIc.purchasesWrites]; exact RaceAtomic.atomic_applied_le _ hIc.purchasesRange
  · intro h; rw [hIc.salesWrites, h]; rfl
  · intro h; rw [hIc.purchasesWrites, h]; rfl
  · intro s' h
    rcases RaceAtomic.atomic_makeSales_next sc s' h with ⟨j, _, _, rfl⟩ | ⟨j, _, _, _, rfl⟩
    · exact Or.inr rfl
    · exact Or.inl rfl
  · intro s' h
    rcases RaceAtomic.atomic_newPurchases_next sc s' h with ⟨j, _, _, rfl⟩ | ⟨j, _, _, _, rfl⟩
    · exact Or.inr rfl
    · exact Or.inl rfl
  · intro s' h
    rcases RaceAtomic.atomic_main_next sc s' h with ⟨_, rfl⟩ | ⟨_, _, rfl⟩ | ⟨_, rfl⟩ |
      ⟨_, rfl⟩ | ⟨_, _, rfl⟩ | ⟨_, rfl⟩ <;> rfl

/-- C6, witness: the three programs' sequential schedules; at their end each
task has performed 3000, 300000 and 300000 updates respectively. -/
theorem same_parameters_per_program_witness :
    ∃ (sa : RaceProblem.State) (sb : RaceMutex.State) (sc : RaceAtomic.State),
      RaceProblem.run RaceProblem.sequential RaceProblem.init = some sa ∧
      RaceMutex.run RaceMutex.sequential RaceMutex.init = some sb ∧
      RaceAtomic.run RaceAtomic.sequential RaceAtomic.init = some sc ∧
      (writers sa.trace).count .makeSales = 3000 ∧
      (writers sb.trace).count .makeSales = 300000 ∧
      (writers sc.trace).count .makeSales = 300000 := by
  obtain ⟨sa, ha, hma, hra, _⟩ := RaceProblem.unsync_run_sequential
  obtain ⟨sb, hb, hmb⟩ := RaceMutex.mutex_run_sequential
  obtain ⟨sc, hc, hmc⟩ := RaceAtomic.atomic_run_sequential
  have h := same_parameters_per_program _ sa ha _ sb hb _ sc hc
  have hrb := ((RaceMutex.mutex_inv_reachable _ sb hb).waited (by rw [hmb]; rfl)).1
  have hrc := ((RaceAtomic.atomic_inv_reachable _ sc hc).waited (by rw [hmc]; rfl)).1
  exact ⟨sa, sb, sc, ha, hb, hc, h.2.1.2.2.2.1 hra, h.2.2.1.2.2.2.1 hrb, h.2.2.2.2.2.2.1 hrc⟩

/-- C7 fails on the code: a complete run of `makeSales` sells, and a complete run
of `newPurchases` purchases, 300000 * 100 = 30000000 widgets in the mutex and
atomic programs and 3000 * 100 = 300000 widgets in the unsynchronized program,
not the 1000000 of the comments. -/
theorem widgets_per_complete_run :
    (∃ s, RaceMutex.run RaceMutex.sequential RaceMutex.init = some s ∧ s.mainPc = .exited ∧
      100 * (writers s.trace).count .makeSales = 30000000 ∧
      100 * (writers s.trace).count .newPurchases = 30000000) ∧
    (∃ s, RaceAtomic.run RaceAtomic.sequential RaceAtomic.init = some s ∧ s.mainPc = .exited ∧
      100 * (writers s.trace).count .makeSales = 30000000 ∧
      100 * (writers s.trace).count .newPurchases = 30000000) ∧
    (∃ s, RaceProblem.run RaceProblem.sequential RaceProblem.init = some s ∧
      s.mainPc = .exited ∧
      100 * (writers s.trace).count .makeSales = 300000 ∧
      100 * (writers s.trace).count .newPurchases = 300000) ∧
    (∃ s, RaceMutex.run (RaceMutex.launch ++ RaceMutex.allSales) RaceMutex.init = some s ∧
      s.salesPc = .loop 300000 ∧ s.purchasesPc = .loop 0 ∧
      RaceMutex.init.widgetInventory - s.widgetInventory = 30000000) := by
  refine ⟨?_, ?_, ?_, ?_⟩
  · obtain ⟨s, hs, hm⟩ := RaceMutex.mutex_run_sequential
    have hI := RaceMutex.mutex_inv_reachable _ s hs
    obtain ⟨h1, h2⟩ := hI.waited (by rw [hm]; rfl)
    refine ⟨s, hs, hm, ?_, ?_⟩
    · rw [hI.salesWrites, h1]; rfl
    · rw [hI.purchasesWrites, h2]; rfl
  · obtain ⟨s, hs, hm⟩ := RaceAtomic.atomic_run_sequential
    have hI := RaceAtomic.atomic_inv_reachable _ s hs
    obtain ⟨h1, h2⟩ := hI.waited (by rw [hm]; rfl)
    refine ⟨s, hs, hm, ?_, ?_⟩
    · rw [hI.salesWrites, h1]; rfl
    · rw [hI.purchasesWrites, h2]; rfl
  · obtain ⟨s, hs, hm, h1, h2, _⟩ := RaceProblem.unsync_run_sequential
    have hI := RaceProblem.unsync_inv_reachable _ s hs
    refine ⟨s, hs, hm, ?_, ?_⟩
    · rw [hI.salesWrites, h1]; rfl
    · rw [hI.purchasesWrites, h2]; rfl
  · obtain ⟨s, hs, hpc, _, _, hpp, _⟩ := RaceMutex.mutex_run_allSales
    have hI := RaceMutex.mutex_inv_reachable _ s hs
    refine ⟨s, hs, hpc, hpp, ?_⟩
    have hv := hI.value
    rw [hpc, hpp] at hv
    simp only [RaceMutex.mutex_pc_simps] at hv
    have h0 : RaceMutex.init.widgetInventory = 1000 := rfl
    rw [h0, hv]
    norm_num


end GoUpConcur
